import Mathlib

/-!
Verification of the rascaline neighbor-list calculator core.

This file gives a shallow embedding of the Rust sources of the repository:

* `src/rascaline/src/calculators/neighbor_list.rs` — the `NeighborList`
  calculator with its half and full variants (`sort_pair`, the key builders,
  the sample builders, `positions_gradient_samples`, and both `compute`
  functions);
* `src/rascaline/src/descriptor/indexes/species.rs` — the
  `AtomSpeciesSamples::gradients_for` sample builder;
* `src/rascaline/src/descriptor/descriptor.rs` — `Descriptor::densify` and
  `remove_from_indexes`;
* `src/rascaline-c-api/src/system.rs` — the `System` implementation over a
  `rascal_system_t` virtual table.

Machine floats only ever undergo assignment and negation in the modelled
code, both of which are exact, so `f64` values are embedded as `ℚ`.
Rust panics are embedded as `Option.none` (or a dedicated `panicked`
constructor), recoverable `Result::Err` as an explicit error value.
-/

namespace Rascaline

/-- A 3-component vector of (exactly represented) `f64` values. -/
structure Vec3 where
  x : ℚ
  y : ℚ
  z : ℚ
deriving DecidableEq

/-- Component access, `vector[0] / vector[1] / vector[2]` in the Rust code. -/
def Vec3.comp (v : Vec3) : Nat → ℚ
  | 0 => v.x
  | 1 => v.y
  | 2 => v.z
  | _ => 0

/-- `-vector` (componentwise negation of a pair vector). -/
def Vec3.neg (v : Vec3) : Vec3 := ⟨-v.x, -v.y, -v.z⟩

/-- A neighbor-list pair as produced by a `System`
(`Pair { first, second, vector, .. }`); the `distance` field is never read by
the modelled code, so it is omitted. -/
structure NLPair where
  first : Nat
  second : Nat
  vector : Vec3
deriving DecidableEq

/-- A `System` as consumed by the neighbor-list calculator: the species array,
the pair list produced by `compute_neighbors`, and whether
`compute_neighbors` succeeds (it returns `Result<(), Error>` in the Rust
trait; a `false` flag embeds a system whose neighbor-list computation
errors). -/
structure NLSystem where
  species : List Int
  pairs : List NLPair
  neighborsOk : Bool
deriving DecidableEq

/-- `system.species()[i]` (slice indexing). -/
def NLSystem.speciesAt (sys : NLSystem) (i : Nat) : Int :=
  sys.species.getD i 0

/-- The error type surfaced by the calculator (`Error::NeighborList` is the
only recoverable error the modelled code produces). -/
inductive Err where
  | neighborList
deriving DecidableEq

/-- `compute_neighbors(cutoff)` on a system: `Ok(())` or a `NeighborList`
error. -/
def NLSystem.computeNeighbors (sys : NLSystem) : Except Err Unit :=
  if sys.neighborsOk then .ok () else .error .neighborList

/-- `fn sort_pair((i, j): (i32, i32)) -> ((i32, i32), bool)`: sort a pair of
species, returning `true` when the pair was inverted. -/
def sortPair (i j : Int) : (Int × Int) × Bool :=
  if i ≤ j then ((i, j), false) else ((j, i), true)

/-- `Labels::position`: the insertion index of a row in a `Labels` list. -/
def position {α : Type} [DecidableEq α] : List α → α → Option Nat
  | [], _ => none
  | x :: xs, r => if x = r then some 0 else (position xs r).map (· + 1)

theorem position_get? {α : Type} [DecidableEq α] :
    ∀ (l : List α) (r : α) (n : Nat), position l r = some n → l.get? n = some r := by
  intro l
  induction l with
  | nil => intro r n h; simp [position] at h
  | cons x xs ih =>
    intro r n h
    rw [position] at h
    by_cases hx : x = r
    · rw [if_pos hx] at h
      injection h with h
      subst h
      simpa using hx
    · rw [if_neg hx] at h
      cases hm : position xs r with
      | none => rw [hm] at h; simp at h
      | some m =>
        rw [hm] at h
        simp only [Option.map_some'] at h
        injection h with h
        subst h
        simpa using ih r m hm

theorem position_of_mem {α : Type} [DecidableEq α] :
    ∀ (l : List α) (r : α), r ∈ l → ∃ n, position l r = some n := by
  intro l
  induction l with
  | nil => intro r h; cases h
  | cons x xs ih =>
    intro r h
    by_cases hx : x = r
    · exact ⟨0, by simp [position, hx]⟩
    · rcases List.mem_cons.mp h with h | h
      · exact absurd h.symm hx
      · obtain ⟨n, hn⟩ := ih r h
        exact ⟨n + 1, by simp [position, hx, hn]⟩

/-- Two different rows of a list cannot share the same `position`. -/
theorem position_ne_of_row_ne {α : Type} [DecidableEq α]
    (l : List α) {r₁ r₂ : α} {n₁ n₂ : Nat} (h₁ : position l r₁ = some n₁)
    (h₂ : position l r₂ = some n₂) (hne : r₁ ≠ r₂) : n₁ ≠ n₂ := by
  intro h
  apply hne
  have g₁ := position_get? l r₁ n₁ h₁
  have g₂ := position_get? l r₂ n₂ h₂
  rw [h] at g₁
  rw [g₁] at g₂
  exact Option.some.inj g₂

/-- Strict lexicographic order on species pairs: the iteration order of a
`BTreeSet<(i32, i32)>`. -/
def pairLt (a b : Int × Int) : Prop :=
  a.1 < b.1 ∨ (a.1 = b.1 ∧ a.2 < b.2)

instance : DecidablePred fun ab : (Int × Int) × (Int × Int) => pairLt ab.1 ab.2 :=
  fun _ => by unfold pairLt; infer_instance

instance (a b : Int × Int) : Decidable (pairLt a b) := by
  unfold pairLt; infer_instance

theorem pairLt_irrefl (a : Int × Int) : ¬ pairLt a a := by
  simp [pairLt]

theorem pairLt_trans {a b c : Int × Int} (hab : pairLt a b) (hbc : pairLt b c) :
    pairLt a c := by
  rcases hab with h | ⟨h1, h2⟩ <;> rcases hbc with g | ⟨g1, g2⟩
  · exact Or.inl (h.trans g)
  · exact Or.inl (g1 ▸ h)
  · exact Or.inl (h1 ▸ g)
  · exact Or.inr ⟨h1.trans g1, h2.trans g2⟩

theorem pairLt_total {a b : Int × Int} (hne : a ≠ b) :
    pairLt a b ∨ pairLt b a := by
  rcases lt_trichotomy a.1 b.1 with h | h | h
  · exact Or.inl (Or.inl h)
  · rcases lt_trichotomy a.2 b.2 with h2 | h2 | h2
    · exact Or.inl (Or.inr ⟨h, h2⟩)
    · exact absurd (Prod.ext h h2) hne
    · exact Or.inr (Or.inr ⟨h.symm, h2⟩)
  · exact Or.inr (Or.inl h)

/-- Insertion into a `BTreeSet<(i32, i32)>`: keep the list strictly sorted,
ignore an element already present. -/
def insertSorted (x : Int × Int) : List (Int × Int) → List (Int × Int)
  | [] => [x]
  | y :: ys =>
    if pairLt x y then x :: y :: ys
    else if x = y then y :: ys
    else y :: insertSorted x ys

theorem mem_insertSorted {x a : Int × Int} :
    ∀ {l : List (Int × Int)}, a ∈ insertSorted x l ↔ a = x ∨ a ∈ l := by
  intro l
  induction l with
  | nil => simp [insertSorted]
  | cons y ys ih =>
    by_cases h1 : pairLt x y
    · rw [insertSorted, if_pos h1]
      simp
    · by_cases h2 : x = y
      · subst h2
        rw [insertSorted, if_neg h1, if_pos rfl]
        simp
      · rw [insertSorted, if_neg h1, if_neg h2]
        simp [ih]
        tauto

theorem sorted_insertSorted (x : Int × Int) :
    ∀ {l : List (Int × Int)}, l.Pairwise pairLt → (insertSorted x l).Pairwise pairLt := by
  intro l
  induction l with
  | nil => intro _; simp [insertSorted]
  | cons y ys ih =>
    intro hs
    rw [List.pairwise_cons] at hs
    obtain ⟨hy, hys⟩ := hs
    by_cases h1 : pairLt x y
    · rw [insertSorted, if_pos h1, List.pairwise_cons]
      refine ⟨?_, List.pairwise_cons.mpr ⟨hy, hys⟩⟩
      intro a ha
      rcases List.mem_cons.mp ha with rfl | ha
      · exact h1
      · exact pairLt_trans h1 (hy a ha)
    · by_cases h2 : x = y
      · rw [insertSorted, if_neg h1, if_pos h2]
        exact List.pairwise_cons.mpr ⟨hy, hys⟩
      · rw [insertSorted, if_neg h1, if_neg h2, List.pairwise_cons]
        refine ⟨?_, ih hys⟩
        intro a ha
        rcases mem_insertSorted.mp ha with rfl | ha
        · rcases pairLt_total h2 with h | h
          · exact absurd h h1
          · exact h
        · exact hy a ha

theorem nodup_of_pairwise_pairLt {l : List (Int × Int)}
    (h : l.Pairwise pairLt) : l.Nodup := by
  refine h.imp ?_
  intro a b hab
  intro hEq
  exact pairLt_irrefl a (hEq ▸ hab)

/-! ## Key builders

`HalfNeighborList::keys` and `FullNeighborList::keys` accumulate species pairs
in a `BTreeSet` while scanning the neighbor lists of all systems, then emit
the set contents in order. -/

/-- The inner pair loop of `HalfNeighborList::keys`: insert the sorted species
pair of every pair of the system into the set. -/
def halfKeysPairs (species : List Int) : List NLPair → List (Int × Int) → List (Int × Int)
  | [], acc => acc
  | p :: ps, acc =>
    halfKeysPairs species ps
      (insertSorted (sortPair (species.getD p.first 0) (species.getD p.second 0)).1 acc)

/-- The system loop of `HalfNeighborList::keys`. -/
def halfKeysAux : List NLSystem → List (Int × Int) → Except Err (List (Int × Int))
  | [], acc => .ok acc
  | sys :: rest, acc =>
    match sys.computeNeighbors with
    | .error e => .error e
    | .ok () => halfKeysAux rest (halfKeysPairs sys.species sys.pairs acc)

/-- `HalfNeighborList::keys`. -/
def halfKeys (systems : List NLSystem) : Except Err (List (Int × Int)) :=
  halfKeysAux systems []

/-- The inner pair loop of `FullNeighborList::keys`: insert both orientations
of the species pair. -/
def fullKeysPairs (species : List Int) : List NLPair → List (Int × Int) → List (Int × Int)
  | [], acc => acc
  | p :: ps, acc =>
    fullKeysPairs species ps
      (insertSorted (species.getD p.second 0, species.getD p.first 0)
        (insertSorted (species.getD p.first 0, species.getD p.second 0) acc))

/-- The system loop of `FullNeighborList::keys`. -/
def fullKeysAux : List NLSystem → List (Int × Int) → Except Err (List (Int × Int))
  | [], acc => .ok acc
  | sys :: rest, acc =>
    match sys.computeNeighbors with
    | .error e => .error e
    | .ok () => fullKeysAux rest (fullKeysPairs sys.species sys.pairs acc)

/-- `FullNeighborList::keys`. -/
def fullKeys (systems : List NLSystem) : Except Err (List (Int × Int)) :=
  fullKeysAux systems []

theorem sorted_halfKeysPairs (species : List Int) :
    ∀ (ps : List NLPair) {acc : List (Int × Int)}, acc.Pairwise pairLt →
      (halfKeysPairs species ps acc).Pairwise pairLt := by
  intro ps
  induction ps with
  | nil => intro acc h; exact h
  | cons p ps ih => intro acc h; exact ih (sorted_insertSorted _ h)

theorem sorted_fullKeysPairs (species : List Int) :
    ∀ (ps : List NLPair) {acc : List (Int × Int)}, acc.Pairwise pairLt →
      (fullKeysPairs species ps acc).Pairwise pairLt := by
  intro ps
  induction ps with
  | nil => intro acc h; exact h
  | cons p ps ih =>
    intro acc h
    exact ih (sorted_insertSorted _ (sorted_insertSorted _ h))

theorem sorted_halfKeysAux :
    ∀ (systems : List NLSystem) {acc : List (Int × Int)} {ks : List (Int × Int)},
      acc.Pairwise pairLt → halfKeysAux systems acc = .ok ks → ks.Pairwise pairLt := by
  intro systems
  induction systems with
  | nil =>
    intro acc ks h hok
    rw [halfKeysAux] at hok
    cases hok
    exact h
  | cons sys rest ih =>
    intro acc ks h hok
    rw [halfKeysAux] at hok
    cases hcn : sys.computeNeighbors with
    | error e => rw [hcn] at hok; cases hok
    | ok u =>
      cases u
      rw [hcn] at hok
      exact ih (sorted_halfKeysPairs _ _ h) hok

theorem sorted_fullKeysAux :
    ∀ (systems : List NLSystem) {acc : List (Int × Int)} {ks : List (Int × Int)},
      acc.Pairwise pairLt → fullKeysAux systems acc = .ok ks → ks.Pairwise pairLt := by
  intro systems
  induction systems with
  | nil =>
    intro acc ks h hok
    rw [fullKeysAux] at hok
    cases hok
    exact h
  | cons sys rest ih =>
    intro acc ks h hok
    rw [fullKeysAux] at hok
    cases hcn : sys.computeNeighbors with
    | error e => rw [hcn] at hok; cases hok
    | ok u =>
      cases u
      rw [hcn] at hok
      exact ih (sorted_fullKeysPairs _ _ h) hok

/-- Membership is preserved by the half-keys pair loop. -/
theorem mem_halfKeysPairs_of_mem (species : List Int) :
    ∀ (ps : List NLPair) {acc : List (Int × Int)} {q : Int × Int},
      q ∈ acc → q ∈ halfKeysPairs species ps acc := by
  intro ps
  induction ps with
  | nil => intro acc q h; exact h
  | cons p ps ih =>
    intro acc q h
    exact ih (mem_insertSorted.mpr (Or.inr h))

/-- The sorted species pair of every pair of the list ends up in the set. -/
theorem sortPair_mem_halfKeysPairs (species : List Int) :
    ∀ (ps : List NLPair) (acc : List (Int × Int)) {p : NLPair}, p ∈ ps →
      (sortPair (species.getD p.first 0) (species.getD p.second 0)).1
        ∈ halfKeysPairs species ps acc := by
  intro ps
  induction ps with
  | nil => intro acc p h; cases h
  | cons p0 ps ih =>
    intro acc p h
    rcases List.mem_cons.mp h with rfl | h
    · exact mem_halfKeysPairs_of_mem species ps (mem_insertSorted.mpr (Or.inl rfl))
    · rw [halfKeysPairs]
      exact ih _ h

/-- Membership is preserved by the half-keys system loop. -/
theorem mem_halfKeysAux_of_mem :
    ∀ (systems : List NLSystem) {acc ks : List (Int × Int)} {q : Int × Int},
      halfKeysAux systems acc = .ok ks → q ∈ acc → q ∈ ks := by
  intro systems
  induction systems with
  | nil =>
    intro acc ks q hok h
    rw [halfKeysAux] at hok
    cases hok
    exact h
  | cons sys rest ih =>
    intro acc ks q hok h
    rw [halfKeysAux] at hok
    cases hcn : sys.computeNeighbors with
    | error e => rw [hcn] at hok; cases hok
    | ok u =>
      cases u
      rw [hcn] at hok
      exact ih hok (mem_halfKeysPairs_of_mem _ _ h)

/-- Every sorted species pair of every system's pair list appears in the half
keys (system-loop version, for any accumulator). -/
theorem sortPair_mem_halfKeysAux :
    ∀ (systems : List NLSystem) {acc ks : List (Int × Int)} {s : Nat}
      {sys : NLSystem} {p : NLPair},
      halfKeysAux systems acc = .ok ks → systems.get? s = some sys →
      p ∈ sys.pairs →
      (sortPair (sys.species.getD p.first 0) (sys.species.getD p.second 0)).1 ∈ ks := by
  intro systems
  induction systems with
  | nil => intro acc ks s sys p _ hsys; simp at hsys
  | cons sys0 rest ih =>
    intro acc ks s sys p hok hsys hp
    rw [halfKeysAux] at hok
    cases hcn : sys0.computeNeighbors with
    | error e => rw [hcn] at hok; cases hok
    | ok u =>
      cases u
      rw [hcn] at hok
      cases s with
      | zero =>
        injection hsys with hsys
        subst hsys
        exact mem_halfKeysAux_of_mem rest hok (sortPair_mem_halfKeysPairs _ _ _ hp)
      | succ s' =>
        exact ih hok hsys hp

/-- Every sorted species pair of every system's pair list appears in the half
keys. -/
theorem sortPair_mem_halfKeys {systems : List NLSystem} {ks : List (Int × Int)}
    {s : Nat} {sys : NLSystem} {p : NLPair}
    (hok : halfKeys systems = .ok ks) (hsys : systems.get? s = some sys)
    (hp : p ∈ sys.pairs) :
    (sortPair (sys.species.getD p.first 0) (sys.species.getD p.second 0)).1 ∈ ks :=
  sortPair_mem_halfKeysAux systems hok hsys hp

/-- Membership is preserved by the full-keys pair loop. -/
theorem mem_fullKeysPairs_of_mem (species : List Int) :
    ∀ (ps : List NLPair) {acc : List (Int × Int)} {q : Int × Int},
      q ∈ acc → q ∈ fullKeysPairs species ps acc := by
  intro ps
  induction ps with
  | nil => intro acc q h; exact h
  | cons p ps ih =>
    intro acc q h
    exact ih (mem_insertSorted.mpr (Or.inr (mem_insertSorted.mpr (Or.inr h))))

/-- Both orientations of the species pair of every pair end up in the full
keys set. -/
theorem orientations_mem_fullKeysPairs (species : List Int) :
    ∀ (ps : List NLPair) (acc : List (Int × Int)) {p : NLPair}, p ∈ ps →
      (species.getD p.first 0, species.getD p.second 0) ∈ fullKeysPairs species ps acc ∧
      (species.getD p.second 0, species.getD p.first 0) ∈ fullKeysPairs species ps acc := by
  intro ps
  induction ps with
  | nil => intro acc p h; cases h
  | cons p0 ps ih =>
    intro acc p h
    rcases List.mem_cons.mp h with rfl | h
    · constructor
      · exact mem_fullKeysPairs_of_mem species ps
          (mem_insertSorted.mpr (Or.inr (mem_insertSorted.mpr (Or.inl rfl))))
      · exact mem_fullKeysPairs_of_mem species ps (mem_insertSorted.mpr (Or.inl rfl))
    · rw [fullKeysPairs]
      exact ih _ h

/-- Membership is preserved by the full-keys system loop. -/
theorem mem_fullKeysAux_of_mem :
    ∀ (systems : List NLSystem) {acc ks : List (Int × Int)} {q : Int × Int},
      fullKeysAux systems acc = .ok ks → q ∈ acc → q ∈ ks := by
  intro systems
  induction systems with
  | nil =>
    intro acc ks q hok h
    rw [fullKeysAux] at hok
    cases hok
    exact h
  | cons sys rest ih =>
    intro acc ks q hok h
    rw [fullKeysAux] at hok
    cases hcn : sys.computeNeighbors with
    | error e => rw [hcn] at hok; cases hok
    | ok u =>
      cases u
      rw [hcn] at hok
      exact ih hok (mem_fullKeysPairs_of_mem _ _ h)

/-- Both orientations of every pair's species appear in the full keys
(system-loop version). -/
theorem orientations_mem_fullKeysAux :
    ∀ (systems : List NLSystem) {acc ks : List (Int × Int)} {s : Nat}
      {sys : NLSystem} {p : NLPair},
      fullKeysAux systems acc = .ok ks → systems.get? s = some sys →
      p ∈ sys.pairs →
      (sys.species.getD p.first 0, sys.species.getD p.second 0) ∈ ks ∧
      (sys.species.getD p.second 0, sys.species.getD p.first 0) ∈ ks := by
  intro systems
  induction systems with
  | nil => intro acc ks s sys p _ hsys; simp at hsys
  | cons sys0 rest ih =>
    intro acc ks s sys p hok hsys hp
    rw [fullKeysAux] at hok
    cases hcn : sys0.computeNeighbors with
    | error e => rw [hcn] at hok; cases hok
    | ok u =>
      cases u
      rw [hcn] at hok
      cases s with
      | zero =>
        injection hsys with hsys
        subst hsys
        obtain ⟨h1, h2⟩ := orientations_mem_fullKeysPairs _ _ _ hp
        exact ⟨mem_fullKeysAux_of_mem rest hok h1, mem_fullKeysAux_of_mem rest hok h2⟩
      | succ s' =>
        exact ih hok hsys hp

/-- C5: both key builders (half and full neighbor list) return keys whose
rows `(species_first_atom, species_second_atom)` are in strictly ascending
lexicographic order with no duplicates; the key sequence is the value of a
pure function of the input systems, hence uniquely determined for fixed
inputs. -/
theorem keys_strictly_sorted {systems : List NLSystem} {hks fks : List (Int × Int)}
    (hh : halfKeys systems = .ok hks) (hf : fullKeys systems = .ok fks) :
    (hks.Pairwise pairLt ∧ hks.Nodup) ∧ (fks.Pairwise pairLt ∧ fks.Nodup) := by
  have h1 : hks.Pairwise pairLt := sorted_halfKeysAux systems (List.Pairwise.nil) hh
  have h2 : fks.Pairwise pairLt := sorted_fullKeysAux systems (List.Pairwise.nil) hf
  exact ⟨⟨h1, nodup_of_pairwise_pairLt h1⟩, ⟨h2, nodup_of_pairwise_pairLt h2⟩⟩

/-- A small concrete system exercising `keys_strictly_sorted`: one O atom and
two H atoms with the three pairs of the water test system. -/
def witnessSystem : NLSystem :=
  { species := [-42, 1, 1]
  , pairs :=
      [ ⟨0, 1, ⟨0, 3/4, -1/2⟩⟩
      , ⟨0, 2, ⟨0, -3/4, -1/2⟩⟩
      , ⟨1, 2, ⟨0, -3/2, 0⟩⟩ ]
  , neighborsOk := true }

theorem keys_strictly_sorted_witness :
    halfKeys [witnessSystem] = .ok [(-42, 1), (1, 1)] ∧
    (([(-42, 1), (1, 1)] : List (Int × Int)).Pairwise pairLt ∧
        ([(-42, 1), (1, 1)] : List (Int × Int)).Nodup) ∧
    (([(-42, 1), (1, -42), (1, 1)] : List (Int × Int)).Pairwise pairLt ∧
        ([(-42, 1), (1, -42), (1, 1)] : List (Int × Int)).Nodup) :=
  ⟨by rfl,
    @keys_strictly_sorted [witnessSystem] [(-42, 1), (1, 1)]
      [(-42, 1), (1, -42), (1, 1)] (by rfl) (by rfl)⟩

/-! ## Sample builders

`HalfNeighborList::samples` and `FullNeighborList::samples` build, for every
key, the `Labels` with names `["structure", "pair_id", "first_atom",
"second_atom"]`. -/

/-- A sample row `[structure, pair_id, first_atom, second_atom]`. -/
structure Row4 where
  sys : Nat
  pid : Nat
  a1 : Nat
  a2 : Nat
deriving DecidableEq

/-- Does a sample row belong to pair `k` of system `s`? -/
def Row4.isSK (r : Row4) (s k : Nat) : Bool :=
  r.sys == s && r.pid == k

/-- The pair loop of `HalfNeighborList::samples` for one key `q` and one
system: add the row for every pair whose sorted species pair is the key. -/
def halfRowsForPairs (q : Int × Int) (s : Nat) (species : List Int) :
    Nat → List NLPair → List Row4
  | _, [] => []
  | k, p :: ps =>
    let sp := sortPair (species.getD p.first 0) (species.getD p.second 0)
    (if sp.1 = q then
      [⟨s, k, if sp.2 then p.second else p.first, if sp.2 then p.first else p.second⟩]
    else []) ++ halfRowsForPairs q s species (k + 1) ps

/-- The system loop of `HalfNeighborList::samples` for one key. -/
def halfBlockSamples (q : Int × Int) : Nat → List NLSystem → Except Err (List Row4)
  | _, [] => .ok []
  | s, sys :: rest =>
    match sys.computeNeighbors with
    | .error e => .error e
    | .ok () =>
      match halfBlockSamples q (s + 1) rest with
      | .error e => .error e
      | .ok restRows => .ok (halfRowsForPairs q s sys.species 0 sys.pairs ++ restRows)

/-- `HalfNeighborList::samples`: one sample `Labels` per key. -/
def halfSamples : List (Int × Int) → List NLSystem → Except Err (List (List Row4))
  | [], _ => .ok []
  | q :: qs, systems =>
    match halfBlockSamples q 0 systems with
    | .error e => .error e
    | .ok rows =>
      match halfSamples qs systems with
      | .error e => .error e
      | .ok rest => .ok (rows :: rest)

/-- The pair loop of `FullNeighborList::samples` for one key and one system:
for a same-species key add the pair (and, unless it is a self pair, its
reverse); for a distinct-species key add the matching orientation. -/
def fullRowsForPairs (q : Int × Int) (s : Nat) (species : List Int) :
    Nat → List NLPair → List Row4
  | _, [] => []
  | k, p :: ps =>
    (if q.1 = q.2 then
      if species.getD p.first 0 = q.1 ∧ species.getD p.second 0 = q.2 then
        ⟨s, k, p.first, p.second⟩ ::
          (if p.first ≠ p.second then [⟨s, k, p.second, p.first⟩] else [])
      else []
    else
      if species.getD p.first 0 = q.1 ∧ species.getD p.second 0 = q.2 then
        [⟨s, k, p.first, p.second⟩]
      else if species.getD p.second 0 = q.1 ∧ species.getD p.first 0 = q.2 then
        [⟨s, k, p.second, p.first⟩]
      else []) ++ fullRowsForPairs q s species (k + 1) ps

/-- The system loop of `FullNeighborList::samples` for one key. -/
def fullBlockSamples (q : Int × Int) : Nat → List NLSystem → Except Err (List Row4)
  | _, [] => .ok []
  | s, sys :: rest =>
    match sys.computeNeighbors with
    | .error e => .error e
    | .ok () =>
      match fullBlockSamples q (s + 1) rest with
      | .error e => .error e
      | .ok restRows => .ok (fullRowsForPairs q s sys.species 0 sys.pairs ++ restRows)

/-- `FullNeighborList::samples`: one sample `Labels` per key. -/
def fullSamples : List (Int × Int) → List NLSystem → Except Err (List (List Row4))
  | [], _ => .ok []
  | q :: qs, systems =>
    match fullBlockSamples q 0 systems with
    | .error e => .error e
    | .ok rows =>
      match fullSamples qs systems with
      | .error e => .error e
      | .ok rest => .ok (rows :: rest)

theorem halfRowsForPairs_sys_pid (q : Int × Int) (s : Nat) (species : List Int) :
    ∀ (ps : List NLPair) (k₀ : Nat) {r : Row4},
      r ∈ halfRowsForPairs q s species k₀ ps → r.sys = s ∧ k₀ ≤ r.pid := by
  intro ps
  induction ps with
  | nil => intro k₀ r h; simp [halfRowsForPairs] at h
  | cons p ps ih =>
    intro k₀ r h
    rw [halfRowsForPairs] at h
    rcases List.mem_append.mp h with h | h
    · by_cases hq : (sortPair (species.getD p.first 0) (species.getD p.second 0)).1 = q
      · rw [if_pos hq] at h
        rcases List.mem_singleton.mp h with rfl
        exact ⟨rfl, Nat.le_refl _⟩
      · rw [if_neg hq] at h
        cases h
    · obtain ⟨h1, h2⟩ := ih (k₀ + 1) h
      exact ⟨h1, Nat.le_of_succ_le h2⟩

theorem countP_halfRowsForPairs_lt (q : Int × Int) (s : Nat) (species : List Int)
    (ps : List NLPair) (k₀ k : Nat) (hk : k < k₀) :
    (halfRowsForPairs q s species k₀ ps).countP (fun r => r.isSK s k) = 0 := by
  rw [List.countP_eq_zero]
  intro r hr
  obtain ⟨_, h2⟩ := halfRowsForPairs_sys_pid q s species ps k₀ hr
  simp only [Row4.isSK, Bool.and_eq_true, beq_iff_eq]
  intro hcon
  omega

/-- Pair `k₀ + idx` contributes exactly one row to the block of its sorted
species pair, and none elsewhere. -/
theorem countP_halfRowsForPairs (q : Int × Int) (s : Nat) (species : List Int) :
    ∀ (ps : List NLPair) (k₀ idx : Nat) {p : NLPair}, ps.get? idx = some p →
      (halfRowsForPairs q s species k₀ ps).countP (fun r => r.isSK s (k₀ + idx))
        = if (sortPair (species.getD p.first 0) (species.getD p.second 0)).1 = q
            then 1 else 0 := by
  intro ps
  induction ps with
  | nil => intro k₀ idx p h; simp at h
  | cons p0 ps ih =>
    intro k₀ idx p h
    rw [halfRowsForPairs, List.countP_append]
    cases idx with
    | zero =>
      injection h with h
      subst h
      rw [Nat.add_zero, countP_halfRowsForPairs_lt q s species ps (k₀ + 1) k₀ (Nat.lt_succ_self _)]
      by_cases hq : (sortPair (species.getD p0.first 0) (species.getD p0.second 0)).1 = q
      · rw [if_pos hq, if_pos hq]
        simp [Row4.isSK]
      · rw [if_neg hq, if_neg hq]
        simp
    | succ idx' =>
      have hrest := ih (k₀ + 1) idx' (by simpa using h)
      have harith : k₀ + 1 + idx' = k₀ + (idx' + 1) := by omega
      rw [harith] at hrest
      rw [hrest]
      have hfirst :
          (if (sortPair (species.getD p0.first 0) (species.getD p0.second 0)).1 = q then
              [(⟨s, k₀, if (sortPair (species.getD p0.first 0) (species.getD p0.second 0)).2
                  then p0.second else p0.first,
                if (sortPair (species.getD p0.first 0) (species.getD p0.second 0)).2
                  then p0.first else p0.second⟩ : Row4)]
            else []).countP (fun r => r.isSK s (k₀ + (idx' + 1))) = 0 := by
        by_cases hq : (sortPair (species.getD p0.first 0) (species.getD p0.second 0)).1 = q
        · rw [if_pos hq]
          simp [Row4.isSK]
        · rw [if_neg hq]
          rfl
      rw [hfirst, Nat.zero_add]

/-- The canonical row of pair `k₀ + idx` is in the block of its sorted
species pair. -/
theorem mem_halfRowsForPairs (q : Int × Int) (s : Nat) (species : List Int) :
    ∀ (ps : List NLPair) (k₀ idx : Nat) {p : NLPair}, ps.get? idx = some p →
      (sortPair (species.getD p.first 0) (species.getD p.second 0)).1 = q →
      (⟨s, k₀ + idx,
        if (sortPair (species.getD p.first 0) (species.getD p.second 0)).2
          then p.second else p.first,
        if (sortPair (species.getD p.first 0) (species.getD p.second 0)).2
          then p.first else p.second⟩ : Row4) ∈ halfRowsForPairs q s species k₀ ps := by
  intro ps
  induction ps with
  | nil => intro k₀ idx p h; simp at h
  | cons p0 ps ih =>
    intro k₀ idx p h hq
    rw [halfRowsForPairs]
    cases idx with
    | zero =>
      injection h with h
      subst h
      apply List.mem_append.mpr
      left
      rw [if_pos hq, Nat.add_zero]
      exact List.mem_singleton.mpr rfl
    | succ idx' =>
      apply List.mem_append.mpr
      right
      have := ih (k₀ + 1) idx' (by simpa using h) hq
      have harith : k₀ + 1 + idx' = k₀ + (idx' + 1) := by omega
      rwa [harith] at this

theorem halfBlockSamples_sys_ge (q : Int × Int) :
    ∀ (systems : List NLSystem) (s₀ : Nat) {rows : List Row4},
      halfBlockSamples q s₀ systems = .ok rows → ∀ r ∈ rows, s₀ ≤ r.sys := by
  intro systems
  induction systems with
  | nil =>
    intro s₀ rows h r hr
    rw [halfBlockSamples] at h
    cases h
    cases hr
  | cons sys rest ih =>
    intro s₀ rows h r hr
    rw [halfBlockSamples] at h
    cases hcn : sys.computeNeighbors with
    | error e => rw [hcn] at h; cases h
    | ok u =>
      cases u
      rw [hcn] at h
      cases hrest : halfBlockSamples q (s₀ + 1) rest with
      | error e => rw [hrest] at h; cases h
      | ok restRows =>
        rw [hrest] at h
        cases h
        rcases List.mem_append.mp hr with hr | hr
        · exact (halfRowsForPairs_sys_pid q s₀ sys.species sys.pairs 0 hr).1 ▸ Nat.le_refl _
        · exact Nat.le_of_succ_le (ih (s₀ + 1) hrest r hr)

/-- Pair `k` of system `s₀ + idx` contributes exactly one sample row to the
block of its sorted species pair, and none to any other block. -/
theorem countP_halfBlockSamples (q : Int × Int) :
    ∀ (systems : List NLSystem) (s₀ idx k : Nat) {rows : List Row4}
      {sys : NLSystem} {p : NLPair},
      halfBlockSamples q s₀ systems = .ok rows →
      systems.get? idx = some sys → sys.pairs.get? k = some p →
      rows.countP (fun r => r.isSK (s₀ + idx) k)
        = if (sortPair (sys.species.getD p.first 0) (sys.species.getD p.second 0)).1 = q
            then 1 else 0 := by
  intro systems
  induction systems with
  | nil => intro s₀ idx k rows sys p _ hsys; simp at hsys
  | cons sys0 rest ih =>
    intro s₀ idx k rows sys p h hsys hp
    rw [halfBlockSamples] at h
    cases hcn : sys0.computeNeighbors with
    | error e => rw [hcn] at h; cases h
    | ok u =>
      cases u
      rw [hcn] at h
      cases hrest : halfBlockSamples q (s₀ + 1) rest with
      | error e => rw [hrest] at h; cases h
      | ok restRows =>
        rw [hrest] at h
        cases h
        rw [List.countP_append]
        cases idx with
        | zero =>
          injection hsys with hsys
          subst hsys
          have hrest0 : restRows.countP (fun r => r.isSK (s₀ + 0) k) = 0 := by
            rw [List.countP_eq_zero]
            intro r hr
            have := halfBlockSamples_sys_ge q rest (s₀ + 1) hrest r hr
            simp only [Row4.isSK, Bool.and_eq_true, beq_iff_eq]
            intro hcon
            omega
          rw [hrest0, Nat.add_zero] at *
          have := countP_halfRowsForPairs q s₀ sys0.species sys0.pairs 0 k hp
          rw [Nat.zero_add] at this
          rw [Nat.add_zero]
          exact this
        | succ idx' =>
          have hfirst :
              (halfRowsForPairs q s₀ sys0.species 0 sys0.pairs).countP
                (fun r => r.isSK (s₀ + (idx' + 1)) k) = 0 := by
            rw [List.countP_eq_zero]
            intro r hr
            have := (halfRowsForPairs_sys_pid q s₀ sys0.species sys0.pairs 0 hr).1
            simp only [Row4.isSK, Bool.and_eq_true, beq_iff_eq]
            intro hcon
            omega
          rw [hfirst, Nat.zero_add]
          have := ih (s₀ + 1) idx' k hrest (by simpa using hsys) hp
          have harith : s₀ + 1 + idx' = s₀ + (idx' + 1) := by omega
          rwa [harith] at this

/-- The canonical row of pair `k` of system `s₀ + idx` is in the block of
its sorted species pair. -/
theorem mem_halfBlockSamples (q : Int × Int) :
    ∀ (systems : List NLSystem) (s₀ idx k : Nat) {rows : List Row4}
      {sys : NLSystem} {p : NLPair},
      halfBlockSamples q s₀ systems = .ok rows →
      systems.get? idx = some sys → sys.pairs.get? k = some p →
      (sortPair (sys.species.getD p.first 0) (sys.species.getD p.second 0)).1 = q →
      (⟨s₀ + idx, k,
        if (sortPair (sys.species.getD p.first 0) (sys.species.getD p.second 0)).2
          then p.second else p.first,
        if (sortPair (sys.species.getD p.first 0) (sys.species.getD p.second 0)).2
          then p.first else p.second⟩ : Row4) ∈ rows := by
  intro systems
  induction systems with
  | nil => intro s₀ idx k rows sys p _ hsys; simp at hsys
  | cons sys0 rest ih =>
    intro s₀ idx k rows sys p h hsys hp hq
    rw [halfBlockSamples] at h
    cases hcn : sys0.computeNeighbors with
    | error e => rw [hcn] at h; cases h
    | ok u =>
      cases u
      rw [hcn] at h
      cases hrest : halfBlockSamples q (s₀ + 1) rest with
      | error e => rw [hrest] at h; cases h
      | ok restRows =>
        rw [hrest] at h
        cases h
        apply List.mem_append.mpr
        cases idx with
        | zero =>
          injection hsys with hsys
          subst hsys
          left
          have := mem_halfRowsForPairs q s₀ sys0.species sys0.pairs 0 k hp hq
          rw [Nat.zero_add] at this
          rw [Nat.add_zero]
          exact this
        | succ idx' =>
          right
          have := ih (s₀ + 1) idx' k hrest (by simpa using hsys) hp hq
          have harith : s₀ + 1 + idx' = s₀ + (idx' + 1) := by omega
          rwa [harith] at this

/-- Shape of the output of `halfSamples`: one block per key, built by
`halfBlockSamples`. -/
theorem halfSamples_get? :
    ∀ (qs : List (Int × Int)) (systems : List NLSystem) {bss : List (List Row4)},
      halfSamples qs systems = .ok bss →
      ∀ (b : Nat) (q : Int × Int), qs.get? b = some q →
        ∃ rows, bss.get? b = some rows ∧ halfBlockSamples q 0 systems = .ok rows := by
  intro qs
  induction qs with
  | nil => intro systems bss _ b q hq; simp at hq
  | cons q0 qs ih =>
    intro systems bss h b q hq
    rw [halfSamples] at h
    cases h0 : halfBlockSamples q0 0 systems with
    | error e => rw [h0] at h; cases h
    | ok rows0 =>
      rw [h0] at h
      cases hrest : halfSamples qs systems with
      | error e => rw [hrest] at h; cases h
      | ok rest =>
        rw [hrest] at h
        cases h
        cases b with
        | zero =>
          injection hq with hq
          subst hq
          exact ⟨rows0, rfl, h0⟩
        | succ b' =>
          exact ih systems hrest b' q (by simpa using hq)

theorem halfSamples_length :
    ∀ (qs : List (Int × Int)) (systems : List NLSystem) {bss : List (List Row4)},
      halfSamples qs systems = .ok bss → bss.length = qs.length := by
  intro qs
  induction qs with
  | nil =>
    intro systems bss h
    rw [halfSamples] at h
    cases h
    rfl
  | cons q0 qs ih =>
    intro systems bss h
    rw [halfSamples] at h
    cases h0 : halfBlockSamples q0 0 systems with
    | error e => rw [h0] at h; cases h
    | ok rows0 =>
      rw [h0] at h
      cases hrest : halfSamples qs systems with
      | error e => rw [hrest] at h; cases h
      | ok rest =>
        rw [hrest] at h
        cases h
        simpa using ih systems hrest

/-- C1: for the half neighbor list, every pair reported by a system appears
exactly once across all sample blocks: pair `p` at index `k` of system `s`
yields the single sample row `(s, k, first_atom, second_atom)` in the block
keyed by the sorted species pair, with the atoms ordered so that
`species(first_atom) ≤ species(second_atom)`, and no inversion occurs when
the two species are equal. -/
theorem half_pair_sample_unique
    {systems : List NLSystem} {ks : List (Int × Int)} {bss : List (List Row4)}
    {s k : Nat} {sys : NLSystem} {p : NLPair}
    (hks : halfKeys systems = .ok ks)
    (hbs : halfSamples ks systems = .ok bss)
    (hsys : systems.get? s = some sys)
    (hp : sys.pairs.get? k = some p) :
    ∃ b : Nat,
      position ks (sortPair (sys.speciesAt p.first) (sys.speciesAt p.second)).1 = some b ∧
      (∃ rows, bss.get? b = some rows ∧
        (⟨s, k,
          if (sortPair (sys.speciesAt p.first) (sys.speciesAt p.second)).2
            then p.second else p.first,
          if (sortPair (sys.speciesAt p.first) (sys.speciesAt p.second)).2
            then p.first else p.second⟩ : Row4) ∈ rows ∧
        rows.countP (fun r => r.isSK s k) = 1) ∧
      (∀ (b' : Nat) (rows' : List Row4), b' ≠ b → bss.get? b' = some rows' →
        rows'.countP (fun r => r.isSK s k) = 0) ∧
      sys.speciesAt
          (if (sortPair (sys.speciesAt p.first) (sys.speciesAt p.second)).2
            then p.second else p.first) ≤
        sys.speciesAt
          (if (sortPair (sys.speciesAt p.first) (sys.speciesAt p.second)).2
            then p.first else p.second) ∧
      (sys.speciesAt p.first = sys.speciesAt p.second →
        (sortPair (sys.speciesAt p.first) (sys.speciesAt p.second)).2 = false) := by
  have hpm : p ∈ sys.pairs := List.get?_mem hp
  have hmem := sortPair_mem_halfKeys hks hsys hpm
  simp only [NLSystem.speciesAt]
  obtain ⟨b, hb⟩ := position_of_mem ks _ hmem
  refine ⟨b, hb, ?_, ?_, ?_, ?_⟩
  · have hkb : ks.get? b = some (sortPair (sys.species.getD p.first 0)
        (sys.species.getD p.second 0)).1 := position_get? ks _ b hb
    obtain ⟨rows, hrows, hblock⟩ := halfSamples_get? ks systems hbs b _ hkb
    refine ⟨rows, hrows, ?_, ?_⟩
    · have := mem_halfBlockSamples _ systems 0 s k hblock (by simpa using hsys) hp rfl
      simpa using this
    · have := countP_halfBlockSamples _ systems 0 s k hblock (by simpa using hsys) hp
      rw [if_pos rfl] at this
      simpa using this
  · intro b' rows' hne hb'
    have hlen := halfSamples_length ks systems hbs
    have hlt : b' < ks.length := by
      have : b' < bss.length := (List.get?_eq_some.mp hb').1
      omega
    obtain ⟨q', hq'⟩ : ∃ q', ks.get? b' = some q' := by
      cases hq : ks.get? b' with
      | none =>
        rw [List.get?_eq_none] at hq
        omega
      | some q' => exact ⟨q', rfl⟩
    obtain ⟨rows'', hrows'', hblock''⟩ := halfSamples_get? ks systems hbs b' q' hq'
    rw [hb'] at hrows''
    injection hrows'' with hrows''
    subst hrows''
    have hcount := countP_halfBlockSamples q' systems 0 s k hblock''
      (by simpa using hsys) hp
    have hqq : (sortPair (sys.species.getD p.first 0) (sys.species.getD p.second 0)).1 ≠ q' := by
      intro hEq
      apply hne
      have hkb : ks.get? b = some (sortPair (sys.species.getD p.first 0)
          (sys.species.getD p.second 0)).1 := position_get? ks _ b hb
      have hnd : ks.Nodup :=
        nodup_of_pairwise_pairLt (sorted_halfKeysAux systems List.Pairwise.nil hks)
      have hsame : ks.get? b' = ks.get? b := by rw [hkb, hq', hEq]
      have := List.getElem?_inj hlt hnd (by simpa [← List.get?_eq_getElem?] using hsame)
      omega
    rw [if_neg hqq] at hcount
    simpa using hcount
  · by_cases hle : sys.species.getD p.first 0 ≤ sys.species.getD p.second 0
    · simp only [sortPair, if_pos hle]
      simpa using hle
    · simp only [sortPair, if_neg hle]
      simpa using le_of_lt (lt_of_not_le hle)
  · intro hEq
    simp only [sortPair, if_pos (le_of_eq hEq)]

theorem half_pair_sample_unique_witness :
    halfKeys [witnessSystem] = .ok [(-42, 1), (1, 1)] ∧
    (∃ b : Nat,
      position [((-42 : Int), (1 : Int)), (1, 1)]
        (sortPair (witnessSystem.speciesAt 1) (witnessSystem.speciesAt 2)).1 = some b ∧
      (∃ rows,
        ([[⟨0, 0, 0, 1⟩, ⟨0, 1, 0, 2⟩], [⟨0, 2, 1, 2⟩]] : List (List Row4)).get? b
            = some rows ∧
        (⟨0, 2,
          if (sortPair (witnessSystem.speciesAt 1) (witnessSystem.speciesAt 2)).2
            then 2 else 1,
          if (sortPair (witnessSystem.speciesAt 1) (witnessSystem.speciesAt 2)).2
            then 1 else 2⟩ : Row4) ∈ rows ∧
        rows.countP (fun r => r.isSK 0 2) = 1) ∧
      (∀ (b' : Nat) (rows' : List Row4), b' ≠ b →
        ([[⟨0, 0, 0, 1⟩, ⟨0, 1, 0, 2⟩], [⟨0, 2, 1, 2⟩]] : List (List Row4)).get? b'
            = some rows' →
        rows'.countP (fun r => r.isSK 0 2) = 0) ∧
      witnessSystem.speciesAt
          (if (sortPair (witnessSystem.speciesAt 1) (witnessSystem.speciesAt 2)).2
            then 2 else 1) ≤
        witnessSystem.speciesAt
          (if (sortPair (witnessSystem.speciesAt 1) (witnessSystem.speciesAt 2)).2
            then 1 else 2) ∧
      (witnessSystem.speciesAt 1 = witnessSystem.speciesAt 2 →
        (sortPair (witnessSystem.speciesAt 1) (witnessSystem.speciesAt 2)).2 = false)) :=
  ⟨by rfl,
    @half_pair_sample_unique [witnessSystem] [(-42, 1), (1, 1)]
      [[⟨0, 0, 0, 1⟩, ⟨0, 1, 0, 2⟩], [⟨0, 2, 1, 2⟩]] 0 2 witnessSystem
      ⟨1, 2, ⟨0, -3/2, 0⟩⟩ (by rfl) (by rfl) (by rfl) (by rfl)⟩

theorem fullRowsForPairs_sys_pid (q : Int × Int) (s : Nat) (species : List Int) :
    ∀ (ps : List NLPair) (k₀ : Nat) {r : Row4},
      r ∈ fullRowsForPairs q s species k₀ ps → r.sys = s ∧ k₀ ≤ r.pid := by
  intro ps
  induction ps with
  | nil => intro k₀ r h; simp [fullRowsForPairs] at h
  | cons p ps ih =>
    intro k₀ r h
    rw [fullRowsForPairs] at h
    rcases List.mem_append.mp h with h | h
    · have hr : r = ⟨s, k₀, p.first, p.second⟩ ∨ r = ⟨s, k₀, p.second, p.first⟩ := by
        by_cases h1 : q.1 = q.2 <;>
          [skip; by_cases h2 : species.getD p.first 0 = q.1 ∧ species.getD p.second 0 = q.2] <;>
          simp only [h1, if_pos, if_neg, if_true, if_false] at h <;>
          split_ifs at h <;> simp at h <;> tauto
      rcases hr with rfl | rfl
      · exact ⟨rfl, Nat.le_refl _⟩
      · exact ⟨rfl, Nat.le_refl _⟩
    · obtain ⟨h1, h2⟩ := ih (k₀ + 1) h
      exact ⟨h1, Nat.le_of_succ_le h2⟩

theorem countP_fullRowsForPairs_lt (q : Int × Int) (s : Nat) (species : List Int)
    (ps : List NLPair) (k₀ k : Nat) (hk : k < k₀) :
    (fullRowsForPairs q s species k₀ ps).countP (fun r => r.isSK s k) = 0 := by
  rw [List.countP_eq_zero]
  intro r hr
  obtain ⟨_, h2⟩ := fullRowsForPairs_sys_pid q s species ps k₀ hr
  simp only [Row4.isSK, Bool.and_eq_true, beq_iff_eq]
  intro hcon
  omega

/-- A self pair (`first = second`) contributes exactly one row, to the block
of its (necessarily equal-species) key, and none elsewhere. -/
theorem countP_fullRowsForPairs_self (q : Int × Int) (s : Nat) (species : List Int) :
    ∀ (ps : List NLPair) (k₀ idx : Nat) {p : NLPair}, ps.get? idx = some p →
      p.first = p.second →
      (fullRowsForPairs q s species k₀ ps).countP (fun r => r.isSK s (k₀ + idx))
        = if q = (species.getD p.first 0, species.getD p.first 0) then 1 else 0 := by
  intro ps
  induction ps with
  | nil => intro k₀ idx p h; simp at h
  | cons p0 ps ih =>
    intro k₀ idx p h hself
    rw [fullRowsForPairs, List.countP_append]
    cases idx with
    | zero =>
      injection h with h
      subst h
      rw [Nat.add_zero,
        countP_fullRowsForPairs_lt q s species ps (k₀ + 1) k₀ (Nat.lt_succ_self _)]
      rw [Nat.add_zero]
      by_cases hq : q = (species.getD p0.first 0, species.getD p0.first 0)
      · subst hq
        rw [if_pos rfl, if_pos rfl, if_pos (by rw [← hself]; exact ⟨rfl, rfl⟩)]
        rw [if_neg (by rw [hself]; exact fun h => h rfl)]
        simp [Row4.isSK]
      · rw [if_neg hq]
        by_cases h1 : q.1 = q.2
        · rw [if_pos h1]
          rw [if_neg ?hcond]
          · rfl
          case hcond =>
            intro ⟨ha, hb⟩
            apply hq
            rw [← hself] at hb
            cases q
            simp_all
        · rw [if_neg h1]
          rw [if_neg ?hc1, if_neg ?hc2]
          · rfl
          case hc1 =>
            intro ⟨ha, hb⟩
            rw [← hself] at hb
            exact h1 (ha.symm.trans hb)
          case hc2 =>
            intro ⟨ha, hb⟩
            rw [← hself] at ha
            exact h1 (ha.symm.trans hb)
    | succ idx' =>
      have hrest := ih (k₀ + 1) idx' (by simpa using h) hself
      have harith : k₀ + 1 + idx' = k₀ + (idx' + 1) := by omega
      rw [harith] at hrest
      rw [hrest]
      have hfirst :
          ∀ (l : List Row4), (∀ r ∈ l, r.pid = k₀) →
            l.countP (fun r => r.isSK s (k₀ + (idx' + 1))) = 0 := by
        intro l hl
        rw [List.countP_eq_zero]
        intro r hr
        have := hl r hr
        simp only [Row4.isSK, Bool.and_eq_true, beq_iff_eq]
        intro hcon
        omega
      rw [hfirst _ ?hpid, Nat.zero_add]
      case hpid =>
        intro r hr
        split_ifs at hr <;> simp at hr <;> rcases hr with rfl | rfl <;> rfl

/-- The forward orientation `(s, k, first, second)` of every pair is in the
block keyed by `(species(first), species(second))`. -/
theorem mem_fullRowsForPairs_fwd (s : Nat) (species : List Int) :
    ∀ (ps : List NLPair) (k₀ idx : Nat) {p : NLPair}, ps.get? idx = some p →
      (⟨s, k₀ + idx, p.first, p.second⟩ : Row4) ∈
        fullRowsForPairs (species.getD p.first 0, species.getD p.second 0) s species k₀ ps := by
  intro ps
  induction ps with
  | nil => intro k₀ idx p h; simp at h
  | cons p0 ps ih =>
    intro k₀ idx p h
    rw [fullRowsForPairs]
    cases idx with
    | zero =>
      injection h with h
      subst h
      apply List.mem_append.mpr
      left
      rw [Nat.add_zero]
      by_cases h1 : species.getD p0.first 0 = species.getD p0.second 0
      · rw [if_pos (by simpa using h1), if_pos ⟨rfl, rfl⟩]
        exact List.mem_cons_self _ _
      · rw [if_neg (by simpa using h1), if_pos ⟨rfl, rfl⟩]
        exact List.mem_singleton.mpr rfl
    | succ idx' =>
      apply List.mem_append.mpr
      right
      have := ih (k₀ + 1) idx' (by simpa using h)
      have harith : k₀ + 1 + idx' = k₀ + (idx' + 1) := by omega
      rwa [harith] at this

/-- The reverse orientation `(s, k, second, first)` of every non-self pair is
in the block keyed by `(species(second), species(first))`. -/
theorem mem_fullRowsForPairs_rev (s : Nat) (species : List Int) :
    ∀ (ps : List NLPair) (k₀ idx : Nat) {p : NLPair}, ps.get? idx = some p →
      p.first ≠ p.second →
      (⟨s, k₀ + idx, p.second, p.first⟩ : Row4) ∈
        fullRowsForPairs (species.getD p.second 0, species.getD p.first 0) s species k₀ ps := by
  intro ps
  induction ps with
  | nil => intro k₀ idx p h; simp at h
  | cons p0 ps ih =>
    intro k₀ idx p h hne
    rw [fullRowsForPairs]
    cases idx with
    | zero =>
      injection h with h
      subst h
      apply List.mem_append.mpr
      left
      rw [Nat.add_zero]
      by_cases h1 : species.getD p0.first 0 = species.getD p0.second 0
      · rw [if_pos h1.symm, if_pos ⟨h1, h1.symm⟩]
        apply List.mem_cons.mpr
        right
        rw [if_pos hne]
        exact List.mem_singleton.mpr rfl
      · rw [if_neg (fun hEq => h1 hEq.symm)]
        rw [if_neg (by intro ⟨ha, _⟩; exact h1 ha)]
        rw [if_pos ⟨rfl, rfl⟩]
        exact List.mem_singleton.mpr rfl
    | succ idx' =>
      apply List.mem_append.mpr
      right
      have := ih (k₀ + 1) idx' (by simpa using h) hne
      have harith : k₀ + 1 + idx' = k₀ + (idx' + 1) := by omega
      rwa [harith] at this

theorem fullBlockSamples_sys_ge (q : Int × Int) :
    ∀ (systems : List NLSystem) (s₀ : Nat) {rows : List Row4},
      fullBlockSamples q s₀ systems = .ok rows → ∀ r ∈ rows, s₀ ≤ r.sys := by
  intro systems
  induction systems with
  | nil =>
    intro s₀ rows h r hr
    rw [fullBlockSamples] at h
    cases h
    cases hr
  | cons sys rest ih =>
    intro s₀ rows h r hr
    rw [fullBlockSamples] at h
    cases hcn : sys.computeNeighbors with
    | error e => rw [hcn] at h; cases h
    | ok u =>
      cases u
      rw [hcn] at h
      cases hrest : fullBlockSamples q (s₀ + 1) rest with
      | error e => rw [hrest] at h; cases h
      | ok restRows =>
        rw [hrest] at h
        cases h
        rcases List.mem_append.mp hr with hr | hr
        · exact (fullRowsForPairs_sys_pid q s₀ sys.species sys.pairs 0 hr).1 ▸ Nat.le_refl _
        · exact Nat.le_of_succ_le (ih (s₀ + 1) hrest r hr)

/-- Lift of a per-system sample-count fact through the system loop of
`FullNeighborList::samples`. -/
theorem countP_fullBlockSamples_self (q : Int × Int) :
    ∀ (systems : List NLSystem) (s₀ idx k : Nat) {rows : List Row4}
      {sys : NLSystem} {p : NLPair},
      fullBlockSamples q s₀ systems = .ok rows →
      systems.get? idx = some sys → sys.pairs.get? k = some p →
      p.first = p.second →
      rows.countP (fun r => r.isSK (s₀ + idx) k)
        = if q = (sys.species.getD p.first 0, sys.species.getD p.first 0) then 1 else 0 := by
  intro systems
  induction systems with
  | nil => intro s₀ idx k rows sys p _ hsys; simp at hsys
  | cons sys0 rest ih =>
    intro s₀ idx k rows sys p h hsys hp hself
    rw [fullBlockSamples] at h
    cases hcn : sys0.computeNeighbors with
    | error e => rw [hcn] at h; cases h
    | ok u =>
      cases u
      rw [hcn] at h
      cases hrest : fullBlockSamples q (s₀ + 1) rest with
      | error e => rw [hrest] at h; cases h
      | ok restRows =>
        rw [hrest] at h
        cases h
        rw [List.countP_append]
        cases idx with
        | zero =>
          injection hsys with hsys
          subst hsys
          have hrest0 : restRows.countP (fun r => r.isSK (s₀ + 0) k) = 0 := by
            rw [List.countP_eq_zero]
            intro r hr
            have := fullBlockSamples_sys_ge q rest (s₀ + 1) hrest r hr
            simp only [Row4.isSK, Bool.and_eq_true, beq_iff_eq]
            intro hcon
            omega
          rw [hrest0, Nat.add_zero]
          have := countP_fullRowsForPairs_self q s₀ sys0.species sys0.pairs 0 k hp hself
          rw [Nat.zero_add] at this
          rw [Nat.add_zero]
          exact this
        | succ idx' =>
          have hfirst :
              (fullRowsForPairs q s₀ sys0.species 0 sys0.pairs).countP
                (fun r => r.isSK (s₀ + (idx' + 1)) k) = 0 := by
            rw [List.countP_eq_zero]
            intro r hr
            have := (fullRowsForPairs_sys_pid q s₀ sys0.species sys0.pairs 0 hr).1
            simp only [Row4.isSK, Bool.and_eq_true, beq_iff_eq]
            intro hcon
            omega
          rw [hfirst, Nat.zero_add]
          have := ih (s₀ + 1) idx' k hrest (by simpa using hsys) hp hself
          have harith : s₀ + 1 + idx' = s₀ + (idx' + 1) := by omega
          rwa [harith] at this

/-- The forward orientation of pair `k` of system `s₀ + idx` is in the block
keyed by its species pair. -/
theorem mem_fullBlockSamples_fwd :
    ∀ (systems : List NLSystem) (s₀ idx k : Nat) {rows : List Row4}
      {sys : NLSystem} {p : NLPair},
      fullBlockSamples (sys.species.getD p.first 0, sys.species.getD p.second 0)
          s₀ systems = .ok rows →
      systems.get? idx = some sys → sys.pairs.get? k = some p →
      (⟨s₀ + idx, k, p.first, p.second⟩ : Row4) ∈ rows := by
  intro systems
  induction systems with
  | nil => intro s₀ idx k rows sys p _ hsys; simp at hsys
  | cons sys0 rest ih =>
    intro s₀ idx k rows sys p h hsys hp
    rw [fullBlockSamples] at h
    cases hcn : sys0.computeNeighbors with
    | error e => rw [hcn] at h; cases h
    | ok u =>
      cases u
      rw [hcn] at h
      cases hrest : fullBlockSamples _ (s₀ + 1) rest with
      | error e => rw [hrest] at h; cases h
      | ok restRows =>
        rw [hrest] at h
        cases h
        apply List.mem_append.mpr
        cases idx with
        | zero =>
          injection hsys with hsys
          subst hsys
          left
          have := mem_fullRowsForPairs_fwd s₀ sys0.species sys0.pairs 0 k hp
          rw [Nat.zero_add] at this
          rw [Nat.add_zero]
          exact this
        | succ idx' =>
          right
          have := ih (s₀ + 1) idx' k hrest (by simpa using hsys) hp
          have harith : s₀ + 1 + idx' = s₀ + (idx' + 1) := by omega
          rwa [harith] at this

/-- The reverse orientation of a non-self pair `k` of system `s₀ + idx` is
in the block keyed by the reversed species pair. -/
theorem mem_fullBlockSamples_rev :
    ∀ (systems : List NLSystem) (s₀ idx k : Nat) {rows : List Row4}
      {sys : NLSystem} {p : NLPair},
      fullBlockSamples (sys.species.getD p.second 0, sys.species.getD p.first 0)
          s₀ systems = .ok rows →
      systems.get? idx = some sys → sys.pairs.get? k = some p →
      p.first ≠ p.second →
      (⟨s₀ + idx, k, p.second, p.first⟩ : Row4) ∈ rows := by
  intro systems
  induction systems with
  | nil => intro s₀ idx k rows sys p _ hsys; simp at hsys
  | cons sys0 rest ih =>
    intro s₀ idx k rows sys p h hsys hp hne
    rw [fullBlockSamples] at h
    cases hcn : sys0.computeNeighbors with
    | error e => rw [hcn] at h; cases h
    | ok u =>
      cases u
      rw [hcn] at h
      cases hrest : fullBlockSamples _ (s₀ + 1) rest with
      | error e => rw [hrest] at h; cases h
      | ok restRows =>
        rw [hrest] at h
        cases h
        apply List.mem_append.mpr
        cases idx with
        | zero =>
          injection hsys with hsys
          subst hsys
          left
          have := mem_fullRowsForPairs_rev s₀ sys0.species sys0.pairs 0 k hp hne
          rw [Nat.zero_add] at this
          rw [Nat.add_zero]
          exact this
        | succ idx' =>
          right
          have := ih (s₀ + 1) idx' k hrest (by simpa using hsys) hp hne
          have harith : s₀ + 1 + idx' = s₀ + (idx' + 1) := by omega
          rwa [harith] at this

/-- Shape of the output of `fullSamples`: one block per key, built by
`fullBlockSamples`. -/
theorem fullSamples_get? :
    ∀ (qs : List (Int × Int)) (systems : List NLSystem) {bss : List (List Row4)},
      fullSamples qs systems = .ok bss →
      ∀ (b : Nat) (q : Int × Int), qs.get? b = some q →
        ∃ rows, bss.get? b = some rows ∧ fullBlockSamples q 0 systems = .ok rows := by
  intro qs
  induction qs with
  | nil => intro systems bss _ b q hq; simp at hq
  | cons q0 qs ih =>
    intro systems bss h b q hq
    rw [fullSamples] at h
    cases h0 : fullBlockSamples q0 0 systems with
    | error e => rw [h0] at h; cases h
    | ok rows0 =>
      rw [h0] at h
      cases hrest : fullSamples qs systems with
      | error e => rw [hrest] at h; cases h
      | ok rest =>
        rw [hrest] at h
        cases h
        cases b with
        | zero =>
          injection hq with hq
          subst hq
          exact ⟨rows0, rfl, h0⟩
        | succ b' =>
          exact ih systems hrest b' q (by simpa using hq)

theorem fullSamples_length :
    ∀ (qs : List (Int × Int)) (systems : List NLSystem) {bss : List (List Row4)},
      fullSamples qs systems = .ok bss → bss.length = qs.length := by
  intro qs
  induction qs with
  | nil =>
    intro systems bss h
    rw [fullSamples] at h
    cases h
    rfl
  | cons q0 qs ih =>
    intro systems bss h
    rw [fullSamples] at h
    cases h0 : fullBlockSamples q0 0 systems with
    | error e => rw [h0] at h; cases h
    | ok rows0 =>
      rw [h0] at h
      cases hrest : fullSamples qs systems with
      | error e => rw [hrest] at h; cases h
      | ok rest =>
        rw [hrest] at h
        cases h
        simpa using ih systems hrest

/-! ## The compute step

`HalfNeighborList::compute` and `FullNeighborList::compute` fill the values
(and, when present, the position gradients) of an already-allocated
`TensorMap`. The `TensorMap` is embedded as a list of keys and a parallel
list of blocks; dense arrays are embedded as total functions from indices to
values, mutated by pointwise functional update. -/

/-- A gradient sample row `[sample, structure, atom]`. -/
structure Row3 where
  sample : Nat
  sys : Nat
  atom : Nat
deriving DecidableEq

/-- The `"positions"` gradient of a block: its sample `Labels` and its dense
array of shape `(n_grad_samples, 3, 3, 1)`, indexed as
`[grad_sample, pair_direction, spatial, property]`. -/
structure GradBlock where
  samples : List Row3
  data : Nat → Nat → Nat → Nat → ℚ

/-- A block of the output `TensorMap`: sample `Labels`, the dense value array
of shape `(n_samples, 3, 1)` indexed as `[sample, pair_direction, property]`,
and the optional `"positions"` gradient. The component and property `Labels`
are the same for every block (`pair_direction ∈ {0,1,2}`, `distance = 0`)
and play no further role. -/
structure Block where
  samples : List Row4
  values : Nat → Nat → Nat → ℚ
  gradient : Option GradBlock

/-- The block a `TensorMap` hands out for an out-of-range id (never reached
under the hypotheses of the theorems below). -/
def emptyBlock : Block :=
  { samples := [], values := fun _ _ _ => 0, gradient := none }

instance : Inhabited Block := ⟨emptyBlock⟩

/-- The output `TensorMap`: keys and the parallel list of blocks. -/
structure Desc where
  keys : List (Int × Int)
  blocks : List Block

/-- Block lookup by id. -/
def Desc.blk (d : Desc) (bid : Nat) : Block := d.blocks.getD bid emptyBlock

/-- Pointwise update of a value array (`array[[i, j, k]] = v`). -/
def updV (f : Nat → Nat → Nat → ℚ) (i j k : Nat) (v : ℚ) : Nat → Nat → Nat → ℚ :=
  fun a b c => if a = i ∧ b = j ∧ c = k then v else f a b c

/-- Pointwise update of a gradient array (`array[[i, j, k, l]] = v`). -/
def updG (f : Nat → Nat → Nat → Nat → ℚ) (i j k l : Nat) (v : ℚ) :
    Nat → Nat → Nat → Nat → ℚ :=
  fun a b c e => if a = i ∧ b = j ∧ c = k ∧ e = l then v else f a b c e

/-- The three value writes of one orientation:
`array[[sample_i, 0, 0]] = v.x; array[[sample_i, 1, 0]] = v.y;
array[[sample_i, 2, 0]] = v.z`. -/
def writeVec (f : Nat → Nat → Nat → ℚ) (m : Nat) (v : Vec3) : Nat → Nat → Nat → ℚ :=
  updV (updV (updV f m 0 0 v.x) m 1 0 v.y) m 2 0 v.z

/-- The three `-1.0` diagonal writes on a gradient row. -/
def writeNegI (f : Nat → Nat → Nat → Nat → ℚ) (g : Nat) : Nat → Nat → Nat → Nat → ℚ :=
  updG (updG (updG f g 0 0 0 (-1)) g 1 1 0 (-1)) g 2 2 0 (-1)

/-- The three `1.0` diagonal writes on a gradient row. -/
def writePosI (f : Nat → Nat → Nat → Nat → ℚ) (g : Nat) : Nat → Nat → Nat → Nat → ℚ :=
  updG (updG (updG f g 0 0 0 1) g 1 1 0 1) g 2 2 0 1

/-- The shared body of both `compute` functions for one orientation
`(a1 → a2)` of a pair: look the sample row up in the block; if present write
the pair vector, then (when a gradient is present) write `-I` at the gradient
row of `a1` and `+I` at the gradient row of `a2`
(`expect("missing gradient sample")` panics — `none` — when a row is
absent). -/
def writeOrientation (s k a1 a2 : Nat) (v : Vec3) (bl : Block) : Option Block :=
  match position bl.samples ⟨s, k, a1, a2⟩ with
  | none => some bl
  | some sampleI =>
    let bl1 : Block := { bl with values := writeVec bl.values sampleI v }
    match bl1.gradient with
    | none => some bl1
    | some gr =>
      match position gr.samples ⟨sampleI, s, a1⟩, position gr.samples ⟨sampleI, s, a2⟩ with
      | some g1, some g2 =>
        some { bl1 with gradient := some { gr with data := writePosI (writeNegI gr.data g1) g2 } }
      | _, _ => none

/-- The body of the pair loop of `HalfNeighborList::compute`: canonicalise
the pair, locate the block (`expect("missing block")` panics — `none` — when
the key is absent), and write the canonical orientation. -/
def halfProcessPair (s k : Nat) (species : List Int) (p : NLPair) (d : Desc) : Option Desc :=
  let sp := sortPair (species.getD p.first 0) (species.getD p.second 0)
  let pairVector := if sp.2 then p.vector.neg else p.vector
  let atomI := if sp.2 then p.second else p.first
  let atomJ := if sp.2 then p.first else p.second
  match position d.keys sp.1 with
  | none => none
  | some blockId =>
    match writeOrientation s k atomI atomJ pairVector (d.blk blockId) with
    | none => none
    | some bl => some { d with blocks := d.blocks.set blockId bl }

/-- The body of the pair loop of `FullNeighborList::compute`: write the
`first → second` orientation in the block keyed by its species pair, then the
`second → first` orientation with negated vector in the block keyed by the
reversed species pair (the same block when the species agree) — except that a
self pair is written only once. -/
def fullProcessPair (s k : Nat) (species : List Int) (p : NLPair) (d : Desc) : Option Desc :=
  let si := species.getD p.first 0
  let sj := species.getD p.second 0
  match position d.keys (si, sj) with
  | none => none
  | some firstBlockId =>
    let secondBlockId? : Option (Option Nat) :=
      if si = sj then some none
      else
        match position d.keys (sj, si) with
        | none => none
        | some b => some (some b)
    match secondBlockId? with
    | none => none
    | some secondBlockId =>
      match writeOrientation s k p.first p.second p.vector (d.blk firstBlockId) with
      | none => none
      | some bl1 =>
        let d1 : Desc := { d with blocks := d.blocks.set firstBlockId bl1 }
        match secondBlockId with
        | some b2 =>
          match writeOrientation s k p.second p.first p.vector.neg (d1.blk b2) with
          | none => none
          | some bl2 => some { d1 with blocks := d1.blocks.set b2 bl2 }
        | none =>
          if p.first = p.second then some d1
          else
            match writeOrientation s k p.second p.first p.vector.neg (d1.blk firstBlockId) with
            | none => none
            | some bl2 => some { d1 with blocks := d1.blocks.set firstBlockId bl2 }

/-- The pair loop of either `compute` function, parameterised by the loop
body. -/
def processPairs (step : Nat → Nat → List Int → NLPair → Desc → Option Desc)
    (s : Nat) (species : List Int) : Nat → List NLPair → Desc → Option Desc
  | _, [], d => some d
  | k, p :: ps, d =>
    match step s k species p d with
    | none => none
    | some d1 => processPairs step s species (k + 1) ps d1

/-- Outcome of a `compute` call: normal return, an `Err` returned while the
(caller-owned, mutated in place) descriptor holds the writes made so far, or
a panic. -/
inductive CResult where
  | ok (d : Desc)
  | err (d : Desc) (e : Err)
  | panicked

/-- The system loop of either `compute` function. -/
def processSystems (step : Nat → Nat → List Int → NLPair → Desc → Option Desc) :
    Nat → List NLSystem → Desc → CResult
  | _, [], d => .ok d
  | s, sys :: rest, d =>
    match sys.computeNeighbors with
    | .error e => .err d e
    | .ok () =>
      match processPairs step s sys.species 0 sys.pairs d with
      | none => .panicked
      | some d1 => processSystems step (s + 1) rest d1

/-- `HalfNeighborList::compute`. -/
def halfCompute (systems : List NLSystem) (d : Desc) : CResult :=
  processSystems halfProcessPair 0 systems d

/-- `FullNeighborList::compute`. -/
def fullCompute (systems : List NLSystem) (d : Desc) : CResult :=
  processSystems fullProcessPair 0 systems d

/-- The gradient sample `Labels` of a block, when a gradient is present. -/
def Block.gradSamples (bl : Block) : Option (List Row3) :=
  bl.gradient.map GradBlock.samples

/-- The gradient data of a block (the all-zero function when no gradient is
present; only read under a presence hypothesis). -/
def Block.gdata (bl : Block) : Nat → Nat → Nat → Nat → ℚ :=
  match bl.gradient with
  | some gr => gr.data
  | none => fun _ _ _ _ => 0

/-- Position lookup in the gradient samples of a block. -/
def Block.gpos (bl : Block) (r : Row3) : Option Nat :=
  match bl.gradient with
  | some gr => position gr.samples r
  | none => none

theorem blk_set (d : Desc) (i : Nat) (x : Block) (j : Nat) :
    (Desc.mk d.keys (d.blocks.set i x)).blk j
      = if j = i ∧ i < d.blocks.length then x else d.blk j := by
  unfold Desc.blk
  by_cases hj : j = i ∧ i < d.blocks.length
  · rw [if_pos hj]
    obtain ⟨rfl, hi⟩ := hj
    simp [List.getD, List.getElem?_set_eq_of_lt x hi]
  · rw [if_neg hj]
    by_cases hji : j = i
    · subst hji
      have hge : d.blocks.length ≤ j := by
        rcases Nat.lt_or_ge j d.blocks.length with h | h
        · exact absurd ⟨rfl, h⟩ hj
        · exact h
      simp only [List.getD, List.get?_eq_getElem?]
      rw [List.getElem?_set_self']
      rw [List.getElem?_eq_none hge]
      rfl
    · simp only [List.getD, List.get?_eq_getElem?]
      rw [List.getElem?_set_ne (fun h => hji h.symm)]

theorem blk_samples_nonempty_lt {d : Desc} {bid m : Nat} {r : Row4}
    (h : (d.blk bid).samples.get? m = some r) : bid < d.blocks.length := by
  rcases Nat.lt_or_ge bid d.blocks.length with hlt | hge
  · exact hlt
  · exfalso
    unfold Desc.blk at h
    rw [List.getD_eq_default] at h
    · simp [emptyBlock] at h
    · exact hge

/-- Structural equality of two descriptors: same keys, same number of
blocks, same sample and gradient-sample `Labels` everywhere (only the dense
data may differ). -/
def SameShape (d d' : Desc) : Prop :=
  d'.keys = d.keys ∧ d'.blocks.length = d.blocks.length ∧
  ∀ bid : Nat, (d'.blk bid).samples = (d.blk bid).samples ∧
    (d'.blk bid).gradSamples = (d.blk bid).gradSamples

theorem SameShape.refl (d : Desc) : SameShape d d :=
  ⟨rfl, rfl, fun _ => ⟨rfl, rfl⟩⟩

theorem SameShape.trans {d₁ d₂ d₃ : Desc} (h12 : SameShape d₁ d₂)
    (h23 : SameShape d₂ d₃) : SameShape d₁ d₃ := by
  obtain ⟨k12, l12, b12⟩ := h12
  obtain ⟨k23, l23, b23⟩ := h23
  refine ⟨k23.trans k12, l23.trans l12, fun bid => ?_⟩
  obtain ⟨s12, g12⟩ := b12 bid
  obtain ⟨s23, g23⟩ := b23 bid
  exact ⟨s23.trans s12, g23.trans g12⟩

theorem Block.gpos_congr {bl bl' : Block}
    (h : bl'.gradSamples = bl.gradSamples) (r : Row3) : bl'.gpos r = bl.gpos r := by
  unfold Block.gpos
  unfold Block.gradSamples at h
  cases hb : bl.gradient with
  | none =>
    rw [hb] at h
    simp only [Option.map_none'] at h
    cases hb' : bl'.gradient with
    | none => rfl
    | some gr' => rw [hb'] at h; simp at h
  | some gr =>
    rw [hb] at h
    cases hb' : bl'.gradient with
    | none => rw [hb'] at h; simp at h
    | some gr' =>
      rw [hb'] at h
      simp only [Option.map_some'] at h
      injection h with h
      simp [h]

theorem writeOrientation_shape {s k a1 a2 : Nat} {v : Vec3} {bl bl' : Block}
    (h : writeOrientation s k a1 a2 v bl = some bl') :
    bl'.samples = bl.samples ∧ bl'.gradSamples = bl.gradSamples := by
  unfold writeOrientation at h
  cases hm : position bl.samples ⟨s, k, a1, a2⟩ with
  | none =>
    rw [hm] at h
    cases h
    exact ⟨rfl, rfl⟩
  | some m =>
    rw [hm] at h
    cases hg : bl.gradient with
    | none =>
      simp only [hg] at h
      cases h
      exact ⟨rfl, by simp [Block.gradSamples, hg]⟩
    | some gr =>
      simp only [hg] at h
      cases hg1 : position gr.samples ⟨m, s, a1⟩ with
      | none => rw [hg1] at h; cases h
      | some g1 =>
        rw [hg1] at h
        cases hg2 : position gr.samples ⟨m, s, a2⟩ with
        | none => rw [hg2] at h; cases h
        | some g2 =>
          rw [hg2] at h
          cases h
          exact ⟨rfl, by simp [Block.gradSamples, hg]⟩

theorem writeVec_ne {f : Nat → Nat → Nat → ℚ} {m : Nat} {v : Vec3} {a : Nat}
    (h : a ≠ m) (b c : Nat) : writeVec f m v a b c = f a b c := by
  unfold writeVec updV
  simp only [if_neg (fun hc : a = m ∧ _ => h hc.1)]

theorem writeVec_at (f : Nat → Nat → Nat → ℚ) (m : Nat) (v : Vec3) :
    writeVec f m v m 0 0 = v.x ∧ writeVec f m v m 1 0 = v.y ∧
      writeVec f m v m 2 0 = v.z := by
  unfold writeVec updV
  refine ⟨?_, ?_, ?_⟩ <;> simp

theorem writeOrientation_values_none {s k a1 a2 : Nat} {v : Vec3} {bl bl' : Block}
    (h : writeOrientation s k a1 a2 v bl = some bl')
    (hm : position bl.samples ⟨s, k, a1, a2⟩ = none) : bl' = bl := by
  unfold writeOrientation at h
  rw [hm] at h
  cases h
  rfl

theorem writeOrientation_values_frame {s k a1 a2 : Nat} {v : Vec3} {bl bl' : Block}
    (h : writeOrientation s k a1 a2 v bl = some bl')
    {m : Nat} (hm : position bl.samples ⟨s, k, a1, a2⟩ ≠ some m) (c pr : Nat) :
    bl'.values m c pr = bl.values m c pr := by
  unfold writeOrientation at h
  cases hm0 : position bl.samples ⟨s, k, a1, a2⟩ with
  | none =>
    rw [hm0] at h
    cases h
    rfl
  | some m0 =>
    rw [hm0] at h
    have hne : m ≠ m0 := fun hEq => hm (hEq ▸ hm0)
    have hval : bl'.values = writeVec bl.values m0 v := by
      cases hg : bl.gradient with
      | none =>
        simp only [hg] at h
        cases h
        rfl
      | some gr =>
        simp only [hg] at h
        cases hg1 : position gr.samples ⟨m0, s, a1⟩ with
        | none => rw [hg1] at h; cases h
        | some g1 =>
          rw [hg1] at h
          cases hg2 : position gr.samples ⟨m0, s, a2⟩ with
          | none => rw [hg2] at h; cases h
          | some g2 =>
            rw [hg2] at h
            cases h
            rfl
    rw [hval, writeVec_ne hne]

theorem writeOrientation_values_at {s k a1 a2 : Nat} {v : Vec3} {bl bl' : Block}
    (h : writeOrientation s k a1 a2 v bl = some bl')
    {m : Nat} (hm : position bl.samples ⟨s, k, a1, a2⟩ = some m) :
    bl'.values m 0 0 = v.x ∧ bl'.values m 1 0 = v.y ∧ bl'.values m 2 0 = v.z := by
  unfold writeOrientation at h
  rw [hm] at h
  have hval : bl'.values = writeVec bl.values m v := by
    cases hg : bl.gradient with
    | none =>
      simp only [hg] at h
      cases h
      rfl
    | some gr =>
      simp only [hg] at h
      cases hg1 : position gr.samples ⟨m, s, a1⟩ with
      | none => rw [hg1] at h; cases h
      | some g1 =>
        rw [hg1] at h
        cases hg2 : position gr.samples ⟨m, s, a2⟩ with
        | none => rw [hg2] at h; cases h
        | some g2 =>
          rw [hg2] at h
          cases h
          rfl
  rw [hval]
  exact writeVec_at bl.values m v

theorem writeNegI_ne {f : Nat → Nat → Nat → Nat → ℚ} {g a : Nat} (h : a ≠ g)
    (b c e : Nat) : writeNegI f g a b c e = f a b c e := by
  unfold writeNegI updG
  simp only [if_neg (fun hc : a = g ∧ _ => h hc.1)]

theorem writePosI_ne {f : Nat → Nat → Nat → Nat → ℚ} {g a : Nat} (h : a ≠ g)
    (b c e : Nat) : writePosI f g a b c e = f a b c e := by
  unfold writePosI updG
  simp only [if_neg (fun hc : a = g ∧ _ => h hc.1)]

theorem writeNegI_diag (f : Nat → Nat → Nat → Nat → ℚ) (g : Nat) {x : Nat}
    (hx : x < 3) : writeNegI f g g x x 0 = -1 := by
  unfold writeNegI updG
  interval_cases x <;> simp

theorem writePosI_diag (f : Nat → Nat → Nat → Nat → ℚ) (g : Nat) {x : Nat}
    (hx : x < 3) : writePosI f g g x x 0 = 1 := by
  unfold writePosI updG
  interval_cases x <;> simp

theorem writeNegI_offdiag (f : Nat → Nat → Nat → Nat → ℚ) (g : Nat) {x y : Nat}
    (hxy : x ≠ y) (e : Nat) : writeNegI f g g x y e = f g x y e := by
  unfold writeNegI updG
  rw [if_neg (by rintro ⟨_, rfl, rfl, _⟩; exact hxy rfl),
    if_neg (by rintro ⟨_, rfl, rfl, _⟩; exact hxy rfl),
    if_neg (by rintro ⟨_, rfl, rfl, _⟩; exact hxy rfl)]

theorem writePosI_offdiag (f : Nat → Nat → Nat → Nat → ℚ) (g : Nat) {x y : Nat}
    (hxy : x ≠ y) (e : Nat) : writePosI f g g x y e = f g x y e := by
  unfold writePosI updG
  rw [if_neg (by rintro ⟨_, rfl, rfl, _⟩; exact hxy rfl),
    if_neg (by rintro ⟨_, rfl, rfl, _⟩; exact hxy rfl),
    if_neg (by rintro ⟨_, rfl, rfl, _⟩; exact hxy rfl)]

theorem writeOrientation_grad_frame {s k a1 a2 : Nat} {v : Vec3} {bl bl' : Block}
    (h : writeOrientation s k a1 a2 v bl = some bl') {g : Nat}
    (hg : ∀ m0 : Nat, position bl.samples ⟨s, k, a1, a2⟩ = some m0 →
      bl.gpos ⟨m0, s, a1⟩ ≠ some g ∧ bl.gpos ⟨m0, s, a2⟩ ≠ some g)
    (x y pr : Nat) : bl'.gdata g x y pr = bl.gdata g x y pr := by
  unfold writeOrientation at h
  cases hm0 : position bl.samples ⟨s, k, a1, a2⟩ with
  | none =>
    rw [hm0] at h
    cases h
    rfl
  | some m0 =>
    rw [hm0] at h
    obtain ⟨hga, hgb⟩ := hg m0 hm0
    cases hgr : bl.gradient with
    | none =>
      simp only [hgr] at h
      cases h
      simp [Block.gdata, hgr]
    | some gr =>
      simp only [hgr] at h
      cases hg1 : position gr.samples ⟨m0, s, a1⟩ with
      | none => rw [hg1] at h; cases h
      | some g1 =>
        rw [hg1] at h
        cases hg2 : position gr.samples ⟨m0, s, a2⟩ with
        | none => rw [hg2] at h; cases h
        | some g2 =>
          rw [hg2] at h
          cases h
          have hne1 : g ≠ g1 := by
            intro hEq
            exact hga (by simp [Block.gpos, hgr, hg1, hEq])
          have hne2 : g ≠ g2 := by
            intro hEq
            exact hgb (by simp [Block.gpos, hgr, hg2, hEq])
          simp only [Block.gdata, hgr]
          rw [writePosI_ne hne2, writeNegI_ne hne1]

theorem writeOrientation_grad_at {s k a1 a2 : Nat} {v : Vec3} {bl bl' : Block}
    (h : writeOrientation s k a1 a2 v bl = some bl')
    {m : Nat} (hm : position bl.samples ⟨s, k, a1, a2⟩ = some m)
    {gr : GradBlock} (hgr : bl.gradient = some gr)
    {g1 g2 : Nat} (hg1 : position gr.samples ⟨m, s, a1⟩ = some g1)
    (hg2 : position gr.samples ⟨m, s, a2⟩ = some g2) :
    bl'.gdata = writePosI (writeNegI gr.data g1) g2 := by
  unfold writeOrientation at h
  rw [hm] at h
  simp only [hgr] at h
  rw [hg1, hg2] at h
  cases h
  simp [Block.gdata]

/-- Sample row `m` of block `bid` belongs to pair `k` of system `s`. -/
def RowSK (d : Desc) (bid m s k : Nat) : Prop :=
  ∃ a1 a2 : Nat, (d.blk bid).samples.get? m = some ⟨s, k, a1, a2⟩

/-- Gradient row `g` of block `bid` can be written while processing pair `k`
of system `s`. -/
def GradTouched (d : Desc) (bid s k g : Nat) : Prop :=
  ∃ m a1 a2 : Nat, (d.blk bid).samples.get? m = some ⟨s, k, a1, a2⟩ ∧
    ((d.blk bid).gpos ⟨m, s, a1⟩ = some g ∨ (d.blk bid).gpos ⟨m, s, a2⟩ = some g)

theorem RowSK_congr {d d' : Desc} (h : SameShape d d') (bid m s k : Nat) :
    RowSK d' bid m s k ↔ RowSK d bid m s k := by
  unfold RowSK
  rw [(h.2.2 bid).1]

theorem GradTouched_congr {d d' : Desc} (h : SameShape d d') (bid s k g : Nat) :
    GradTouched d' bid s k g ↔ GradTouched d bid s k g := by
  unfold GradTouched
  rw [(h.2.2 bid).1]
  constructor <;> rintro ⟨m, a1, a2, hrow, hor⟩ <;> refine ⟨m, a1, a2, hrow, ?_⟩
  · rwa [Block.gpos_congr (h.2.2 bid).2, Block.gpos_congr (h.2.2 bid).2] at hor
  · rwa [Block.gpos_congr (h.2.2 bid).2, Block.gpos_congr (h.2.2 bid).2]

theorem setBlock_shape {d : Desc} {bid : Nat} {bl : Block}
    (hsm : bl.samples = (d.blk bid).samples)
    (hgs : bl.gradSamples = (d.blk bid).gradSamples) :
    SameShape d ⟨d.keys, d.blocks.set bid bl⟩ := by
  refine ⟨rfl, by simp, fun j => ?_⟩
  rw [blk_set]
  by_cases hj : j = bid ∧ bid < d.blocks.length
  · rw [if_pos hj]
    rw [hj.1]
    exact ⟨hsm, hgs⟩
  · rw [if_neg hj]
    exact ⟨rfl, rfl⟩

/-- Inversion of a successful `halfProcessPair`. -/
theorem halfProcessPair_inv {s k : Nat} {species : List Int} {p : NLPair} {d d' : Desc}
    (h : halfProcessPair s k species p d = some d') :
    ∃ (blockId : Nat) (bl : Block),
      position d.keys (sortPair (species.getD p.first 0) (species.getD p.second 0)).1
        = some blockId ∧
      writeOrientation s k
        (if (sortPair (species.getD p.first 0) (species.getD p.second 0)).2
          then p.second else p.first)
        (if (sortPair (species.getD p.first 0) (species.getD p.second 0)).2
          then p.first else p.second)
        (if (sortPair (species.getD p.first 0) (species.getD p.second 0)).2
          then p.vector.neg else p.vector)
        (d.blk blockId) = some bl ∧
      d' = ⟨d.keys, d.blocks.set blockId bl⟩ := by
  unfold halfProcessPair at h
  dsimp only at h
  cases hbid : position d.keys
      (sortPair (species.getD p.first 0) (species.getD p.second 0)).1 with
  | none => rw [hbid] at h; cases h
  | some blockId =>
    rw [hbid] at h
    dsimp only at h
    cases hwo : writeOrientation s k
        (if (sortPair (species.getD p.first 0) (species.getD p.second 0)).2
          then p.second else p.first)
        (if (sortPair (species.getD p.first 0) (species.getD p.second 0)).2
          then p.first else p.second)
        (if (sortPair (species.getD p.first 0) (species.getD p.second 0)).2
          then p.vector.neg else p.vector)
        (d.blk blockId) with
    | none => rw [hwo] at h; cases h
    | some bl =>
      rw [hwo] at h
      cases h
      exact ⟨blockId, bl, rfl, hwo, rfl⟩

theorem halfProcessPair_shape {s k : Nat} {species : List Int} {p : NLPair} {d d' : Desc}
    (h : halfProcessPair s k species p d = some d') : SameShape d d' := by
  obtain ⟨blockId, bl, _, hwo, rfl⟩ := halfProcessPair_inv h
  obtain ⟨hsm, hgs⟩ := writeOrientation_shape hwo
  exact setBlock_shape hsm hgs

theorem halfProcessPair_values_frame {s k : Nat} {species : List Int} {p : NLPair}
    {d d' : Desc} (h : halfProcessPair s k species p d = some d')
    {bid m : Nat} (hrow : ¬ RowSK d bid m s k) (c pr : Nat) :
    (d'.blk bid).values m c pr = (d.blk bid).values m c pr := by
  obtain ⟨blockId, bl, _, hwo, rfl⟩ := halfProcessPair_inv h
  rw [blk_set]
  by_cases hj : bid = blockId ∧ blockId < d.blocks.length
  · rw [if_pos hj]
    rw [hj.1]
    refine writeOrientation_values_frame hwo (fun hm => hrow ?_) c pr
    rw [hj.1]
    exact ⟨_, _, position_get? _ _ _ hm⟩
  · rw [if_neg hj]

theorem halfProcessPair_grad_frame {s k : Nat} {species : List Int} {p : NLPair}
    {d d' : Desc} (h : halfProcessPair s k species p d = some d')
    {bid g : Nat} (hg : ¬ GradTouched d bid s k g) (x y pr : Nat) :
    (d'.blk bid).gdata g x y pr = (d.blk bid).gdata g x y pr := by
  obtain ⟨blockId, bl, _, hwo, rfl⟩ := halfProcessPair_inv h
  rw [blk_set]
  by_cases hj : bid = blockId ∧ blockId < d.blocks.length
  · rw [if_pos hj]
    rw [hj.1]
    refine writeOrientation_grad_frame hwo (fun m0 hm0 => ?_) x y pr
    constructor
    · intro hgp
      apply hg
      rw [hj.1]
      exact ⟨m0, _, _, position_get? _ _ _ hm0, Or.inl hgp⟩
    · intro hgp
      apply hg
      rw [hj.1]
      exact ⟨m0, _, _, position_get? _ _ _ hm0, Or.inr hgp⟩
  · rw [if_neg hj]

/-- The values written by `halfProcessPair` at the canonical sample row. -/
theorem halfProcessPair_values_at {s k : Nat} {species : List Int} {p : NLPair}
    {d d' : Desc} (h : halfProcessPair s k species p d = some d')
    {blockId m : Nat}
    (hbid : position d.keys
      (sortPair (species.getD p.first 0) (species.getD p.second 0)).1 = some blockId)
    (hm : position (d.blk blockId).samples
      ⟨s, k,
        if (sortPair (species.getD p.first 0) (species.getD p.second 0)).2
          then p.second else p.first,
        if (sortPair (species.getD p.first 0) (species.getD p.second 0)).2
          then p.first else p.second⟩ = some m) :
    (d'.blk blockId).values m 0 0
        = (if (sortPair (species.getD p.first 0) (species.getD p.second 0)).2
            then p.vector.neg else p.vector).x ∧
    (d'.blk blockId).values m 1 0
        = (if (sortPair (species.getD p.first 0) (species.getD p.second 0)).2
            then p.vector.neg else p.vector).y ∧
    (d'.blk blockId).values m 2 0
        = (if (sortPair (species.getD p.first 0) (species.getD p.second 0)).2
            then p.vector.neg else p.vector).z := by
  obtain ⟨blockId', bl, hbid', hwo, rfl⟩ := halfProcessPair_inv h
  rw [hbid] at hbid'
  injection hbid' with hbid'
  subst hbid'
  have hlt : blockId < d.blocks.length :=
    blk_samples_nonempty_lt (position_get? _ _ _ hm)
  rw [blk_set, if_pos ⟨rfl, hlt⟩]
  exact writeOrientation_values_at hwo hm

/-- The gradient data written by `halfProcessPair` at the canonical sample
row. -/
theorem halfProcessPair_grad_at {s k : Nat} {species : List Int} {p : NLPair}
    {d d' : Desc} (h : halfProcessPair s k species p d = some d')
    {blockId m : Nat}
    (hbid : position d.keys
      (sortPair (species.getD p.first 0) (species.getD p.second 0)).1 = some blockId)
    (hm : position (d.blk blockId).samples
      ⟨s, k,
        if (sortPair (species.getD p.first 0) (species.getD p.second 0)).2
          then p.second else p.first,
        if (sortPair (species.getD p.first 0) (species.getD p.second 0)).2
          then p.first else p.second⟩ = some m)
    {gr : GradBlock} (hgr : (d.blk blockId).gradient = some gr)
    {g1 g2 : Nat}
    (hg1 : position gr.samples
      ⟨m, s, if (sortPair (species.getD p.first 0) (species.getD p.second 0)).2
          then p.second else p.first⟩ = some g1)
    (hg2 : position gr.samples
      ⟨m, s, if (sortPair (species.getD p.first 0) (species.getD p.second 0)).2
          then p.first else p.second⟩ = some g2) :
    (d'.blk blockId).gdata = writePosI (writeNegI gr.data g1) g2 := by
  obtain ⟨blockId', bl, hbid', hwo, rfl⟩ := halfProcessPair_inv h
  rw [hbid] at hbid'
  injection hbid' with hbid'
  subst hbid'
  have hlt : blockId < d.blocks.length :=
    blk_samples_nonempty_lt (position_get? _ _ _ hm)
  rw [blk_set, if_pos ⟨rfl, hlt⟩]
  exact writeOrientation_grad_at hwo hm hgr hg1 hg2

theorem setWrite_shape {d : Desc} {bid : Nat} {bl : Block} {s k a1 a2 : Nat} {v : Vec3}
    (hwo : writeOrientation s k a1 a2 v (d.blk bid) = some bl) :
    SameShape d ⟨d.keys, d.blocks.set bid bl⟩ := by
  obtain ⟨hsm, hgs⟩ := writeOrientation_shape hwo
  exact setBlock_shape hsm hgs

theorem setWrite_values_frame {d : Desc} {bid : Nat} {bl : Block} {s k a1 a2 : Nat}
    {v : Vec3} (hwo : writeOrientation s k a1 a2 v (d.blk bid) = some bl)
    {j m : Nat} (hrow : ¬ RowSK d j m s k) (c pr : Nat) :
    ((⟨d.keys, d.blocks.set bid bl⟩ : Desc).blk j).values m c pr
      = (d.blk j).values m c pr := by
  rw [blk_set]
  by_cases hj : j = bid ∧ bid < d.blocks.length
  · rw [if_pos hj]
    rw [hj.1] at hrow ⊢
    refine writeOrientation_values_frame hwo (fun hm => hrow ?_) c pr
    exact ⟨_, _, position_get? _ _ _ hm⟩
  · rw [if_neg hj]

theorem setWrite_grad_frame {d : Desc} {bid : Nat} {bl : Block} {s k a1 a2 : Nat}
    {v : Vec3} (hwo : writeOrientation s k a1 a2 v (d.blk bid) = some bl)
    {j g : Nat} (hg : ¬ GradTouched d j s k g) (x y pr : Nat) :
    ((⟨d.keys, d.blocks.set bid bl⟩ : Desc).blk j).gdata g x y pr
      = (d.blk j).gdata g x y pr := by
  rw [blk_set]
  by_cases hj : j = bid ∧ bid < d.blocks.length
  · rw [if_pos hj]
    rw [hj.1] at hg ⊢
    refine writeOrientation_grad_frame hwo (fun m0 hm0 => ?_) x y pr
    constructor
    · intro hgp
      exact hg ⟨m0, _, _, position_get? _ _ _ hm0, Or.inl hgp⟩
    · intro hgp
      exact hg ⟨m0, _, _, position_get? _ _ _ hm0, Or.inr hgp⟩
  · rw [if_neg hj]

/-- Inversion of a successful `fullProcessPair`: the first orientation is
always written; for the second, either the pair is a self pair (nothing
more), or the species agree (same block), or the reversed key names a second
block. -/
theorem fullProcessPair_inv {s k : Nat} {species : List Int} {p : NLPair} {d d' : Desc}
    (h : fullProcessPair s k species p d = some d') :
    ∃ (bid1 : Nat) (bl1 : Block),
      position d.keys (species.getD p.first 0, species.getD p.second 0) = some bid1 ∧
      writeOrientation s k p.first p.second p.vector (d.blk bid1) = some bl1 ∧
      ((species.getD p.first 0 = species.getD p.second 0 ∧ p.first = p.second ∧
          d' = ⟨d.keys, d.blocks.set bid1 bl1⟩) ∨
       (species.getD p.first 0 = species.getD p.second 0 ∧ p.first ≠ p.second ∧
          ∃ bl2, writeOrientation s k p.second p.first p.vector.neg
              ((⟨d.keys, d.blocks.set bid1 bl1⟩ : Desc).blk bid1) = some bl2 ∧
            d' = ⟨d.keys, (d.blocks.set bid1 bl1).set bid1 bl2⟩) ∨
       (species.getD p.first 0 ≠ species.getD p.second 0 ∧
          ∃ (bid2 : Nat) (bl2 : Block),
            position d.keys (species.getD p.second 0, species.getD p.first 0) = some bid2 ∧
            writeOrientation s k p.second p.first p.vector.neg
              ((⟨d.keys, d.blocks.set bid1 bl1⟩ : Desc).blk bid2) = some bl2 ∧
            d' = ⟨d.keys, (d.blocks.set bid1 bl1).set bid2 bl2⟩)) := by
  unfold fullProcessPair at h
  dsimp only at h
  cases hbid1 : position d.keys (species.getD p.first 0, species.getD p.second 0) with
  | none => rw [hbid1] at h; cases h
  | some bid1 =>
    rw [hbid1] at h
    dsimp only at h
    by_cases hsp : species.getD p.first 0 = species.getD p.second 0
    · rw [if_pos hsp] at h
      dsimp only at h
      cases hwo1 : writeOrientation s k p.first p.second p.vector (d.blk bid1) with
      | none => rw [hwo1] at h; cases h
      | some bl1 =>
        rw [hwo1] at h
        dsimp only at h
        by_cases hself : p.first = p.second
        · rw [if_pos hself] at h
          cases h
          exact ⟨bid1, bl1, rfl, hwo1, Or.inl ⟨hsp, hself, rfl⟩⟩
        · rw [if_neg hself] at h
          cases hwo2 : writeOrientation s k p.second p.first p.vector.neg
              ((⟨d.keys, d.blocks.set bid1 bl1⟩ : Desc).blk bid1) with
          | none => rw [hwo2] at h; cases h
          | some bl2 =>
            rw [hwo2] at h
            cases h
            exact ⟨bid1, bl1, rfl, hwo1, Or.inr (Or.inl ⟨hsp, hself, bl2, hwo2, rfl⟩)⟩
    · rw [if_neg hsp] at h
      cases hbid2 : position d.keys (species.getD p.second 0, species.getD p.first 0) with
      | none => rw [hbid2] at h; cases h
      | some bid2 =>
        rw [hbid2] at h
        dsimp only at h
        cases hwo1 : writeOrientation s k p.first p.second p.vector (d.blk bid1) with
        | none => rw [hwo1] at h; cases h
        | some bl1 =>
          rw [hwo1] at h
          dsimp only at h
          cases hwo2 : writeOrientation s k p.second p.first p.vector.neg
              ((⟨d.keys, d.blocks.set bid1 bl1⟩ : Desc).blk bid2) with
          | none => rw [hwo2] at h; cases h
          | some bl2 =>
            rw [hwo2] at h
            cases h
            exact ⟨bid1, bl1, rfl, hwo1, Or.inr (Or.inr ⟨hsp, bid2, bl2, rfl, hwo2, rfl⟩)⟩

theorem fullProcessPair_shape {s k : Nat} {species : List Int} {p : NLPair} {d d' : Desc}
    (h : fullProcessPair s k species p d = some d') : SameShape d d' := by
  obtain ⟨bid1, bl1, hbid1, hwo1, hcase⟩ := fullProcessPair_inv h
  have h1 : SameShape d ⟨d.keys, d.blocks.set bid1 bl1⟩ := setWrite_shape hwo1
  rcases hcase with ⟨_, _, rfl⟩ | ⟨_, _, bl2, hwo2, rfl⟩ | ⟨_, bid2, bl2, hbid2, hwo2, rfl⟩
  · exact h1
  · have h2 := setWrite_shape (d := ⟨d.keys, d.blocks.set bid1 bl1⟩) hwo2
    exact h1.trans h2
  · have h2 := setWrite_shape (d := ⟨d.keys, d.blocks.set bid1 bl1⟩) hwo2
    exact h1.trans h2

theorem fullProcessPair_values_frame {s k : Nat} {species : List Int} {p : NLPair}
    {d d' : Desc} (h : fullProcessPair s k species p d = some d')
    {bid m : Nat} (hrow : ¬ RowSK d bid m s k) (c pr : Nat) :
    (d'.blk bid).values m c pr = (d.blk bid).values m c pr := by
  obtain ⟨bid1, bl1, hbid1, hwo1, hcase⟩ := fullProcessPair_inv h
  have h1 : SameShape d ⟨d.keys, d.blocks.set bid1 bl1⟩ := setWrite_shape hwo1
  have hrow1 : ¬ RowSK (⟨d.keys, d.blocks.set bid1 bl1⟩ : Desc) bid m s k := by
    rw [RowSK_congr h1]
    exact hrow
  have hv1 := setWrite_values_frame hwo1 hrow (j := bid) (m := m) c pr
  rcases hcase with ⟨_, _, rfl⟩ | ⟨_, _, bl2, hwo2, rfl⟩ | ⟨_, bid2, bl2, hbid2, hwo2, rfl⟩
  · exact hv1
  · have hv2 := setWrite_values_frame (d := ⟨d.keys, d.blocks.set bid1 bl1⟩) hwo2
      hrow1 (m := m) c pr
    exact hv2.trans hv1
  · have hv2 := setWrite_values_frame (d := ⟨d.keys, d.blocks.set bid1 bl1⟩) hwo2
      hrow1 (m := m) c pr
    exact hv2.trans hv1

theorem fullProcessPair_grad_frame {s k : Nat} {species : List Int} {p : NLPair}
    {d d' : Desc} (h : fullProcessPair s k species p d = some d')
    {bid g : Nat} (hg : ¬ GradTouched d bid s k g) (x y pr : Nat) :
    (d'.blk bid).gdata g x y pr = (d.blk bid).gdata g x y pr := by
  obtain ⟨bid1, bl1, hbid1, hwo1, hcase⟩ := fullProcessPair_inv h
  have h1 : SameShape d ⟨d.keys, d.blocks.set bid1 bl1⟩ := setWrite_shape hwo1
  have hg1 : ¬ GradTouched (⟨d.keys, d.blocks.set bid1 bl1⟩ : Desc) bid s k g := by
    rw [GradTouched_congr h1]
    exact hg
  have hd1 := setWrite_grad_frame hwo1 hg (j := bid) (g := g) x y pr
  rcases hcase with ⟨_, _, rfl⟩ | ⟨_, _, bl2, hwo2, rfl⟩ | ⟨_, bid2, bl2, hbid2, hwo2, rfl⟩
  · exact hd1
  · have hd2 := setWrite_grad_frame (d := ⟨d.keys, d.blocks.set bid1 bl1⟩) hwo2
      hg1 (g := g) x y pr
    exact hd2.trans hd1
  · have hd2 := setWrite_grad_frame (d := ⟨d.keys, d.blocks.set bid1 bl1⟩) hwo2
      hg1 (g := g) x y pr
    exact hd2.trans hd1

theorem row4_ne_of_atoms_ne {s k a b : Nat} (h : a ≠ b) :
    (⟨s, k, a, b⟩ : Row4) ≠ ⟨s, k, b, a⟩ := by
  intro hEq
  injection hEq with _ _ h1 _
  exact h h1

/-- The final values of the forward orientation written by
`fullProcessPair`: the pair vector itself. -/
theorem fullProcessPair_values_fwd {s k : Nat} {species : List Int} {p : NLPair}
    {d d' : Desc} (h : fullProcessPair s k species p d = some d')
    {bid1 m1 : Nat}
    (hbid1 : position d.keys (species.getD p.first 0, species.getD p.second 0)
      = some bid1)
    (hm1 : position (d.blk bid1).samples ⟨s, k, p.first, p.second⟩ = some m1) :
    (d'.blk bid1).values m1 0 0 = p.vector.x ∧
    (d'.blk bid1).values m1 1 0 = p.vector.y ∧
    (d'.blk bid1).values m1 2 0 = p.vector.z := by
  obtain ⟨bid1', bl1, hbid1', hwo1, hcase⟩ := fullProcessPair_inv h
  rw [hbid1] at hbid1'
  injection hbid1' with hbid1'
  subst hbid1'
  have hlt : bid1 < d.blocks.length := blk_samples_nonempty_lt (position_get? _ _ _ hm1)
  have hd1blk : ((⟨d.keys, d.blocks.set bid1 bl1⟩ : Desc).blk bid1) = bl1 := by
    rw [blk_set, if_pos ⟨rfl, hlt⟩]
  have hv1 := writeOrientation_values_at hwo1 hm1
  rcases hcase with ⟨_, _, rfl⟩ | ⟨_, hself, bl2, hwo2, rfl⟩ |
      ⟨hsp, bid2, bl2, hbid2, hwo2, rfl⟩
  · rw [hd1blk]
    exact hv1
  · have hd'blk :
        ((⟨d.keys, (d.blocks.set bid1 bl1).set bid1 bl2⟩ : Desc).blk bid1) = bl2 := by
      have := blk_set ⟨d.keys, d.blocks.set bid1 bl1⟩ bid1 bl2 bid1
      rw [if_pos ⟨rfl, by simpa using hlt⟩] at this
      exact this
    rw [hd'blk]
    have hfr : ∀ c pr, bl2.values m1 c pr
        = ((⟨d.keys, d.blocks.set bid1 bl1⟩ : Desc).blk bid1).values m1 c pr := by
      intro c pr
      refine writeOrientation_values_frame hwo2 (fun hmm => ?_) c pr
      rw [hd1blk] at hmm
      have hsm : bl1.samples = (d.blk bid1).samples := (writeOrientation_shape hwo1).1
      rw [hsm] at hmm
      have hget := position_get? _ _ _ hmm
      have hget1 := position_get? _ _ _ hm1
      rw [hget] at hget1
      exact row4_ne_of_atoms_ne hself (Option.some.inj hget1).symm
    rw [hfr 0 0, hfr 1 0, hfr 2 0, hd1blk]
    exact hv1
  · have hne12 : bid1 ≠ bid2 := by
      refine position_ne_of_row_ne d.keys hbid1 hbid2 ?_
      intro hEq
      injection hEq with h1 h2
      exact hsp h1
    have hd'blk :
        ((⟨d.keys, (d.blocks.set bid1 bl1).set bid2 bl2⟩ : Desc).blk bid1) = bl1 := by
      have := blk_set ⟨d.keys, d.blocks.set bid1 bl1⟩ bid2 bl2 bid1
      rw [if_neg (fun hc => hne12 hc.1)] at this
      rw [this]
      exact hd1blk
    rw [hd'blk]
    exact hv1

/-- The final values of the reverse orientation written by
`fullProcessPair`: the negated pair vector. -/
theorem fullProcessPair_values_rev {s k : Nat} {species : List Int} {p : NLPair}
    {d d' : Desc} (h : fullProcessPair s k species p d = some d')
    (hne : p.first ≠ p.second)
    {bid2 m2 : Nat}
    (hbid2 : position d.keys (species.getD p.second 0, species.getD p.first 0)
      = some bid2)
    (hm2 : position (d.blk bid2).samples ⟨s, k, p.second, p.first⟩ = some m2) :
    (d'.blk bid2).values m2 0 0 = p.vector.neg.x ∧
    (d'.blk bid2).values m2 1 0 = p.vector.neg.y ∧
    (d'.blk bid2).values m2 2 0 = p.vector.neg.z := by
  obtain ⟨bid1, bl1, hbid1, hwo1, hcase⟩ := fullProcessPair_inv h
  have hlt2 : bid2 < d.blocks.length := blk_samples_nonempty_lt (position_get? _ _ _ hm2)
  rcases hcase with ⟨_, hself, rfl⟩ | ⟨hsp, hself, bl2, hwo2, rfl⟩ |
      ⟨hsp, bid2', bl2, hbid2', hwo2, rfl⟩
  · exact absurd hself hne
  · have hkey : (species.getD p.second 0, species.getD p.first 0)
        = (species.getD p.first 0, species.getD p.second 0) := by
      rw [hsp]
    rw [hkey, hbid1] at hbid2
    injection hbid2 with hbid2
    subst hbid2
    have hd1blk : ((⟨d.keys, d.blocks.set bid1 bl1⟩ : Desc).blk bid1) = bl1 := by
      rw [blk_set, if_pos ⟨rfl, hlt2⟩]
    have hd'blk :
        ((⟨d.keys, (d.blocks.set bid1 bl1).set bid1 bl2⟩ : Desc).blk bid1) = bl2 := by
      have := blk_set ⟨d.keys, d.blocks.set bid1 bl1⟩ bid1 bl2 bid1
      rw [if_pos ⟨rfl, by simpa using hlt2⟩] at this
      exact this
    rw [hd'blk]
    have hm2' : position (((⟨d.keys, d.blocks.set bid1 bl1⟩ : Desc).blk bid1)).samples
        ⟨s, k, p.second, p.first⟩ = some m2 := by
      rw [hd1blk, (writeOrientation_shape hwo1).1]
      exact hm2
    exact writeOrientation_values_at hwo2 hm2'
  · rw [hbid2] at hbid2'
    injection hbid2' with hbid2'
    subst hbid2'
    have hne12 : bid1 ≠ bid2 := by
      refine position_ne_of_row_ne d.keys hbid1 hbid2 ?_
      intro hEq
      injection hEq with h1 h2
      exact hsp h1
    have hd1blk : ((⟨d.keys, d.blocks.set bid1 bl1⟩ : Desc).blk bid2) = d.blk bid2 := by
      rw [blk_set, if_neg (fun hc => hne12 hc.1.symm)]
    have hd'blk :
        ((⟨d.keys, (d.blocks.set bid1 bl1).set bid2 bl2⟩ : Desc).blk bid2) = bl2 := by
      have := blk_set ⟨d.keys, d.blocks.set bid1 bl1⟩ bid2 bl2 bid2
      rw [if_pos ⟨rfl, by simpa using hlt2⟩] at this
      exact this
    rw [hd'blk]
    have hm2' : position (((⟨d.keys, d.blocks.set bid1 bl1⟩ : Desc).blk bid2)).samples
        ⟨s, k, p.second, p.first⟩ = some m2 := by
      rw [hd1blk]
      exact hm2
    exact writeOrientation_values_at hwo2 hm2'

theorem gradient_of_gradSamples_eq {bl bl' : Block}
    (h : bl'.gradSamples = bl.gradSamples) {gr : GradBlock}
    (hgr : bl.gradient = some gr) :
    ∃ gr', bl'.gradient = some gr' ∧ gr'.samples = gr.samples := by
  unfold Block.gradSamples at h
  rw [hgr] at h
  cases hgr' : bl'.gradient with
  | none => rw [hgr'] at h; simp at h
  | some gr' =>
    rw [hgr'] at h
    simp only [Option.map_some'] at h
    exact ⟨gr', rfl, Option.some.inj h⟩

/-- Two diagonal-stamp writes read the inner array only at the same point. -/
theorem writePair_point_congr {X Y : Nat → Nat → Nat → Nat → ℚ} {g1 g2 g : Nat}
    (h : ∀ x y pr, X g x y pr = Y g x y pr) (x y pr : Nat) :
    writePosI (writeNegI X g1) g2 g x y pr = writePosI (writeNegI Y g1) g2 g x y pr := by
  unfold writePosI writeNegI updG
  split_ifs <;> first | rfl | exact h x y pr

/-- Inversion of a successful orientation write whose sample row and gradient
are present: the two gradient rows are found and stamped. -/
theorem writeOrientation_grad_inv {s k a1 a2 : Nat} {v : Vec3} {bl bl' : Block}
    (h : writeOrientation s k a1 a2 v bl = some bl')
    {m : Nat} (hm : position bl.samples ⟨s, k, a1, a2⟩ = some m)
    {gr : GradBlock} (hgr : bl.gradient = some gr) :
    ∃ gf1 gf2 : Nat, position gr.samples ⟨m, s, a1⟩ = some gf1 ∧
      position gr.samples ⟨m, s, a2⟩ = some gf2 ∧
      bl'.gdata = writePosI (writeNegI gr.data gf1) gf2 := by
  unfold writeOrientation at h
  rw [hm] at h
  simp only [hgr] at h
  cases hg1 : position gr.samples ⟨m, s, a1⟩ with
  | none => rw [hg1] at h; cases h
  | some gf1 =>
    rw [hg1] at h
    cases hg2 : position gr.samples ⟨m, s, a2⟩ with
    | none => rw [hg2] at h; cases h
    | some gf2 =>
      rw [hg2] at h
      cases h
      exact ⟨gf1, gf2, rfl, rfl, by simp [Block.gdata]⟩

/-- The final gradient data of the forward orientation written by
`fullProcessPair`, on every gradient row that references its sample row. -/
theorem fullProcessPair_grad_fwd {s k : Nat} {species : List Int} {p : NLPair}
    {d d' : Desc} (h : fullProcessPair s k species p d = some d')
    {bid1 m1 : Nat}
    (hbid1 : position d.keys (species.getD p.first 0, species.getD p.second 0)
      = some bid1)
    (hm1 : position (d.blk bid1).samples ⟨s, k, p.first, p.second⟩ = some m1)
    {gr : GradBlock} (hgr : (d.blk bid1).gradient = some gr)
    {g1 g2 : Nat}
    (hg1 : position gr.samples ⟨m1, s, p.first⟩ = some g1)
    (hg2 : position gr.samples ⟨m1, s, p.second⟩ = some g2) :
    ∀ g : Nat, (∃ s' a' : Nat, gr.samples.get? g = some ⟨m1, s', a'⟩) →
      ∀ x y pr : Nat, (d'.blk bid1).gdata g x y pr
        = writePosI (writeNegI gr.data g1) g2 g x y pr := by
  intro g hgref x y pr
  obtain ⟨bid1', bl1, hbid1', hwo1, hcase⟩ := fullProcessPair_inv h
  rw [hbid1] at hbid1'
  injection hbid1' with hbid1'
  subst hbid1'
  have hlt : bid1 < d.blocks.length := blk_samples_nonempty_lt (position_get? _ _ _ hm1)
  have hd1blk : ((⟨d.keys, d.blocks.set bid1 bl1⟩ : Desc).blk bid1) = bl1 := by
    rw [blk_set, if_pos ⟨rfl, hlt⟩]
  have hbl1g : bl1.gdata = writePosI (writeNegI gr.data g1) g2 :=
    writeOrientation_grad_at hwo1 hm1 hgr hg1 hg2
  rcases hcase with ⟨_, _, rfl⟩ | ⟨_, hself, bl2, hwo2, rfl⟩ |
      ⟨hsp, bid2, bl2, hbid2, hwo2, rfl⟩
  · rw [hd1blk, hbl1g]
  · have hd'blk :
        ((⟨d.keys, (d.blocks.set bid1 bl1).set bid1 bl2⟩ : Desc).blk bid1) = bl2 := by
      have := blk_set ⟨d.keys, d.blocks.set bid1 bl1⟩ bid1 bl2 bid1
      rw [if_pos ⟨rfl, by simpa using hlt⟩] at this
      exact this
    rw [hd'blk]
    rw [hd1blk] at hwo2
    obtain ⟨gr1, hgr1, hgr1s⟩ :=
      gradient_of_gradSamples_eq (writeOrientation_shape hwo1).2 hgr
    have hfr : bl2.gdata g x y pr = bl1.gdata g x y pr := by
      refine writeOrientation_grad_frame hwo2 (fun m0 hm0 => ?_) x y pr
      have hsm : bl1.samples = (d.blk bid1).samples := (writeOrientation_shape hwo1).1
      rw [hsm] at hm0
      have hget0 := position_get? _ _ _ hm0
      have hget1 := position_get? _ _ _ hm1
      have hne01 : m0 ≠ m1 := by
        intro hEq
        rw [hEq, hget1] at hget0
        exact row4_ne_of_atoms_ne hself (Option.some.inj hget0)
      obtain ⟨s', a', hga⟩ := hgref
      constructor
      · intro hgp
        rw [Block.gpos, hgr1] at hgp
        have := position_get? _ _ _ hgp
        rw [hgr1s] at this
        rw [hga] at this
        injection this with this
        injection this with h1 _
        exact hne01 h1.symm
      · intro hgp
        rw [Block.gpos, hgr1] at hgp
        have := position_get? _ _ _ hgp
        rw [hgr1s] at this
        rw [hga] at this
        injection this with this
        injection this with h1 _
        exact hne01 h1.symm
    rw [hfr, hbl1g]
  · have hne12 : bid1 ≠ bid2 := by
      refine position_ne_of_row_ne d.keys hbid1 hbid2 ?_
      intro hEq
      injection hEq with h1 h2
      exact hsp h1
    have hd'blk :
        ((⟨d.keys, (d.blocks.set bid1 bl1).set bid2 bl2⟩ : Desc).blk bid1) = bl1 := by
      have := blk_set ⟨d.keys, d.blocks.set bid1 bl1⟩ bid2 bl2 bid1
      rw [if_neg (fun hc => hne12 hc.1)] at this
      rw [this]
      exact hd1blk
    rw [hd'blk, hbl1g]

/-- The final gradient data of the reverse orientation written by
`fullProcessPair`, on every gradient row that references its sample row. -/
theorem fullProcessPair_grad_rev {s k : Nat} {species : List Int} {p : NLPair}
    {d d' : Desc} (h : fullProcessPair s k species p d = some d')
    (hne : p.first ≠ p.second)
    {bid2 m2 : Nat}
    (hbid2 : position d.keys (species.getD p.second 0, species.getD p.first 0)
      = some bid2)
    (hm2 : position (d.blk bid2).samples ⟨s, k, p.second, p.first⟩ = some m2)
    {gr : GradBlock} (hgr : (d.blk bid2).gradient = some gr)
    {g1 g2 : Nat}
    (hg1 : position gr.samples ⟨m2, s, p.second⟩ = some g1)
    (hg2 : position gr.samples ⟨m2, s, p.first⟩ = some g2) :
    ∀ g : Nat, (∃ s' a' : Nat, gr.samples.get? g = some ⟨m2, s', a'⟩) →
      ∀ x y pr : Nat, (d'.blk bid2).gdata g x y pr
        = writePosI (writeNegI gr.data g1) g2 g x y pr := by
  intro g hgref x y pr
  obtain ⟨bid1, bl1, hbid1, hwo1, hcase⟩ := fullProcessPair_inv h
  have hlt2 : bid2 < d.blocks.length := blk_samples_nonempty_lt (position_get? _ _ _ hm2)
  rcases hcase with ⟨_, hself, rfl⟩ | ⟨hsp, hself, bl2, hwo2, rfl⟩ |
      ⟨hsp, bid2', bl2, hbid2', hwo2, rfl⟩
  · exact absurd hself hne
  · have hkey : (species.getD p.second 0, species.getD p.first 0)
        = (species.getD p.first 0, species.getD p.second 0) := by
      rw [hsp]
    rw [hkey, hbid1] at hbid2
    injection hbid2 with hbid2
    subst hbid2
    have hd1blk : ((⟨d.keys, d.blocks.set bid1 bl1⟩ : Desc).blk bid1) = bl1 := by
      rw [blk_set, if_pos ⟨rfl, hlt2⟩]
    have hd'blk :
        ((⟨d.keys, (d.blocks.set bid1 bl1).set bid1 bl2⟩ : Desc).blk bid1) = bl2 := by
      have := blk_set ⟨d.keys, d.blocks.set bid1 bl1⟩ bid1 bl2 bid1
      rw [if_pos ⟨rfl, by simpa using hlt2⟩] at this
      exact this
    rw [hd'blk]
    rw [hd1blk] at hwo2
    obtain ⟨gr1, hgr1, hgr1s⟩ :=
      gradient_of_gradSamples_eq (writeOrientation_shape hwo1).2 hgr
    have hm2' : position bl1.samples ⟨s, k, p.second, p.first⟩ = some m2 := by
      rw [(writeOrientation_shape hwo1).1]
      exact hm2
    have hg1' : position gr1.samples ⟨m2, s, p.second⟩ = some g1 := by
      rw [hgr1s]
      exact hg1
    have hg2' : position gr1.samples ⟨m2, s, p.first⟩ = some g2 := by
      rw [hgr1s]
      exact hg2
    have hbl2g : bl2.gdata = writePosI (writeNegI gr1.data g1) g2 :=
      writeOrientation_grad_at hwo2 hm2' hgr1 hg1' hg2'
    rw [hbl2g]
    cases hm1 : position (d.blk bid1).samples ⟨s, k, p.first, p.second⟩ with
    | none =>
      have hbl1 : bl1 = d.blk bid1 := writeOrientation_values_none hwo1 hm1
      rw [hbl1] at hgr1
      rw [hgr1] at hgr
      have hgrd : gr1.data = gr.data := by rw [Option.some.inj hgr]
      rw [hgrd]
    | some m1 =>
      obtain ⟨gf1, gf2, hgf1, hgf2, hbl1g⟩ := writeOrientation_grad_inv hwo1 hm1 hgr
      have hgrd : gr1.data = bl1.gdata := by
        unfold Block.gdata
        rw [hgr1]
      rw [hgrd, hbl1g]
      refine writePair_point_congr (fun x' y' pr' => ?_) x y pr
      have hne21 : m2 ≠ m1 := by
        intro hEq
        have hget1 := position_get? _ _ _ hm1
        have hget2 := position_get? _ _ _ hm2
        rw [hEq, hget1] at hget2
        exact row4_ne_of_atoms_ne hne (Option.some.inj hget2)
      obtain ⟨s', a', hga⟩ := hgref
      have hggf1 : g ≠ gf1 := by
        intro hEq
        have := position_get? _ _ _ hgf1
        rw [← hEq, hga] at this
        injection this with this
        injection this with h1 _
        exact hne21 h1
      have hggf2 : g ≠ gf2 := by
        intro hEq
        have := position_get? _ _ _ hgf2
        rw [← hEq, hga] at this
        injection this with this
        injection this with h1 _
        exact hne21 h1
      rw [writePosI_ne hggf2, writeNegI_ne hggf1]
  · rw [hbid2] at hbid2'
    injection hbid2' with hbid2'
    subst hbid2'
    have hne12 : bid1 ≠ bid2 := by
      refine position_ne_of_row_ne d.keys hbid1 hbid2 ?_
      intro hEq
      injection hEq with h1 h2
      exact hsp h1
    have hd1blk : ((⟨d.keys, d.blocks.set bid1 bl1⟩ : Desc).blk bid2) = d.blk bid2 := by
      rw [blk_set, if_neg (fun hc => hne12 hc.1.symm)]
    have hd'blk :
        ((⟨d.keys, (d.blocks.set bid1 bl1).set bid2 bl2⟩ : Desc).blk bid2) = bl2 := by
      have := blk_set ⟨d.keys, d.blocks.set bid1 bl1⟩ bid2 bl2 bid2
      rw [if_pos ⟨rfl, by simpa using hlt2⟩] at this
      exact this
    rw [hd'blk]
    rw [hd1blk] at hwo2
    have hbl2g : bl2.gdata = writePosI (writeNegI gr.data g1) g2 :=
      writeOrientation_grad_at hwo2 hm2 hgr hg1 hg2
    rw [hbl2g]

section Folds

variable {F : Nat → Nat → List Int → NLPair → Desc → Option Desc}

theorem processPairs_shape (s : Nat) (species : List Int)
    (hshape : ∀ (k : Nat) (p : NLPair) (d d' : Desc),
      F s k species p d = some d' → SameShape d d') :
    ∀ (ps : List NLPair) (k₀ : Nat) {d d' : Desc},
      processPairs F s species k₀ ps d = some d' → SameShape d d' := by
  intro ps
  induction ps with
  | nil =>
    intro k₀ d d' h
    rw [processPairs] at h
    cases h
    exact SameShape.refl _
  | cons p ps ih =>
    intro k₀ d d' h
    rw [processPairs] at h
    cases hstep : F s k₀ species p d with
    | none => rw [hstep] at h; cases h
    | some d1 =>
      rw [hstep] at h
      exact (hshape k₀ p d d1 hstep).trans (ih (k₀ + 1) h)

theorem processPairs_values_frame (s : Nat) (species : List Int)
    (hshape : ∀ (k : Nat) (p : NLPair) (d d' : Desc),
      F s k species p d = some d' → SameShape d d')
    (hvf : ∀ (k : Nat) (p : NLPair) (d d' : Desc) (bid m : Nat),
      F s k species p d = some d' → ¬ RowSK d bid m s k →
      ∀ c pr, (d'.blk bid).values m c pr = (d.blk bid).values m c pr) :
    ∀ (ps : List NLPair) (k₀ : Nat) {d d' : Desc},
      processPairs F s species k₀ ps d = some d' →
      ∀ (bid m : Nat),
        (∀ k', k₀ ≤ k' → k' < k₀ + ps.length → ¬ RowSK d bid m s k') →
        ∀ c pr, (d'.blk bid).values m c pr = (d.blk bid).values m c pr := by
  intro ps
  induction ps with
  | nil =>
    intro k₀ d d' h bid m _ c pr
    rw [processPairs] at h
    cases h
    rfl
  | cons p ps ih =>
    intro k₀ d d' h bid m hcond c pr
    rw [processPairs] at h
    cases hstep : F s k₀ species p d with
    | none => rw [hstep] at h; cases h
    | some d1 =>
      rw [hstep] at h
      have hshape1 := hshape k₀ p d d1 hstep
      have hd1 := hvf k₀ p d d1 bid m hstep
        (hcond k₀ (Nat.le_refl _) (by simp)) c pr
      have hrest := ih (k₀ + 1) h bid m (fun k' hk1 hk2 => by
        rw [RowSK_congr hshape1]
        exact hcond k' (by omega) (by simp at hk2 ⊢; omega)) c pr
      exact hrest.trans hd1

theorem processPairs_grad_frame (s : Nat) (species : List Int)
    (hshape : ∀ (k : Nat) (p : NLPair) (d d' : Desc),
      F s k species p d = some d' → SameShape d d')
    (hgf : ∀ (k : Nat) (p : NLPair) (d d' : Desc) (bid g : Nat),
      F s k species p d = some d' → ¬ GradTouched d bid s k g →
      ∀ x y pr, (d'.blk bid).gdata g x y pr = (d.blk bid).gdata g x y pr) :
    ∀ (ps : List NLPair) (k₀ : Nat) {d d' : Desc},
      processPairs F s species k₀ ps d = some d' →
      ∀ (bid g : Nat),
        (∀ k', k₀ ≤ k' → k' < k₀ + ps.length → ¬ GradTouched d bid s k' g) →
        ∀ x y pr, (d'.blk bid).gdata g x y pr = (d.blk bid).gdata g x y pr := by
  intro ps
  induction ps with
  | nil =>
    intro k₀ d d' h bid g _ x y pr
    rw [processPairs] at h
    cases h
    rfl
  | cons p ps ih =>
    intro k₀ d d' h bid g hcond x y pr
    rw [processPairs] at h
    cases hstep : F s k₀ species p d with
    | none => rw [hstep] at h; cases h
    | some d1 =>
      rw [hstep] at h
      have hshape1 := hshape k₀ p d d1 hstep
      have hd1 := hgf k₀ p d d1 bid g hstep
        (hcond k₀ (Nat.le_refl _) (by simp)) x y pr
      have hrest := ih (k₀ + 1) h bid g (fun k' hk1 hk2 => by
        rw [GradTouched_congr hshape1]
        exact hcond k' (by omega) (by simp at hk2 ⊢; omega)) x y pr
      exact hrest.trans hd1

theorem processSystems_shape
    (hshape : ∀ (s k : Nat) (species : List Int) (p : NLPair) (d d' : Desc),
      F s k species p d = some d' → SameShape d d') :
    ∀ (systems : List NLSystem) (s₀ : Nat) {d d' : Desc},
      processSystems F s₀ systems d = .ok d' → SameShape d d' := by
  intro systems
  induction systems with
  | nil =>
    intro s₀ d d' h
    rw [processSystems] at h
    cases h
    exact SameShape.refl _
  | cons sys rest ih =>
    intro s₀ d d' h
    rw [processSystems] at h
    cases hcn : sys.computeNeighbors with
    | error e => rw [hcn] at h; cases h
    | ok u =>
      cases u
      rw [hcn] at h
      cases hp : processPairs F s₀ sys.species 0 sys.pairs d with
      | none => rw [hp] at h; cases h
      | some d1 =>
        rw [hp] at h
        have h1 := processPairs_shape s₀ sys.species
          (fun k p da db => hshape s₀ k sys.species p da db) sys.pairs 0 hp
        exact h1.trans (ih (s₀ + 1) h)

theorem processSystems_values_frame
    (hshape : ∀ (s k : Nat) (species : List Int) (p : NLPair) (d d' : Desc),
      F s k species p d = some d' → SameShape d d')
    (hvf : ∀ (s k : Nat) (species : List Int) (p : NLPair) (d d' : Desc) (bid m : Nat),
      F s k species p d = some d' → ¬ RowSK d bid m s k →
      ∀ c pr, (d'.blk bid).values m c pr = (d.blk bid).values m c pr) :
    ∀ (systems : List NLSystem) (s₀ : Nat) {d d' : Desc},
      processSystems F s₀ systems d = .ok d' →
      ∀ (bid m : Nat),
        (∀ s' k', s₀ ≤ s' → s' < s₀ + systems.length → ¬ RowSK d bid m s' k') →
        ∀ c pr, (d'.blk bid).values m c pr = (d.blk bid).values m c pr := by
  intro systems
  induction systems with
  | nil =>
    intro s₀ d d' h bid m _ c pr
    rw [processSystems] at h
    cases h
    rfl
  | cons sys rest ih =>
    intro s₀ d d' h bid m hcond c pr
    rw [processSystems] at h
    cases hcn : sys.computeNeighbors with
    | error e => rw [hcn] at h; cases h
    | ok u =>
      cases u
      rw [hcn] at h
      cases hp : processPairs F s₀ sys.species 0 sys.pairs d with
      | none => rw [hp] at h; cases h
      | some d1 =>
        rw [hp] at h
        have hshape1 := processPairs_shape s₀ sys.species
          (fun k p da db => hshape s₀ k sys.species p da db) sys.pairs 0 hp
        have hd1 := processPairs_values_frame s₀ sys.species
          (fun k p da db => hshape s₀ k sys.species p da db)
          (fun k p da db bid' m' => hvf s₀ k sys.species p da db bid' m')
          sys.pairs 0 hp bid m
          (fun k' _ _ => hcond s₀ k' (Nat.le_refl _) (by simp)) c pr
        have hrest := ih (s₀ + 1) h bid m (fun s' k' hs1 hs2 => by
          rw [RowSK_congr hshape1]
          exact hcond s' k' (by omega) (by simp at hs2 ⊢; omega)) c pr
        exact hrest.trans hd1

theorem processSystems_grad_frame
    (hshape : ∀ (s k : Nat) (species : List Int) (p : NLPair) (d d' : Desc),
      F s k species p d = some d' → SameShape d d')
    (hgf : ∀ (s k : Nat) (species : List Int) (p : NLPair) (d d' : Desc) (bid g : Nat),
      F s k species p d = some d' → ¬ GradTouched d bid s k g →
      ∀ x y pr, (d'.blk bid).gdata g x y pr = (d.blk bid).gdata g x y pr) :
    ∀ (systems : List NLSystem) (s₀ : Nat) {d d' : Desc},
      processSystems F s₀ systems d = .ok d' →
      ∀ (bid g : Nat),
        (∀ s' k', s₀ ≤ s' → s' < s₀ + systems.length → ¬ GradTouched d bid s' k' g) →
        ∀ x y pr, (d'.blk bid).gdata g x y pr = (d.blk bid).gdata g x y pr := by
  intro systems
  induction systems with
  | nil =>
    intro s₀ d d' h bid g _ x y pr
    rw [processSystems] at h
    cases h
    rfl
  | cons sys rest ih =>
    intro s₀ d d' h bid g hcond x y pr
    rw [processSystems] at h
    cases hcn : sys.computeNeighbors with
    | error e => rw [hcn] at h; cases h
    | ok u =>
      cases u
      rw [hcn] at h
      cases hp : processPairs F s₀ sys.species 0 sys.pairs d with
      | none => rw [hp] at h; cases h
      | some d1 =>
        rw [hp] at h
        have hshape1 := processPairs_shape s₀ sys.species
          (fun k p da db => hshape s₀ k sys.species p da db) sys.pairs 0 hp
        have hd1 := processPairs_grad_frame s₀ sys.species
          (fun k p da db => hshape s₀ k sys.species p da db)
          (fun k p da db bid' g' => hgf s₀ k sys.species p da db bid' g')
          sys.pairs 0 hp bid g
          (fun k' _ _ => hcond s₀ k' (Nat.le_refl _) (by simp)) x y pr
        have hrest := ih (s₀ + 1) h bid g (fun s' k' hs1 hs2 => by
          rw [GradTouched_congr hshape1]
          exact hcond s' k' (by omega) (by simp at hs2 ⊢; omega)) x y pr
        exact hrest.trans hd1

theorem processPairs_split (s : Nat) (species : List Int) :
    ∀ (ps : List NLPair) (k₀ : Nat) {d d' : Desc},
      processPairs F s species k₀ ps d = some d' →
      ∀ (idx : Nat) (p : NLPair), ps.get? idx = some p →
      ∃ d₁ d₂ : Desc,
        processPairs F s species k₀ (ps.take idx) d = some d₁ ∧
        F s (k₀ + idx) species p d₁ = some d₂ ∧
        processPairs F s species (k₀ + idx + 1) (ps.drop (idx + 1)) d₂ = some d' := by
  intro ps
  induction ps with
  | nil => intro k₀ d d' _ idx p hp; simp at hp
  | cons p0 ps ih =>
    intro k₀ d d' h idx p hp
    rw [processPairs] at h
    cases hstep : F s k₀ species p0 d with
    | none => rw [hstep] at h; cases h
    | some d1 =>
      rw [hstep] at h
      cases idx with
      | zero =>
        injection hp with hp
        subst hp
        refine ⟨d, d1, ?_, ?_, ?_⟩
        · rw [List.take_zero, processPairs]
        · rw [Nat.add_zero]
          exact hstep
        · rw [Nat.add_zero]
          simpa using h
      | succ idx' =>
        obtain ⟨d₁, d₂, h1, h2, h3⟩ := ih (k₀ + 1) h idx' p (by simpa using hp)
        refine ⟨d₁, d₂, ?_, ?_, ?_⟩
        · rw [List.take_succ_cons, processPairs, hstep]
          exact h1
        · have : k₀ + 1 + idx' = k₀ + (idx' + 1) := by omega
          rwa [this] at h2
        · have : k₀ + 1 + idx' + 1 = k₀ + (idx' + 1) + 1 := by omega
          rw [this] at h3
          simpa using h3

theorem processSystems_split :
    ∀ (systems : List NLSystem) (s₀ : Nat) {d d' : Desc},
      processSystems F s₀ systems d = .ok d' →
      ∀ (idx : Nat) (sys : NLSystem), systems.get? idx = some sys →
      ∃ d₁ d₂ : Desc,
        processSystems F s₀ (systems.take idx) d = .ok d₁ ∧
        sys.computeNeighbors = .ok () ∧
        processPairs F (s₀ + idx) sys.species 0 sys.pairs d₁ = some d₂ ∧
        processSystems F (s₀ + idx + 1) (systems.drop (idx + 1)) d₂ = .ok d' := by
  intro systems
  induction systems with
  | nil => intro s₀ d d' _ idx sys hs; simp at hs
  | cons sys0 rest ih =>
    intro s₀ d d' h idx sys hs
    rw [processSystems] at h
    cases hcn : sys0.computeNeighbors with
    | error e => rw [hcn] at h; cases h
    | ok u =>
      cases u
      rw [hcn] at h
      cases hp : processPairs F s₀ sys0.species 0 sys0.pairs d with
      | none => rw [hp] at h; cases h
      | some d1 =>
        rw [hp] at h
        cases idx with
        | zero =>
          injection hs with hs
          subst hs
          refine ⟨d, d1, ?_, hcn, ?_, ?_⟩
          · rw [List.take_zero, processSystems]
          · rw [Nat.add_zero]
            exact hp
          · rw [Nat.add_zero]
            simpa using h
        | succ idx' =>
          obtain ⟨d₁, d₂, h1, h2, h3, h4⟩ := ih (s₀ + 1) h idx' sys (by simpa using hs)
          refine ⟨d₁, d₂, ?_, h2, ?_, ?_⟩
          · rw [List.take_succ_cons, processSystems, hcn, hp]
            exact h1
          · have : s₀ + 1 + idx' = s₀ + (idx' + 1) := by omega
            rwa [this] at h3
          · have : s₀ + 1 + idx' + 1 = s₀ + (idx' + 1) + 1 := by omega
            rw [this] at h4
            simpa using h4

end Folds

theorem fullStep_shape_all :
    ∀ (s k : Nat) (species : List Int) (p : NLPair) (d d' : Desc),
      fullProcessPair s k species p d = some d' → SameShape d d' :=
  fun _ _ _ _ _ _ h => fullProcessPair_shape h

theorem fullStep_values_frame_all :
    ∀ (s k : Nat) (species : List Int) (p : NLPair) (d d' : Desc) (bid m : Nat),
      fullProcessPair s k species p d = some d' → ¬ RowSK d bid m s k →
      ∀ c pr, (d'.blk bid).values m c pr = (d.blk bid).values m c pr :=
  fun _ _ _ _ _ _ _ _ h hrow => fullProcessPair_values_frame h hrow

theorem fullStep_grad_frame_all :
    ∀ (s k : Nat) (species : List Int) (p : NLPair) (d d' : Desc) (bid g : Nat),
      fullProcessPair s k species p d = some d' → ¬ GradTouched d bid s k g →
      ∀ x y pr, (d'.blk bid).gdata g x y pr = (d.blk bid).gdata g x y pr :=
  fun _ _ _ _ _ _ _ _ h hg => fullProcessPair_grad_frame h hg

theorem halfStep_shape_all :
    ∀ (s k : Nat) (species : List Int) (p : NLPair) (d d' : Desc),
      halfProcessPair s k species p d = some d' → SameShape d d' :=
  fun _ _ _ _ _ _ h => halfProcessPair_shape h

theorem halfStep_values_frame_all :
    ∀ (s k : Nat) (species : List Int) (p : NLPair) (d d' : Desc) (bid m : Nat),
      halfProcessPair s k species p d = some d' → ¬ RowSK d bid m s k →
      ∀ c pr, (d'.blk bid).values m c pr = (d.blk bid).values m c pr :=
  fun _ _ _ _ _ _ _ _ h hrow => halfProcessPair_values_frame h hrow

theorem halfStep_grad_frame_all :
    ∀ (s k : Nat) (species : List Int) (p : NLPair) (d d' : Desc) (bid g : Nat),
      halfProcessPair s k species p d = some d' → ¬ GradTouched d bid s k g →
      ∀ x y pr, (d'.blk bid).gdata g x y pr = (d.blk bid).gdata g x y pr :=
  fun _ _ _ _ _ _ _ _ h hg => halfProcessPair_grad_frame h hg

/-- Splitting a whole successful compute run around the processing of one
pair, with the descriptor shapes tied back to the initial one. -/
theorem compute_split_at_pair
    (hshape : ∀ (s k : Nat) (species : List Int) (p : NLPair) (d d' : Desc),
      F s k species p d = some d' → SameShape d d')
    {systems : List NLSystem} {d₀ d' : Desc} {s k : Nat} {sys : NLSystem} {p : NLPair}
    (hok : processSystems F 0 systems d₀ = .ok d')
    (hsys : systems.get? s = some sys)
    (hp : sys.pairs.get? k = some p) :
    ∃ dMid dPre dStep dPost : Desc,
      processSystems F 0 (systems.take s) d₀ = .ok dMid ∧
      processPairs F s sys.species 0 (sys.pairs.take k) dMid = some dPre ∧
      SameShape d₀ dPre ∧
      F s k sys.species p dPre = some dStep ∧
      processPairs F s sys.species (k + 1) (sys.pairs.drop (k + 1)) dStep
        = some dPost ∧
      processSystems F (s + 1) (systems.drop (s + 1)) dPost = .ok d' := by
  obtain ⟨d₁, d₂, hpre, hcn, hpairs, hpost⟩ := processSystems_split systems 0 hok s sys hsys
  rw [Nat.zero_add] at hpairs hpost
  obtain ⟨d₁', d₂', hpre', hstep, hpost'⟩ := processPairs_split s sys.species
    sys.pairs 0 hpairs k p hp
  rw [Nat.zero_add] at hstep hpost'
  have hsh1 : SameShape d₀ d₁ := processSystems_shape
    (fun s' k' species' p' da db h => hshape s' k' species' p' da db h)
    (systems.take s) 0 hpre
  have hsh2 : SameShape d₁ d₁' := processPairs_shape s sys.species
    (fun k' p' da db h => hshape s k' sys.species p' da db h)
    (sys.pairs.take k) 0 hpre'
  exact ⟨d₁, d₁', d₂', d₂, hpre, hpre', hsh1.trans hsh2, hstep, by simpa using hpost', hpost⟩

/-- After the step at pair `(s, k)`, the remaining pairs of system `s` and
the remaining systems leave the value cells of any row of pair `(s, k)`
unchanged. -/
theorem values_unchanged_after_step
    (hshape : ∀ (s k : Nat) (species : List Int) (p : NLPair) (d d' : Desc),
      F s k species p d = some d' → SameShape d d')
    (hvf : ∀ (s k : Nat) (species : List Int) (p : NLPair) (d d' : Desc) (bid m : Nat),
      F s k species p d = some d' → ¬ RowSK d bid m s k →
      ∀ c pr, (d'.blk bid).values m c pr = (d.blk bid).values m c pr)
    {systems : List NLSystem} {d' : Desc} {s k : Nat} {sys : NLSystem}
    {dStep dPost : Desc}
    (hpost1 : processPairs F s sys.species (k + 1) (sys.pairs.drop (k + 1)) dStep
      = some dPost)
    (hpost2 : processSystems F (s + 1) (systems.drop (s + 1)) dPost = .ok d')
    {bid m : Nat} {a1 a2 : Nat}
    (hrow : (dStep.blk bid).samples.get? m = some ⟨s, k, a1, a2⟩) (c pr : Nat) :
    (d'.blk bid).values m c pr = (dStep.blk bid).values m c pr := by
  have hshPairs : SameShape dStep dPost := processPairs_shape s sys.species
    (fun k' p' da db h => hshape s k' sys.species p' da db h) _ _ hpost1
  have h1 : (dPost.blk bid).values m c pr = (dStep.blk bid).values m c pr := by
    refine processPairs_values_frame s sys.species
      (fun k' p' da db h => hshape s k' sys.species p' da db h)
      (fun k' p' da db bid' m' h hr => hvf s k' sys.species p' da db bid' m' h hr)
      _ _ hpost1 bid m (fun k' hk1 _ => ?_) c pr
    rintro ⟨b1, b2, hrow'⟩
    rw [hrow] at hrow'
    injection hrow' with hrow'
    injection hrow' with _ hk _ _
    omega
  have h2 : (d'.blk bid).values m c pr = (dPost.blk bid).values m c pr := by
    refine processSystems_values_frame hshape hvf _ _ hpost2 bid m
      (fun s' k' hs1 _ => ?_) c pr
    rintro ⟨b1, b2, hrow'⟩
    rw [(hshPairs.2.2 bid).1, hrow] at hrow'
    injection hrow' with hrow'
    injection hrow' with hs _ _ _
    omega
  exact h2.trans h1

/-- C2: for every system `s`, pair index `k` and atoms `i ≠ j`, whenever
both sample rows are present the full-neighbor-list compute writes the value
at sample `(s, k, j, i)` of the block keyed `(species_j, species_i)` equal to
the componentwise negation (over the `pair_direction` axis) of the value at
sample `(s, k, i, j)` of the block keyed `(species_i, species_j)`. -/
theorem full_antisymmetry
    {systems : List NLSystem} {d₀ d' : Desc} {s k : Nat} {sys : NLSystem} {p : NLPair}
    (hok : fullCompute systems d₀ = .ok d')
    (hsys : systems.get? s = some sys)
    (hp : sys.pairs.get? k = some p)
    (hne : p.first ≠ p.second)
    {bid1 bid2 m1 m2 : Nat}
    (hbid1 : position d₀.keys (sys.speciesAt p.first, sys.speciesAt p.second)
      = some bid1)
    (hbid2 : position d₀.keys (sys.speciesAt p.second, sys.speciesAt p.first)
      = some bid2)
    (hm1 : position (d₀.blk bid1).samples ⟨s, k, p.first, p.second⟩ = some m1)
    (hm2 : position (d₀.blk bid2).samples ⟨s, k, p.second, p.first⟩ = some m2) :
    ∀ c : Nat, c < 3 →
      (d'.blk bid2).values m2 c 0 = - (d'.blk bid1).values m1 c 0 := by
  intro c hc
  unfold fullCompute at hok
  obtain ⟨dMid, dPre, dStep, dPost, hpre1, hpre2, hsh, hstep, hpost1, hpost2⟩ :=
    compute_split_at_pair fullStep_shape_all hok hsys hp
  simp only [NLSystem.speciesAt] at hbid1 hbid2
  have hbid1' : position dPre.keys
      (sys.species.getD p.first 0, sys.species.getD p.second 0) = some bid1 := by
    rw [hsh.1]
    exact hbid1
  have hbid2' : position dPre.keys
      (sys.species.getD p.second 0, sys.species.getD p.first 0) = some bid2 := by
    rw [hsh.1]
    exact hbid2
  have hm1' : position (dPre.blk bid1).samples ⟨s, k, p.first, p.second⟩ = some m1 := by
    rw [(hsh.2.2 bid1).1]
    exact hm1
  have hm2' : position (dPre.blk bid2).samples ⟨s, k, p.second, p.first⟩ = some m2 := by
    rw [(hsh.2.2 bid2).1]
    exact hm2
  have hv1 := fullProcessPair_values_fwd hstep hbid1' hm1'
  have hv2 := fullProcessPair_values_rev hstep hne hbid2' hm2'
  have hshStep : SameShape dPre dStep := fullProcessPair_shape hstep
  have hrow1 : (dStep.blk bid1).samples.get? m1 = some ⟨s, k, p.first, p.second⟩ := by
    rw [(hshStep.2.2 bid1).1]
    exact position_get? _ _ _ hm1'
  have hrow2 : (dStep.blk bid2).samples.get? m2 = some ⟨s, k, p.second, p.first⟩ := by
    rw [(hshStep.2.2 bid2).1]
    exact position_get? _ _ _ hm2'
  have hu1 := values_unchanged_after_step fullStep_shape_all fullStep_values_frame_all
    hpost1 hpost2 hrow1 c 0
  have hu2 := values_unchanged_after_step fullStep_shape_all fullStep_values_frame_all
    hpost1 hpost2 hrow2 c 0
  rw [hu1, hu2]
  interval_cases c
  · rw [hv1.1, hv2.1]
    rfl
  · rw [hv1.2.1, hv2.2.1]
    rfl
  · rw [hv1.2.2, hv2.2.2]
    rfl

/-- The initial descriptor for the full-list run over `witnessSystem`
(canonical keys and samples, zeroed values, no gradients). -/
def witnessFullDesc : Desc :=
  { keys := [(-42, 1), (1, -42), (1, 1)]
  , blocks :=
      [ ⟨[⟨0, 0, 0, 1⟩, ⟨0, 1, 0, 2⟩], fun _ _ _ => 0, none⟩
      , ⟨[⟨0, 0, 1, 0⟩, ⟨0, 1, 2, 0⟩], fun _ _ _ => 0, none⟩
      , ⟨[⟨0, 2, 1, 2⟩, ⟨0, 2, 2, 1⟩], fun _ _ _ => 0, none⟩ ] }

theorem gpos_get? {bl : Block} {r : Row3} {g : Nat} (h : bl.gpos r = some g) :
    ∃ gsmp, bl.gradSamples = some gsmp ∧ gsmp.get? g = some r := by
  unfold Block.gpos at h
  cases hgr : bl.gradient with
  | none => rw [hgr] at h; cases h
  | some gr =>
    rw [hgr] at h
    exact ⟨gr.samples, by simp [Block.gradSamples, hgr], position_get? _ _ _ h⟩

/-- A gradient row referencing sample `m` of a row of pair `(s, k)` cannot be
touched while processing any other pair. -/
theorem not_gradTouched_of_ref {d : Desc} {bid m s k g : Nat} {a1 a2 s' a' : Nat}
    (hrow : (d.blk bid).samples.get? m = some ⟨s, k, a1, a2⟩)
    (hgref : ∃ gsmp, (d.blk bid).gradSamples = some gsmp ∧
      gsmp.get? g = some ⟨m, s', a'⟩)
    {s'' k' : Nat} (hne : ¬(s'' = s ∧ k' = k)) : ¬ GradTouched d bid s'' k' g := by
  rintro ⟨m', b1, b2, hrow', hor⟩
  obtain ⟨gsmp, hgs, hgg⟩ := hgref
  have hr0 : ∃ r0 : Row3, (d.blk bid).gpos r0 = some g ∧ r0.sample = m' ∧ r0.sys = s'' := by
    rcases hor with hgp | hgp
    · exact ⟨_, hgp, rfl, rfl⟩
    · exact ⟨_, hgp, rfl, rfl⟩
  obtain ⟨r0, hgp, hr0m, hr0s⟩ := hr0
  obtain ⟨gsmp', hgs', hgg'⟩ := gpos_get? hgp
  rw [hgs] at hgs'
  injection hgs' with hgs'
  subst hgs'
  rw [hgg] at hgg'
  have hr0eq : r0 = ⟨m, s', a'⟩ := Option.some.inj hgg'.symm
  rw [hr0eq] at hr0m
  rw [← hr0m] at hrow'
  rw [hrow] at hrow'
  injection hrow' with hrow'
  injection hrow' with h1 h2 _ _
  exact hne ⟨h1.symm, h2.symm⟩

/-- After the step at pair `(s, k)`, the rest of the run leaves every
gradient cell of a row referencing its sample row unchanged. -/
theorem grad_unchanged_after_step
    {F : Nat → Nat → List Int → NLPair → Desc → Option Desc}
    (hshape : ∀ (s k : Nat) (species : List Int) (p : NLPair) (d d' : Desc),
      F s k species p d = some d' → SameShape d d')
    (hgf : ∀ (s k : Nat) (species : List Int) (p : NLPair) (d d' : Desc) (bid g : Nat),
      F s k species p d = some d' → ¬ GradTouched d bid s k g →
      ∀ x y pr, (d'.blk bid).gdata g x y pr = (d.blk bid).gdata g x y pr)
    {systems : List NLSystem} {d' : Desc} {s k : Nat} {sys : NLSystem}
    {dStep dPost : Desc}
    (hpost1 : processPairs F s sys.species (k + 1) (sys.pairs.drop (k + 1)) dStep
      = some dPost)
    (hpost2 : processSystems F (s + 1) (systems.drop (s + 1)) dPost = .ok d')
    {bid m g : Nat} {a1 a2 s' a' : Nat}
    (hrow : (dStep.blk bid).samples.get? m = some ⟨s, k, a1, a2⟩)
    (hgref : ∃ gsmp, (dStep.blk bid).gradSamples = some gsmp ∧
      gsmp.get? g = some ⟨m, s', a'⟩)
    (x y pr : Nat) :
    (d'.blk bid).gdata g x y pr = (dStep.blk bid).gdata g x y pr := by
  have hshPairs : SameShape dStep dPost := processPairs_shape s sys.species
    (fun k' p' da db h => hshape s k' sys.species p' da db h) _ _ hpost1
  have h1 : (dPost.blk bid).gdata g x y pr = (dStep.blk bid).gdata g x y pr := by
    refine processPairs_grad_frame s sys.species
      (fun k' p' da db h => hshape s k' sys.species p' da db h)
      (fun k' p' da db bid' g' h hg => hgf s k' sys.species p' da db bid' g' h hg)
      _ _ hpost1 bid g (fun k' hk1 _ => ?_) x y pr
    exact not_gradTouched_of_ref hrow hgref (fun hc => by omega)
  have h2 : (d'.blk bid).gdata g x y pr = (dPost.blk bid).gdata g x y pr := by
    refine processSystems_grad_frame hshape hgf _ _ hpost2 bid g
      (fun s'' k' hs1 _ => ?_) x y pr
    have hrowP : (dPost.blk bid).samples.get? m = some ⟨s, k, a1, a2⟩ := by
      rw [(hshPairs.2.2 bid).1]
      exact hrow
    have hgrefP : ∃ gsmp, (dPost.blk bid).gradSamples = some gsmp ∧
        gsmp.get? g = some ⟨m, s', a'⟩ := by
      obtain ⟨gsmp, hgs, hgg⟩ := hgref
      exact ⟨gsmp, by rw [(hshPairs.2.2 bid).2]; exact hgs, hgg⟩
    exact not_gradTouched_of_ref hrowP hgrefP (fun hc => by omega)
  exact h2.trans h1

/-- Before the step at pair `(s, k)`, the prefix of the run leaves every
gradient cell of a row referencing its sample row unchanged. -/
theorem grad_unchanged_before_step
    {F : Nat → Nat → List Int → NLPair → Desc → Option Desc}
    (hshape : ∀ (s k : Nat) (species : List Int) (p : NLPair) (d d' : Desc),
      F s k species p d = some d' → SameShape d d')
    (hgf : ∀ (s k : Nat) (species : List Int) (p : NLPair) (d d' : Desc) (bid g : Nat),
      F s k species p d = some d' → ¬ GradTouched d bid s k g →
      ∀ x y pr, (d'.blk bid).gdata g x y pr = (d.blk bid).gdata g x y pr)
    {systems : List NLSystem} {d₀ dMid dPre : Desc} {s k : Nat} {sys : NLSystem}
    (hpre1 : processSystems F 0 (systems.take s) d₀ = .ok dMid)
    (hpre2 : processPairs F s sys.species 0 (sys.pairs.take k) dMid = some dPre)
    {bid m g : Nat} {a1 a2 s' a' : Nat}
    (hrow : (d₀.blk bid).samples.get? m = some ⟨s, k, a1, a2⟩)
    (hgref : ∃ gsmp, (d₀.blk bid).gradSamples = some gsmp ∧
      gsmp.get? g = some ⟨m, s', a'⟩)
    (x y pr : Nat) :
    (dPre.blk bid).gdata g x y pr = (d₀.blk bid).gdata g x y pr := by
  have hshMid : SameShape d₀ dMid := processSystems_shape hshape _ _ hpre1
  have h1 : (dMid.blk bid).gdata g x y pr = (d₀.blk bid).gdata g x y pr := by
    refine processSystems_grad_frame hshape hgf _ _ hpre1 bid g
      (fun s'' k' hs1 hs2 => ?_) x y pr
    have hlen : (systems.take s).length ≤ s := by
      rw [List.length_take]
      omega
    exact not_gradTouched_of_ref hrow hgref (fun hc => by omega)
  have h2 : (dPre.blk bid).gdata g x y pr = (dMid.blk bid).gdata g x y pr := by
    have hrowM : (dMid.blk bid).samples.get? m = some ⟨s, k, a1, a2⟩ := by
      rw [(hshMid.2.2 bid).1]
      exact hrow
    have hgrefM : ∃ gsmp, (dMid.blk bid).gradSamples = some gsmp ∧
        gsmp.get? g = some ⟨m, s', a'⟩ := by
      obtain ⟨gsmp, hgs, hgg⟩ := hgref
      exact ⟨gsmp, by rw [(hshMid.2.2 bid).2]; exact hgs, hgg⟩
    refine processPairs_grad_frame s sys.species
      (fun k' p' da db h => hshape s k' sys.species p' da db h)
      (fun k' p' da db bid' g' h hg => hgf s k' sys.species p' da db bid' g' h hg)
      _ _ hpre2 bid g (fun k' hk1 hk2 => ?_) x y pr
    have hlen : (sys.pairs.take k).length ≤ k := by
      rw [List.length_take]
      omega
    exact not_gradTouched_of_ref hrowM hgrefM (fun hc => by omega)
  exact h2.trans h1

/-- Evaluating a `−I` / `+I` stamp pair away from the stamped cells. -/
theorem stamp_untouched (dataP : Nat → Nat → Nat → Nat → ℚ) (g1 g2 gq x y pr : Nat)
    (h : (gq ≠ g1 ∧ gq ≠ g2) ∨ x ≠ y) :
    writePosI (writeNegI dataP g1) g2 gq x y pr = dataP gq x y pr := by
  rcases h with ⟨h1, h2⟩ | hxy
  · rw [writePosI_ne h2, writeNegI_ne h1]
  · by_cases hq2 : gq = g2
    · subst hq2
      rw [writePosI_offdiag _ _ hxy]
      by_cases hq1 : gq = g1
      · subst hq1
        rw [writeNegI_offdiag _ _ hxy]
      · rw [writeNegI_ne hq1]
    · rw [writePosI_ne hq2]
      by_cases hq1 : gq = g1
      · subst hq1
        rw [writeNegI_offdiag _ _ hxy]
      · rw [writeNegI_ne hq1]

/-- The position-gradient facts for the sample row at index `m` (columns
`(s, k, a1, a2)`) of block `bid` after a compute run: the gradient row of the
second atom ends `+I`; for distinct atoms the gradient row of the first atom
ends `-I`; for a self pair both lookups give the same single row; all
off-diagonal cells of the two rows and all cells of every other gradient row
referencing this sample are zero. -/
def GradConclusions (d' : Desc) (bid : Nat) (gr : GradBlock)
    (m _s a1 a2 g1 g2 : Nat) : Prop :=
  (∀ x : Nat, x < 3 → (d'.blk bid).gdata g2 x x 0 = 1) ∧
  (a1 ≠ a2 → ∀ x : Nat, x < 3 → (d'.blk bid).gdata g1 x x 0 = -1) ∧
  (a1 = a2 → g1 = g2) ∧
  (∀ x y : Nat, x < 3 → y < 3 → x ≠ y →
    (d'.blk bid).gdata g1 x y 0 = 0 ∧ (d'.blk bid).gdata g2 x y 0 = 0) ∧
  (∀ (g s' a' : Nat), gr.samples.get? g = some ⟨m, s', a'⟩ → g ≠ g1 → g ≠ g2 →
    ∀ x y pr : Nat, (d'.blk bid).gdata g x y pr = 0)

/-- Master lemma: a split compute run whose step stamps `-I` at `g1` and `+I`
at `g2` on the gradient of block `bid` produces `GradConclusions`, provided
the initial gradient data is all zero. -/
theorem grad_conclusions_of_run
    {F : Nat → Nat → List Int → NLPair → Desc → Option Desc}
    (hshape : ∀ (s k : Nat) (species : List Int) (p : NLPair) (d d' : Desc),
      F s k species p d = some d' → SameShape d d')
    (hgf : ∀ (s k : Nat) (species : List Int) (p : NLPair) (d d' : Desc) (bid g : Nat),
      F s k species p d = some d' → ¬ GradTouched d bid s k g →
      ∀ x y pr, (d'.blk bid).gdata g x y pr = (d.blk bid).gdata g x y pr)
    {systems : List NLSystem} {d₀ d' : Desc} {s k : Nat} {sys : NLSystem}
    {dMid dPre dStep dPost : Desc}
    (hpre1 : processSystems F 0 (systems.take s) d₀ = .ok dMid)
    (hpre2 : processPairs F s sys.species 0 (sys.pairs.take k) dMid = some dPre)
    (hshPre : SameShape d₀ dPre)
    (hshStep : SameShape dPre dStep)
    (hpost1 : processPairs F s sys.species (k + 1) (sys.pairs.drop (k + 1)) dStep
      = some dPost)
    (hpost2 : processSystems F (s + 1) (systems.drop (s + 1)) dPost = .ok d')
    {bid m : Nat} {a1 a2 : Nat} {gr grP : GradBlock} {g1 g2 : Nat}
    (hrow0 : (d₀.blk bid).samples.get? m = some ⟨s, k, a1, a2⟩)
    (hgr : (d₀.blk bid).gradient = some gr)
    (hzero : ∀ g x y pr, gr.data g x y pr = 0)
    (hgrP : (dPre.blk bid).gradient = some grP)
    (hgrPs : grP.samples = gr.samples)
    (hg1 : position gr.samples ⟨m, s, a1⟩ = some g1)
    (hg2 : position gr.samples ⟨m, s, a2⟩ = some g2)
    (hstepGrad : ∀ g : Nat, (∃ s' a' : Nat, grP.samples.get? g = some ⟨m, s', a'⟩) →
      ∀ x y pr : Nat, (dStep.blk bid).gdata g x y pr
        = writePosI (writeNegI grP.data g1) g2 g x y pr) :
    GradConclusions d' bid gr m s a1 a2 g1 g2 := by
  have hgs0 : (d₀.blk bid).gradSamples = some gr.samples := by
    simp [Block.gradSamples, hgr]
  have hrowStep : (dStep.blk bid).samples.get? m = some ⟨s, k, a1, a2⟩ := by
    rw [(hshStep.2.2 bid).1, (hshPre.2.2 bid).1]
    exact hrow0
  have hgsStep : (dStep.blk bid).gradSamples = some gr.samples := by
    rw [(hshStep.2.2 bid).2, (hshPre.2.2 bid).2]
    exact hgs0
  have hgetg1 : gr.samples.get? g1 = some ⟨m, s, a1⟩ := position_get? _ _ _ hg1
  have hgetg2 : gr.samples.get? g2 = some ⟨m, s, a2⟩ := position_get? _ _ _ hg2
  -- the final data agrees with the step's data on every row referencing m
  have hafter : ∀ (g s' a' : Nat), gr.samples.get? g = some ⟨m, s', a'⟩ →
      ∀ x y pr, (d'.blk bid).gdata g x y pr = (dStep.blk bid).gdata g x y pr := by
    intro g s' a' hgg x y pr
    exact grad_unchanged_after_step hshape hgf hpost1 hpost2 hrowStep
      ⟨gr.samples, hgsStep, hgg⟩ x y pr
  -- the step's input data is zero on every cell of a row referencing m
  have hbefore : ∀ (g s' a' : Nat), gr.samples.get? g = some ⟨m, s', a'⟩ →
      ∀ x y pr, grP.data g x y pr = 0 := by
    intro g s' a' hgg x y pr
    have h1 : (dPre.blk bid).gdata g x y pr = (d₀.blk bid).gdata g x y pr :=
      grad_unchanged_before_step hshape hgf hpre1 hpre2 hrow0
        ⟨gr.samples, hgs0, hgg⟩ x y pr
    have h2 : (dPre.blk bid).gdata = grP.data := by
      unfold Block.gdata
      rw [hgrP]
    have h3 : (d₀.blk bid).gdata = gr.data := by
      unfold Block.gdata
      rw [hgr]
    rw [h2] at h1
    rw [h3] at h1
    rw [h1, hzero]
  have hstepG1 : ∀ x y pr, (dStep.blk bid).gdata g1 x y pr
      = writePosI (writeNegI grP.data g1) g2 g1 x y pr :=
    hstepGrad g1 ⟨s, a1, by rw [hgrPs]; exact hgetg1⟩
  have hstepG2 : ∀ x y pr, (dStep.blk bid).gdata g2 x y pr
      = writePosI (writeNegI grP.data g1) g2 g2 x y pr :=
    hstepGrad g2 ⟨s, a2, by rw [hgrPs]; exact hgetg2⟩
  refine ⟨?_, ?_, ?_, ?_, ?_⟩
  · -- second atom row: +I on the diagonal
    intro x hx
    rw [hafter g2 s a2 hgetg2, hstepG2, writePosI_diag _ _ hx]
  · -- distinct atoms: first atom row ends -I on the diagonal
    intro hne x hx
    have hg12 : g1 ≠ g2 := by
      refine position_ne_of_row_ne gr.samples hg1 hg2 ?_
      intro hEq
      injection hEq with _ _ h3
      exact hne h3
    rw [hafter g1 s a1 hgetg1, hstepG1, writePosI_ne hg12, writeNegI_diag _ _ hx]
  · -- self pair: the two lookups give the same gradient row
    intro hEq
    rw [hEq] at hg1
    rw [hg1] at hg2
    exact Option.some.inj hg2
  · -- off-diagonal cells of both rows are zero
    intro x y hx hy hxy
    constructor
    · rw [hafter g1 s a1 hgetg1, hstepG1,
        stamp_untouched _ _ _ _ _ _ _ (Or.inr hxy), hbefore g1 s a1 hgetg1]
    · rw [hafter g2 s a2 hgetg2, hstepG2,
        stamp_untouched _ _ _ _ _ _ _ (Or.inr hxy), hbefore g2 s a2 hgetg2]
  · -- every other gradient row referencing this sample stays zero
    intro g s' a' hgg hne1 hne2 x y pr
    rw [hafter g s' a' hgg,
      hstepGrad g ⟨s', a', by rw [hgrPs]; exact hgg⟩,
      stamp_untouched _ _ _ _ _ _ _ (Or.inl ⟨hne1, hne2⟩), hbefore g s' a' hgg]

/-- C4: in the full neighbor list, a self pair (`first = second`) is emitted
as exactly one sample row `(s, k, first, second)` across all blocks (it is
not duplicated in the reversed orientation) and compute writes that row's
value exactly once (the final value is `+vector`, not the `-vector` a second
write would leave); a pair with distinct atoms has both orientations emitted
as separate samples. -/
theorem full_selfpair_once
    {systems : List NLSystem} {ks : List (Int × Int)} {bss : List (List Row4)}
    {s k : Nat} {sys : NLSystem} {p : NLPair}
    (hks : fullKeys systems = .ok ks)
    (hbs : fullSamples ks systems = .ok bss)
    (hsys : systems.get? s = some sys)
    (hp : sys.pairs.get? k = some p) :
    (p.first = p.second →
      (∃ b : Nat,
        position ks (sys.speciesAt p.first, sys.speciesAt p.first) = some b ∧
        (∃ rows, bss.get? b = some rows ∧
          (⟨s, k, p.first, p.second⟩ : Row4) ∈ rows ∧
          rows.countP (fun r => r.isSK s k) = 1) ∧
        (∀ (b' : Nat) (rows' : List Row4), b' ≠ b → bss.get? b' = some rows' →
          rows'.countP (fun r => r.isSK s k) = 0)) ∧
      (∀ (d₀ d' : Desc) (bid m : Nat),
        fullCompute systems d₀ = .ok d' →
        position d₀.keys (sys.speciesAt p.first, sys.speciesAt p.second) = some bid →
        position (d₀.blk bid).samples ⟨s, k, p.first, p.second⟩ = some m →
        (d'.blk bid).values m 0 0 = p.vector.x ∧
        (d'.blk bid).values m 1 0 = p.vector.y ∧
        (d'.blk bid).values m 2 0 = p.vector.z)) ∧
    (p.first ≠ p.second →
      (⟨s, k, p.first, p.second⟩ : Row4) ≠ ⟨s, k, p.second, p.first⟩ ∧
      (∃ b1 : Nat,
        position ks (sys.speciesAt p.first, sys.speciesAt p.second) = some b1 ∧
        ∃ rows1, bss.get? b1 = some rows1 ∧
          (⟨s, k, p.first, p.second⟩ : Row4) ∈ rows1) ∧
      (∃ b2 : Nat,
        position ks (sys.speciesAt p.second, sys.speciesAt p.first) = some b2 ∧
        ∃ rows2, bss.get? b2 = some rows2 ∧
          (⟨s, k, p.second, p.first⟩ : Row4) ∈ rows2)) := by
  have hpm : p ∈ sys.pairs := List.get?_mem hp
  simp only [NLSystem.speciesAt]
  obtain ⟨hmem1, hmem2⟩ := orientations_mem_fullKeysAux systems hks hsys hpm
  constructor
  · -- self pair
    intro hself
    constructor
    · have hkey : (sys.species.getD p.first 0, sys.species.getD p.second 0)
          = (sys.species.getD p.first 0, sys.species.getD p.first 0) := by
        rw [← hself]
      rw [hkey] at hmem1
      obtain ⟨b, hb⟩ := position_of_mem ks _ hmem1
      refine ⟨b, hb, ?_, ?_⟩
      · have hkb : ks.get? b
            = some (sys.species.getD p.first 0, sys.species.getD p.first 0) :=
          position_get? ks _ b hb
        obtain ⟨rows, hrows, hblock⟩ := fullSamples_get? ks systems hbs b _ hkb
        refine ⟨rows, hrows, ?_, ?_⟩
        · have hblock' : fullBlockSamples
              (sys.species.getD p.first 0, sys.species.getD p.second 0) 0 systems
                = .ok rows := by
            rw [← hself]
            exact hblock
          have := mem_fullBlockSamples_fwd systems 0 s k hblock' (by simpa using hsys) hp
          simpa using this
        · have := countP_fullBlockSamples_self _ systems 0 s k hblock
            (by simpa using hsys) hp hself
          rw [if_pos rfl] at this
          simpa using this
      · intro b' rows' hne hb'
        have hlen := fullSamples_length ks systems hbs
        have hlt : b' < ks.length := by
          have : b' < bss.length := (List.get?_eq_some.mp hb').1
          omega
        obtain ⟨q', hq'⟩ : ∃ q', ks.get? b' = some q' := by
          cases hq : ks.get? b' with
          | none =>
            rw [List.get?_eq_none] at hq
            omega
          | some q' => exact ⟨q', rfl⟩
        obtain ⟨rows'', hrows'', hblock''⟩ := fullSamples_get? ks systems hbs b' q' hq'
        rw [hb'] at hrows''
        injection hrows'' with hrows''
        subst hrows''
        have hcount := countP_fullBlockSamples_self q' systems 0 s k hblock''
          (by simpa using hsys) hp hself
        have hqq : q' ≠ (sys.species.getD p.first 0, sys.species.getD p.first 0) := by
          intro hEq
          apply hne
          have hkb : ks.get? b
              = some (sys.species.getD p.first 0, sys.species.getD p.first 0) :=
            position_get? ks _ b hb
          have hnd : ks.Nodup :=
            nodup_of_pairwise_pairLt (sorted_fullKeysAux systems List.Pairwise.nil hks)
          have hsame : ks.get? b' = ks.get? b := by rw [hkb, hq', hEq]
          have := List.getElem?_inj hlt hnd
            (by simpa [← List.get?_eq_getElem?] using hsame)
          omega
        rw [if_neg hqq] at hcount
        simpa using hcount
    · intro d₀ d' bid m hok hbid hm
      unfold fullCompute at hok
      obtain ⟨dMid, dPre, dStep, dPost, hpre1, hpre2, hshPre, hstep, hpost1, hpost2⟩ :=
        compute_split_at_pair fullStep_shape_all hok hsys hp
      have hbid' : position dPre.keys
          (sys.species.getD p.first 0, sys.species.getD p.second 0) = some bid := by
        rw [hshPre.1]
        exact hbid
      have hm' : position (dPre.blk bid).samples ⟨s, k, p.first, p.second⟩
          = some m := by
        rw [(hshPre.2.2 bid).1]
        exact hm
      have hv := fullProcessPair_values_fwd hstep hbid' hm'
      have hshStep : SameShape dPre dStep := fullProcessPair_shape hstep
      have hrowStep : (dStep.blk bid).samples.get? m
          = some ⟨s, k, p.first, p.second⟩ := by
        rw [(hshStep.2.2 bid).1]
        exact position_get? _ _ _ hm'
      have hu := fun c pr => values_unchanged_after_step fullStep_shape_all
        fullStep_values_frame_all hpost1 hpost2 hrowStep c pr
      rw [hu 0 0, hu 1 0, hu 2 0]
      exact hv
  · -- distinct atoms: both orientations present
    intro hne
    refine ⟨row4_ne_of_atoms_ne hne, ?_, ?_⟩
    · obtain ⟨b1, hb1⟩ := position_of_mem ks _ hmem1
      have hkb1 : ks.get? b1
          = some (sys.species.getD p.first 0, sys.species.getD p.second 0) :=
        position_get? ks _ b1 hb1
      obtain ⟨rows1, hrows1, hblock1⟩ := fullSamples_get? ks systems hbs b1 _ hkb1
      refine ⟨b1, hb1, rows1, hrows1, ?_⟩
      have := mem_fullBlockSamples_fwd systems 0 s k hblock1 (by simpa using hsys) hp
      simpa using this
    · obtain ⟨b2, hb2⟩ := position_of_mem ks _ hmem2
      have hkb2 : ks.get? b2
          = some (sys.species.getD p.second 0, sys.species.getD p.first 0) :=
        position_get? ks _ b2 hb2
      obtain ⟨rows2, hrows2, hblock2⟩ := fullSamples_get? ks systems hbs b2 _ hkb2
      refine ⟨b2, hb2, rows2, hrows2, ?_⟩
      have := mem_fullBlockSamples_rev systems 0 s k hblock2 (by simpa using hsys) hp hne
      simpa using this

/-- A periodic system whose single atom sees its own image: the neighbor
list reports the self pair `(0, 0)` with a non-zero vector. -/
def selfPairSystem : NLSystem :=
  { species := [1], pairs := [⟨0, 0, ⟨1, 2, 3⟩⟩], neighborsOk := true }

/-- The canonical full-list descriptor for `selfPairSystem`, without
gradients. -/
def selfPairFullDesc : Desc :=
  { keys := [(1, 1)]
  , blocks := [⟨[⟨0, 0, 0, 0⟩], fun _ _ _ => 0, none⟩] }

theorem full_selfpair_once_witness :
    ∃ d' : Desc, fullCompute [selfPairSystem] selfPairFullDesc = .ok d' ∧
      (d'.blk 0).values 0 0 0 = 1 ∧ (d'.blk 0).values 0 1 0 = 2 ∧
      (d'.blk 0).values 0 2 0 = 3 := by
  obtain ⟨d', hok⟩ : ∃ d', fullCompute [selfPairSystem] selfPairFullDesc = .ok d' :=
    ⟨_, rfl⟩
  have h := (@full_selfpair_once [selfPairSystem] [(1, 1)] [[⟨0, 0, 0, 0⟩]]
    0 0 selfPairSystem ⟨0, 0, ⟨1, 2, 3⟩⟩
    (by rfl) (by rfl) (by rfl) (by rfl)).1 rfl
  exact ⟨d', hok, h.2 selfPairFullDesc d' 0 0 hok (by rfl) (by rfl)⟩

/-! ## `NeighborList::positions_gradient_samples` -/

/-- The builder loop of `positions_gradient_samples` for one block: for the
`sample_i`-th sample row add `[sample_i, structure, first]` then
`[sample_i, structure, second]`. -/
def gradRowsAux : Nat → List Row4 → List Row3
  | _, [] => []
  | i, r :: rest => ⟨i, r.sys, r.a1⟩ :: ⟨i, r.sys, r.a2⟩ :: gradRowsAux (i + 1) rest

/-- `NeighborList::positions_gradient_samples`: one gradient-sample `Labels`
per block. -/
def positionsGradientSamples (samples : List (List Row4)) : List (List Row3) :=
  samples.map (gradRowsAux 0)

theorem gradRowsAux_length : ∀ (rows : List Row4) (i0 : Nat),
    (gradRowsAux i0 rows).length = 2 * rows.length := by
  intro rows
  induction rows with
  | nil => intro i0; rfl
  | cons r rest ih =>
    intro i0
    simp only [gradRowsAux, List.length_cons, ih (i0 + 1)]
    omega

theorem gradRowsAux_get? : ∀ (rows : List Row4) (i0 i : Nat) {r : Row4},
    rows.get? i = some r →
    (gradRowsAux i0 rows).get? (2 * i) = some ⟨i0 + i, r.sys, r.a1⟩ ∧
    (gradRowsAux i0 rows).get? (2 * i + 1) = some ⟨i0 + i, r.sys, r.a2⟩ := by
  intro rows
  induction rows with
  | nil => intro i0 i r h; simp at h
  | cons r0 rest ih =>
    intro i0 i r h
    cases i with
    | zero =>
      injection h with h
      subst h
      exact ⟨rfl, rfl⟩
    | succ i' =>
      obtain ⟨h1, h2⟩ := ih (i0 + 1) i' (by simpa using h)
      have e1 : 2 * (i' + 1) = 2 * i' + 1 + 1 := by omega
      have e2 : 2 * (i' + 1) + 1 = (2 * i' + 1) + 1 + 1 := by omega
      have e3 : i0 + 1 + i' = i0 + (i' + 1) := by omega
      constructor
      · rw [e1]
        simp only [gradRowsAux, List.get?_cons_succ]
        rw [← e3]
        exact h1
      · rw [e2]
        simp only [gradRowsAux, List.get?_cons_succ]
        rw [← e3]
        exact h2

/-- C9: for every block, `positions_gradient_samples` produces gradient
sample rows in sample order — the `i`-th sample row `(s, pair_id, a, b)`
contributes exactly the row `[i, s, a]` immediately followed by `[i, s, b]`
(positions `2 i` and `2 i + 1`, total length twice the sample count); for a
self-pair sample (`a = b`) the very same row is added to the builder
twice. -/
theorem positions_gradient_samples_rows
    {samples : List (List Row4)} {b : Nat} {rows : List Row4}
    (hb : samples.get? b = some rows) :
    ∃ grows : List Row3, (positionsGradientSamples samples).get? b = some grows ∧
      grows.length = 2 * rows.length ∧
      ∀ (i : Nat) (r : Row4), rows.get? i = some r →
        grows.get? (2 * i) = some ⟨i, r.sys, r.a1⟩ ∧
        grows.get? (2 * i + 1) = some ⟨i, r.sys, r.a2⟩ ∧
        (r.a1 = r.a2 → (⟨i, r.sys, r.a1⟩ : Row3) = ⟨i, r.sys, r.a2⟩) := by
  refine ⟨gradRowsAux 0 rows, ?_, gradRowsAux_length rows 0, ?_⟩
  · unfold positionsGradientSamples
    rw [List.get?_eq_getElem?, List.getElem?_map, ← List.get?_eq_getElem?, hb]
    rfl
  · intro i r hr
    obtain ⟨h1, h2⟩ := gradRowsAux_get? rows 0 i hr
    rw [Nat.zero_add] at h1 h2
    exact ⟨h1, h2, fun hEq => by rw [hEq]⟩

theorem positions_gradient_samples_rows_witness :
    ∃ grows : List Row3,
      (positionsGradientSamples [[⟨0, 0, 0, 1⟩, ⟨0, 5, 2, 2⟩]]).get? 0 = some grows ∧
      grows.length = 2 * 2 ∧
      ∀ (i : Nat) (r : Row4), ([⟨0, 0, 0, 1⟩, ⟨0, 5, 2, 2⟩] : List Row4).get? i = some r →
        grows.get? (2 * i) = some ⟨i, r.sys, r.a1⟩ ∧
        grows.get? (2 * i + 1) = some ⟨i, r.sys, r.a2⟩ ∧
        (r.a1 = r.a2 → (⟨i, r.sys, r.a1⟩ : Row3) = ⟨i, r.sys, r.a2⟩) :=
  @positions_gradient_samples_rows [[⟨0, 0, 0, 1⟩, ⟨0, 5, 2, 2⟩]] 0
    [⟨0, 0, 0, 1⟩, ⟨0, 5, 2, 2⟩] (by rfl)

/-- The canonical descriptor for `selfPairSystem` (half list): one block,
one sample row, a positions gradient whose sample `Labels` hold the single
(duplicate-free) row `[0, 0, 0]`, all data zeroed. -/
def selfPairDesc : Desc :=
  { keys := [(1, 1)]
  , blocks :=
      [ ⟨[⟨0, 0, 0, 0⟩], fun _ _ _ => 0,
          some ⟨[⟨0, 0, 0⟩], fun _ _ _ _ => 0⟩⟩ ] }

/-- The descriptor `HalfNeighborList::compute` produces on `selfPairSystem`. -/
def selfPairResult : Desc :=
  match halfCompute [selfPairSystem] selfPairDesc with
  | .ok d => d
  | .err d _ => d
  | .panicked => ⟨[], []⟩

/-- C3, counterexample: for the self-pair sample of `selfPairSystem`, both
gradient lookups resolve to the same single row, the `-1.0` diagonal writes
are overwritten by the `+1.0` ones, and the gradient ends with ONE non-zero
row holding `+I` — not two rows with `-I` at the first atom as the claim
states. -/
theorem gradient_rows_pm_counterexample :
    halfCompute [selfPairSystem] selfPairDesc = .ok selfPairResult ∧
    (selfPairResult.blk 0).gradSamples = some [⟨0, 0, 0⟩] ∧
    (selfPairResult.blk 0).gdata 0 0 0 0 = 1 ∧
    (selfPairResult.blk 0).gdata 0 1 1 0 = 1 ∧
    (selfPairResult.blk 0).gdata 0 2 2 0 = 1 ∧
    ¬ (selfPairResult.blk 0).gdata 0 0 0 0 = -1 := by
  refine ⟨rfl, rfl, rfl, rfl, rfl, ?_⟩
  intro h
  have : (1 : ℚ) = -1 := by
    calc (1 : ℚ) = (selfPairResult.blk 0).gdata 0 0 0 0 := by rfl
    _ = -1 := h
  norm_num at this

/-- C3, amended: for every sample row filled by compute (half or full list)
with a positions gradient present, when the two atoms of the row are
distinct the gradient holds exactly two non-zero rows — `-I` at the row
keyed by the first atom and `+I` at the row keyed by the second atom — and
every other gradient row referencing the sample stays zero; for a self-pair
row the two lookups resolve to the same gradient row, which ends `+I` (the
`-1` writes are overwritten). -/
theorem gradient_rows_pm :
    (∀ (systems : List NLSystem) (d₀ d' : Desc) (s k : Nat) (sys : NLSystem)
        (p : NLPair) (bid m : Nat) (gr : GradBlock) (g1 g2 : Nat),
      halfCompute systems d₀ = .ok d' →
      systems.get? s = some sys → sys.pairs.get? k = some p →
      position d₀.keys
          (sortPair (sys.speciesAt p.first) (sys.speciesAt p.second)).1 = some bid →
      position (d₀.blk bid).samples
          ⟨s, k,
            if (sortPair (sys.speciesAt p.first) (sys.speciesAt p.second)).2
              then p.second else p.first,
            if (sortPair (sys.speciesAt p.first) (sys.speciesAt p.second)).2
              then p.first else p.second⟩ = some m →
      (d₀.blk bid).gradient = some gr →
      (∀ g x y pr, gr.data g x y pr = 0) →
      position gr.samples
          ⟨m, s, if (sortPair (sys.speciesAt p.first) (sys.speciesAt p.second)).2
            then p.second else p.first⟩ = some g1 →
      position gr.samples
          ⟨m, s, if (sortPair (sys.speciesAt p.first) (sys.speciesAt p.second)).2
            then p.first else p.second⟩ = some g2 →
      GradConclusions d' bid gr m s
        (if (sortPair (sys.speciesAt p.first) (sys.speciesAt p.second)).2
          then p.second else p.first)
        (if (sortPair (sys.speciesAt p.first) (sys.speciesAt p.second)).2
          then p.first else p.second) g1 g2) ∧
    (∀ (systems : List NLSystem) (d₀ d' : Desc) (s k : Nat) (sys : NLSystem)
        (p : NLPair) (bid m : Nat) (gr : GradBlock) (g1 g2 : Nat),
      fullCompute systems d₀ = .ok d' →
      systems.get? s = some sys → sys.pairs.get? k = some p →
      position d₀.keys (sys.speciesAt p.first, sys.speciesAt p.second) = some bid →
      position (d₀.blk bid).samples ⟨s, k, p.first, p.second⟩ = some m →
      (d₀.blk bid).gradient = some gr →
      (∀ g x y pr, gr.data g x y pr = 0) →
      position gr.samples ⟨m, s, p.first⟩ = some g1 →
      position gr.samples ⟨m, s, p.second⟩ = some g2 →
      GradConclusions d' bid gr m s p.first p.second g1 g2) ∧
    (∀ (systems : List NLSystem) (d₀ d' : Desc) (s k : Nat) (sys : NLSystem)
        (p : NLPair) (bid m : Nat) (gr : GradBlock) (g1 g2 : Nat),
      fullCompute systems d₀ = .ok d' →
      systems.get? s = some sys → sys.pairs.get? k = some p →
      p.first ≠ p.second →
      position d₀.keys (sys.speciesAt p.second, sys.speciesAt p.first) = some bid →
      position (d₀.blk bid).samples ⟨s, k, p.second, p.first⟩ = some m →
      (d₀.blk bid).gradient = some gr →
      (∀ g x y pr, gr.data g x y pr = 0) →
      position gr.samples ⟨m, s, p.second⟩ = some g1 →
      position gr.samples ⟨m, s, p.first⟩ = some g2 →
      GradConclusions d' bid gr m s p.second p.first g1 g2) := by
  refine ⟨?_, ?_, ?_⟩
  · -- half neighbor list
    intro systems d₀ d' s k sys p bid m gr g1 g2 hok hsys hp hbid hm hgr hzero hg1 hg2
    unfold halfCompute at hok
    obtain ⟨dMid, dPre, dStep, dPost, hpre1, hpre2, hshPre, hstep, hpost1, hpost2⟩ :=
      compute_split_at_pair halfStep_shape_all hok hsys hp
    simp only [NLSystem.speciesAt] at hbid hm hg1 hg2 ⊢
    obtain ⟨grP, hgrP, hgrPs⟩ := gradient_of_gradSamples_eq (hshPre.2.2 bid).2 hgr
    have hbid' : position dPre.keys
        (sortPair (sys.species.getD p.first 0) (sys.species.getD p.second 0)).1
          = some bid := by
      rw [hshPre.1]
      exact hbid
    have hm' : position (dPre.blk bid).samples
        ⟨s, k,
          if (sortPair (sys.species.getD p.first 0) (sys.species.getD p.second 0)).2
            then p.second else p.first,
          if (sortPair (sys.species.getD p.first 0) (sys.species.getD p.second 0)).2
            then p.first else p.second⟩ = some m := by
      rw [(hshPre.2.2 bid).1]
      exact hm
    have hg1' : position grP.samples
        ⟨m, s, if (sortPair (sys.species.getD p.first 0) (sys.species.getD p.second 0)).2
          then p.second else p.first⟩ = some g1 := by
      rw [hgrPs]
      exact hg1
    have hg2' : position grP.samples
        ⟨m, s, if (sortPair (sys.species.getD p.first 0) (sys.species.getD p.second 0)).2
          then p.first else p.second⟩ = some g2 := by
      rw [hgrPs]
      exact hg2
    have hgat := halfProcessPair_grad_at hstep hbid' hm' hgrP hg1' hg2'
    exact grad_conclusions_of_run halfStep_shape_all halfStep_grad_frame_all
      hpre1 hpre2 hshPre (halfProcessPair_shape hstep) hpost1 hpost2
      (position_get? _ _ _ hm) hgr hzero hgrP hgrPs hg1 hg2
      (fun g _ x y pr => by rw [hgat])
  · -- full neighbor list, forward orientation
    intro systems d₀ d' s k sys p bid m gr g1 g2 hok hsys hp hbid hm hgr hzero hg1 hg2
    unfold fullCompute at hok
    obtain ⟨dMid, dPre, dStep, dPost, hpre1, hpre2, hshPre, hstep, hpost1, hpost2⟩ :=
      compute_split_at_pair fullStep_shape_all hok hsys hp
    simp only [NLSystem.speciesAt] at hbid hm hg1 hg2 ⊢
    obtain ⟨grP, hgrP, hgrPs⟩ := gradient_of_gradSamples_eq (hshPre.2.2 bid).2 hgr
    have hbid' : position dPre.keys
        (sys.species.getD p.first 0, sys.species.getD p.second 0) = some bid := by
      rw [hshPre.1]
      exact hbid
    have hm' : position (dPre.blk bid).samples ⟨s, k, p.first, p.second⟩ = some m := by
      rw [(hshPre.2.2 bid).1]
      exact hm
    have hg1' : position grP.samples ⟨m, s, p.first⟩ = some g1 := by
      rw [hgrPs]
      exact hg1
    have hg2' : position grP.samples ⟨m, s, p.second⟩ = some g2 := by
      rw [hgrPs]
      exact hg2
    have hgat := fullProcessPair_grad_fwd hstep hbid' hm' hgrP hg1' hg2'
    exact grad_conclusions_of_run fullStep_shape_all fullStep_grad_frame_all
      hpre1 hpre2 hshPre (fullProcessPair_shape hstep) hpost1 hpost2
      (position_get? _ _ _ hm) hgr hzero hgrP hgrPs hg1 hg2 hgat
  · -- full neighbor list, reverse orientation
    intro systems d₀ d' s k sys p bid m gr g1 g2 hok hsys hp hne hbid hm hgr hzero hg1 hg2
    unfold fullCompute at hok
    obtain ⟨dMid, dPre, dStep, dPost, hpre1, hpre2, hshPre, hstep, hpost1, hpost2⟩ :=
      compute_split_at_pair fullStep_shape_all hok hsys hp
    simp only [NLSystem.speciesAt] at hbid hm hg1 hg2 ⊢
    obtain ⟨grP, hgrP, hgrPs⟩ := gradient_of_gradSamples_eq (hshPre.2.2 bid).2 hgr
    have hbid' : position dPre.keys
        (sys.species.getD p.second 0, sys.species.getD p.first 0) = some bid := by
      rw [hshPre.1]
      exact hbid
    have hm' : position (dPre.blk bid).samples ⟨s, k, p.second, p.first⟩ = some m := by
      rw [(hshPre.2.2 bid).1]
      exact hm
    have hg1' : position grP.samples ⟨m, s, p.second⟩ = some g1 := by
      rw [hgrPs]
      exact hg1
    have hg2' : position grP.samples ⟨m, s, p.first⟩ = some g2 := by
      rw [hgrPs]
      exact hg2
    have hgat := fullProcessPair_grad_rev hstep hne hbid' hm' hgrP hg1' hg2'
    exact grad_conclusions_of_run fullStep_shape_all fullStep_grad_frame_all
      hpre1 hpre2 hshPre (fullProcessPair_shape hstep) hpost1 hpost2
      (position_get? _ _ _ hm) hgr hzero hgrP hgrPs hg1 hg2 hgat

/-- A diatomic same-species system for the gradient witness. -/
def gradWitnessSystem : NLSystem :=
  { species := [1, 1], pairs := [⟨0, 1, ⟨1, 0, 0⟩⟩], neighborsOk := true }

/-- Canonical half-list descriptor for `gradWitnessSystem`, gradients
included and zeroed. -/
def gradWitnessDesc : Desc :=
  { keys := [(1, 1)]
  , blocks :=
      [ ⟨[⟨0, 0, 0, 1⟩], fun _ _ _ => 0,
          some ⟨[⟨0, 0, 0⟩, ⟨0, 0, 1⟩], fun _ _ _ _ => 0⟩⟩ ] }

theorem gradient_rows_pm_witness :
    ∃ d' : Desc, halfCompute [gradWitnessSystem] gradWitnessDesc = .ok d' ∧
      GradConclusions d' 0 ⟨[⟨0, 0, 0⟩, ⟨0, 0, 1⟩], fun _ _ _ _ => 0⟩ 0 0 0 1 0 1 := by
  obtain ⟨d', hok⟩ : ∃ d', halfCompute [gradWitnessSystem] gradWitnessDesc = .ok d' :=
    ⟨_, rfl⟩
  exact ⟨d', hok,
    gradient_rows_pm.1 [gradWitnessSystem] gradWitnessDesc d' 0 0 gradWitnessSystem
      ⟨0, 1, ⟨1, 0, 0⟩⟩ 0 0 ⟨[⟨0, 0, 0⟩, ⟨0, 0, 1⟩], fun _ _ _ _ => 0⟩ 0 1
      hok (by rfl) (by rfl) (by rfl) (by rfl) (by rfl) (fun _ _ _ _ => rfl)
      (by rfl) (by rfl)⟩

theorem full_antisymmetry_witness :
    ∃ d' : Desc, fullCompute [witnessSystem] witnessFullDesc = .ok d' ∧
      ∀ c : Nat, c < 3 → (d'.blk 1).values 0 c 0 = - (d'.blk 0).values 0 c 0 := by
  obtain ⟨d', hok⟩ : ∃ d', fullCompute [witnessSystem] witnessFullDesc = .ok d' := ⟨_, rfl⟩
  exact ⟨d', hok,
    @full_antisymmetry [witnessSystem] witnessFullDesc d' 0 0 witnessSystem
      ⟨0, 1, ⟨0, 3/4, -1/2⟩⟩ hok (by rfl) (by rfl) (by decide) 0 1 0 0
      (by rfl) (by rfl) (by rfl) (by rfl)⟩

/-! ## The calculator driver and error propagation -/

theorem halfKeysAux_error :
    ∀ (systems : List NLSystem) (acc : List (Int × Int)),
      (∃ sys ∈ systems, sys.neighborsOk = false) →
      halfKeysAux systems acc = .error .neighborList := by
  intro systems
  induction systems with
  | nil =>
    intro acc h
    obtain ⟨sys, hmem, _⟩ := h
    cases hmem
  | cons sys0 rest ih =>
    intro acc h
    rw [halfKeysAux]
    cases hok : sys0.neighborsOk with
    | false =>
      have : sys0.computeNeighbors = .error .neighborList := by
        unfold NLSystem.computeNeighbors
        rw [hok]
        rfl
      rw [this]
    | true =>
      have : sys0.computeNeighbors = .ok () := by
        unfold NLSystem.computeNeighbors
        rw [hok]
        rfl
      rw [this]
      obtain ⟨sys, hmem, hbad⟩ := h
      rcases List.mem_cons.mp hmem with rfl | hmem
      · rw [hok] at hbad
        cases hbad
      · exact ih _ ⟨sys, hmem, hbad⟩

theorem fullKeysAux_error :
    ∀ (systems : List NLSystem) (acc : List (Int × Int)),
      (∃ sys ∈ systems, sys.neighborsOk = false) →
      fullKeysAux systems acc = .error .neighborList := by
  intro systems
  induction systems with
  | nil =>
    intro acc h
    obtain ⟨sys, hmem, _⟩ := h
    cases hmem
  | cons sys0 rest ih =>
    intro acc h
    rw [fullKeysAux]
    cases hok : sys0.neighborsOk with
    | false =>
      have : sys0.computeNeighbors = .error .neighborList := by
        unfold NLSystem.computeNeighbors
        rw [hok]
        rfl
      rw [this]
    | true =>
      have : sys0.computeNeighbors = .ok () := by
        unfold NLSystem.computeNeighbors
        rw [hok]
        rfl
      rw [this]
      obtain ⟨sys, hmem, hbad⟩ := h
      rcases List.mem_cons.mp hmem with rfl | hmem
      · rw [hok] at hbad
        cases hbad
      · exact ih _ ⟨sys, hmem, hbad⟩

/-- Outcome of a driver call: either the finished `TensorMap`, a recoverable
error (with every allocated intermediate discarded), or an uncaught panic. -/
inductive DriverResult where
  | ok (d : Desc)
  | error (e : Err)
  | panicked

/-- Modelled from the spec: the calculator driver (`Calculator::compute`,
whose source is not part of this repository snapshot — only the calculator
implementations it invokes are) follows the state machine
`Idle → KeysBuilt → SamplesBuilt → Allocated → Filled`: it builds the keys,
then the samples, allocates a zeroed `TensorMap` (adding a zeroed
`"positions"` gradient per block when gradients are requested), and runs the
selected compute over it; on failure at any step the allocated map is
discarded ("allocate-then-fill; on error, discard") and the error is
surfaced. -/
def calculatorCompute (fullList gradients : Bool) (systems : List NLSystem) :
    DriverResult :=
  match (if fullList then fullKeys systems else halfKeys systems) with
  | .error e => .error e
  | .ok ks =>
    match (if fullList then fullSamples ks systems else halfSamples ks systems) with
    | .error e => .error e
    | .ok bss =>
      let blocks : List Block := bss.map (fun rows =>
        { samples := rows
        , values := fun _ _ _ => 0
        , gradient :=
            if gradients then
              some { samples := gradRowsAux 0 rows, data := fun _ _ _ _ => 0 }
            else none })
      match (if fullList then fullCompute systems ⟨ks, blocks⟩
             else halfCompute systems ⟨ks, blocks⟩) with
      | .ok d => .ok d
      | .err _ e => .error e
      | .panicked => .panicked

/-- C7: if any step of compute fails — here, `compute_neighbors` returning
an error on any system — the caller receives the error and no `TensorMap`:
the driver discards everything allocated, so no value or gradient written
before the error remains observable. -/
theorem compute_failure_leaves_output_unbuilt
    (fullList gradients : Bool) {systems : List NLSystem} {sys : NLSystem}
    (hmem : sys ∈ systems) (hbad : sys.neighborsOk = false) :
    calculatorCompute fullList gradients systems = .error .neighborList ∧
    ∀ d : Desc, calculatorCompute fullList gradients systems ≠ .ok d := by
  have hkeys : (if fullList then fullKeys systems else halfKeys systems)
      = .error .neighborList := by
    cases fullList with
    | false =>
      simp only [if_neg Bool.false_ne_true]
      exact halfKeysAux_error systems [] ⟨sys, hmem, hbad⟩
    | true =>
      simp only [if_pos rfl]
      exact fullKeysAux_error systems [] ⟨sys, hmem, hbad⟩
  have hres : calculatorCompute fullList gradients systems = .error .neighborList := by
    unfold calculatorCompute
    rw [hkeys]
  exact ⟨hres, fun d hEq => by rw [hres] at hEq; cases hEq⟩

/-- A system whose `compute_neighbors` fails. -/
def failingSystem : NLSystem :=
  { species := [1], pairs := [], neighborsOk := false }

theorem compute_failure_leaves_output_unbuilt_witness :
    (calculatorCompute true true [witnessSystem, failingSystem]
        = .error .neighborList ∧
      ∀ d : Desc, calculatorCompute true true [witnessSystem, failingSystem]
        ≠ .ok d) ∧
    (calculatorCompute false true [witnessSystem, failingSystem]
        = .error .neighborList ∧
      ∀ d : Desc, calculatorCompute false true [witnessSystem, failingSystem]
        ≠ .ok d) :=
  ⟨compute_failure_leaves_output_unbuilt true true
      (List.mem_cons.mpr (Or.inr (List.mem_singleton.mpr rfl))) rfl,
    compute_failure_leaves_output_unbuilt false true
      (List.mem_cons.mpr (Or.inr (List.mem_singleton.mpr rfl))) rfl⟩

/-! ## `AtomSpeciesSamples::gradients_for`

From `src/rascaline/src/descriptor/indexes/species.rs`, an older revision of
the library: species are `usize` there and the indexes are plain tuples. -/

/-- A pair of the older `System` trait (only the atom indices are read by
`gradients_for`). -/
structure IPair where
  first : Nat
  second : Nat
deriving DecidableEq

/-- A system as consumed by the indexes builders. -/
structure ISystem where
  species : List Nat
  pairs : List IPair
deriving DecidableEq

instance : Inhabited ISystem := ⟨⟨[], []⟩⟩

/-- `system.pairs_containing(center)`: per the `System` contract, the pairs
`p` with `center ∈ {p.first, p.second}`, each exactly once. -/
def ISystem.pairsContaining (sys : ISystem) (center : Nat) : List IPair :=
  sys.pairs.filter (fun p => p.first == center || p.second == center)

/-- A requested sample row `(structure, center, species_center,
species_neighbor)`. -/
structure SampleRow where
  sys : Nat
  center : Nat
  specCenter : Nat
  specNeighbor : Nat
deriving DecidableEq

/-- A 5-tuple inserted in the `IndexSet` of `gradients_for`:
`(i_system, center, species_center, species_neighbor, neighbor)`. -/
structure GradTuple where
  sys : Nat
  center : Nat
  specCenter : Nat
  specNeighbor : Nat
  neighbor : Nat
deriving DecidableEq

/-- `IndexSet::insert`: append if not already present (insertion order). -/
def insertIdx {α : Type} [DecidableEq α] (l : List α) (x : α) : List α :=
  if x ∈ l then l else l ++ [x]

theorem mem_insertIdx {α : Type} [DecidableEq α] {l : List α} {x a : α} :
    a ∈ insertIdx l x ↔ a ∈ l ∨ a = x := by
  unfold insertIdx
  by_cases h : x ∈ l
  · rw [if_pos h]
    constructor
    · exact Or.inl
    · rintro (ha | rfl)
      · exact ha
      · exact h
  · rw [if_neg h]
    simp

/-- The pair loop of `AtomSpeciesSamples::gradients_for` for one requested
sample row: insert the far end of every pair containing the center whose far
end has the requested neighbor species. -/
def collectGradPairs (iSystem center specNeighbor : Nat) (species : List Nat) :
    List IPair → List GradTuple → List GradTuple
  | [], acc => acc
  | p :: ps, acc =>
    let speciesFirst := species.getD p.first 0
    let speciesSecond := species.getD p.second 0
    collectGradPairs iSystem center specNeighbor species ps
      (if p.first = center ∧ speciesSecond = specNeighbor then
        insertIdx acc ⟨iSystem, p.first, speciesFirst, speciesSecond, p.second⟩
      else if p.second = center ∧ speciesFirst = specNeighbor then
        insertIdx acc ⟨iSystem, p.second, speciesSecond, speciesFirst, p.first⟩
      else acc)

/-- The sample loop of `AtomSpeciesSamples::gradients_for`, accumulating the
`IndexSet` of 5-tuples. -/
def gradientsForTuples (systems : List ISystem) :
    List SampleRow → List GradTuple → List GradTuple
  | [], acc => acc
  | r :: rs, acc =>
    let sys := systems.getD r.sys default
    gradientsForTuples systems rs
      (collectGradPairs r.sys r.center r.specNeighbor sys.species
        (sys.pairsContaining r.center) acc)

/-- The final emission loop: three rows (`spatial ∈ {0, 1, 2}`) per
5-tuple. -/
def spatialRows : List GradTuple → List (GradTuple × Nat)
  | [] => []
  | t :: ts => (t, 0) :: (t, 1) :: (t, 2) :: spatialRows ts

/-- `AtomSpeciesSamples::gradients_for` (the rows of the returned
`Indexes`). -/
def gradientsFor (systems : List ISystem) (samples : List SampleRow) :
    List (GradTuple × Nat) :=
  spatialRows (gradientsForTuples systems samples [])

theorem mem_spatialRows {t : GradTuple} {d : Nat} :
    ∀ {ts : List GradTuple}, (t, d) ∈ spatialRows ts ↔
      t ∈ ts ∧ (d = 0 ∨ d = 1 ∨ d = 2) := by
  intro ts
  induction ts with
  | nil => simp [spatialRows]
  | cons t0 ts ih =>
    simp only [spatialRows, List.mem_cons, ih]
    constructor
    · rintro (h | h | h | ⟨h1, h2⟩)
      · injection h with h1 h2
        exact ⟨Or.inl h1, Or.inl h2⟩
      · injection h with h1 h2
        exact ⟨Or.inl h1, Or.inr (Or.inl h2)⟩
      · injection h with h1 h2
        exact ⟨Or.inl h1, Or.inr (Or.inr h2)⟩
      · exact ⟨Or.inr h1, h2⟩
    · rintro ⟨h1 | h1, h2⟩
      · subst h1
        rcases h2 with rfl | rfl | rfl
        · exact Or.inl rfl
        · exact Or.inr (Or.inl rfl)
        · exact Or.inr (Or.inr (Or.inl rfl))
      · exact Or.inr (Or.inr (Or.inr ⟨h1, h2⟩))

theorem mem_collectGradPairs_of_mem (iSystem center specNeighbor : Nat)
    (species : List Nat) :
    ∀ (ps : List IPair) {acc : List GradTuple} {q : GradTuple},
      q ∈ acc → q ∈ collectGradPairs iSystem center specNeighbor species ps acc := by
  intro ps
  induction ps with
  | nil => intro acc q h; exact h
  | cons p ps ih =>
    intro acc q h
    rw [collectGradPairs]
    apply ih
    split_ifs <;> first | exact mem_insertIdx.mpr (Or.inl h) | exact h

/-- The far-end tuple of every matching pair ends up in the set
(first-endpoint-is-center branch). -/
theorem collectGradPairs_gen₁ (iSystem center specNeighbor : Nat)
    (species : List Nat) :
    ∀ (ps : List IPair) (acc : List GradTuple) {p : IPair}, p ∈ ps →
      p.first = center → species.getD p.second 0 = specNeighbor →
      (⟨iSystem, p.first, species.getD p.first 0, species.getD p.second 0, p.second⟩
        : GradTuple) ∈ collectGradPairs iSystem center specNeighbor species ps acc := by
  intro ps
  induction ps with
  | nil => intro acc p h; cases h
  | cons p0 ps ih =>
    intro acc p h hc hs
    rcases List.mem_cons.mp h with rfl | h
    · rw [collectGradPairs]
      apply mem_collectGradPairs_of_mem
      rw [if_pos ⟨hc, hs⟩]
      exact mem_insertIdx.mpr (Or.inr rfl)
    · rw [collectGradPairs]
      exact ih _ h hc hs

/-- The far-end tuple of every matching pair ends up in the set
(second-endpoint-is-center branch; the pair loop's `else if`, so it applies
when the first branch does not). -/
theorem collectGradPairs_gen₂ (iSystem center specNeighbor : Nat)
    (species : List Nat) :
    ∀ (ps : List IPair) (acc : List GradTuple) {p : IPair}, p ∈ ps →
      ¬(p.first = center ∧ species.getD p.second 0 = specNeighbor) →
      p.second = center → species.getD p.first 0 = specNeighbor →
      (⟨iSystem, p.second, species.getD p.second 0, species.getD p.first 0, p.first⟩
        : GradTuple) ∈ collectGradPairs iSystem center specNeighbor species ps acc := by
  intro ps
  induction ps with
  | nil => intro acc p h; cases h
  | cons p0 ps ih =>
    intro acc p h hnot hc hs
    rcases List.mem_cons.mp h with rfl | h
    · rw [collectGradPairs]
      apply mem_collectGradPairs_of_mem
      rw [if_neg hnot, if_pos ⟨hc, hs⟩]
      exact mem_insertIdx.mpr (Or.inr rfl)
    · rw [collectGradPairs]
      exact ih _ h hnot hc hs

theorem mem_gradientsForTuples_of_mem (systems : List ISystem) :
    ∀ (rs : List SampleRow) {acc : List GradTuple} {q : GradTuple},
      q ∈ acc → q ∈ gradientsForTuples systems rs acc := by
  intro rs
  induction rs with
  | nil => intro acc q h; exact h
  | cons r rs ih =>
    intro acc q h
    rw [gradientsForTuples]
    exact ih (mem_collectGradPairs_of_mem _ _ _ _ _ h)

theorem gradientsForTuples_gen₁ (systems : List ISystem) :
    ∀ (rs : List SampleRow) (acc : List GradTuple) {r : SampleRow} {sys : ISystem}
      {p : IPair},
      systems.getD r.sys default = sys → r ∈ rs →
      p ∈ sys.pairsContaining r.center → p.first = r.center →
      sys.species.getD p.second 0 = r.specNeighbor →
      (⟨r.sys, p.first, sys.species.getD p.first 0, sys.species.getD p.second 0,
        p.second⟩ : GradTuple) ∈ gradientsForTuples systems rs acc := by
  intro rs
  induction rs with
  | nil => intro acc r sys p _ hr; cases hr
  | cons r0 rs ih =>
    intro acc r sys p hget hr hp hc hs
    rw [gradientsForTuples]
    rcases List.mem_cons.mp hr with rfl | hr
    · apply mem_gradientsForTuples_of_mem
      subst hget
      exact collectGradPairs_gen₁ _ _ _ _ _ _ hp hc hs
    · exact ih _ hget hr hp hc hs

theorem gradientsForTuples_gen₂ (systems : List ISystem) :
    ∀ (rs : List SampleRow) (acc : List GradTuple) {r : SampleRow} {sys : ISystem}
      {p : IPair},
      systems.getD r.sys default = sys → r ∈ rs →
      p ∈ sys.pairsContaining r.center →
      ¬(p.first = r.center ∧ sys.species.getD p.second 0 = r.specNeighbor) →
      p.second = r.center → sys.species.getD p.first 0 = r.specNeighbor →
      (⟨r.sys, p.second, sys.species.getD p.second 0, sys.species.getD p.first 0,
        p.first⟩ : GradTuple) ∈ gradientsForTuples systems rs acc := by
  intro rs
  induction rs with
  | nil => intro acc r sys p _ hr; cases hr
  | cons r0 rs ih =>
    intro acc r sys p hget hr hp hnot hc hs
    rw [gradientsForTuples]
    rcases List.mem_cons.mp hr with rfl | hr
    · apply mem_gradientsForTuples_of_mem
      subst hget
      exact collectGradPairs_gen₂ _ _ _ _ _ _ hp hnot hc hs
    · exact ih _ hget hr hp hnot hc hs

/-- Where every tuple of the set comes from: the accumulator, or one of the
two branches of the pair loop. -/
theorem collectGradPairs_src (iSystem center specNeighbor : Nat) (species : List Nat) :
    ∀ (ps : List IPair) {acc : List GradTuple} {q : GradTuple},
      q ∈ collectGradPairs iSystem center specNeighbor species ps acc →
      q ∈ acc ∨ ∃ p ∈ ps,
        (p.first = center ∧ species.getD p.second 0 = specNeighbor ∧
          q = ⟨iSystem, p.first, species.getD p.first 0,
                species.getD p.second 0, p.second⟩) ∨
        (p.second = center ∧ species.getD p.first 0 = specNeighbor ∧
          q = ⟨iSystem, p.second, species.getD p.second 0,
                species.getD p.first 0, p.first⟩) := by
  intro ps
  induction ps with
  | nil => intro acc q h; exact Or.inl h
  | cons p0 ps ih =>
    intro acc q h
    rw [collectGradPairs] at h
    rcases ih h with hacc | ⟨p, hp, hbr⟩
    · by_cases h1 : p0.first = center ∧ species.getD p0.second 0 = specNeighbor
      · rw [if_pos h1] at hacc
        rcases mem_insertIdx.mp hacc with hacc | rfl
        · exact Or.inl hacc
        · exact Or.inr ⟨p0, List.mem_cons_self _ _, Or.inl ⟨h1.1, h1.2, rfl⟩⟩
      · rw [if_neg h1] at hacc
        by_cases h2 : p0.second = center ∧ species.getD p0.first 0 = specNeighbor
        · rw [if_pos h2] at hacc
          rcases mem_insertIdx.mp hacc with hacc | rfl
          · exact Or.inl hacc
          · exact Or.inr ⟨p0, List.mem_cons_self _ _, Or.inr ⟨h2.1, h2.2, rfl⟩⟩
        · rw [if_neg h2] at hacc
          exact Or.inl hacc
    · exact Or.inr ⟨p, List.mem_cons.mpr (Or.inr hp), hbr⟩

theorem gradientsForTuples_src (systems : List ISystem) :
    ∀ (rs : List SampleRow) {acc : List GradTuple} {q : GradTuple},
      q ∈ gradientsForTuples systems rs acc →
      q ∈ acc ∨ ∃ r ∈ rs,
        ∃ p ∈ (systems.getD r.sys default).pairsContaining r.center,
          (p.first = r.center ∧
            (systems.getD r.sys default).species.getD p.second 0 = r.specNeighbor ∧
            q = ⟨r.sys, p.first,
                  (systems.getD r.sys default).species.getD p.first 0,
                  (systems.getD r.sys default).species.getD p.second 0, p.second⟩) ∨
          (p.second = r.center ∧
            (systems.getD r.sys default).species.getD p.first 0 = r.specNeighbor ∧
            q = ⟨r.sys, p.second,
                  (systems.getD r.sys default).species.getD p.second 0,
                  (systems.getD r.sys default).species.getD p.first 0, p.first⟩) := by
  intro rs
  induction rs with
  | nil => intro acc q h; exact Or.inl h
  | cons r rs ih =>
    intro acc q h
    rw [gradientsForTuples] at h
    rcases ih h with hacc | ⟨r', hr', hrest⟩
    · rcases collectGradPairs_src _ _ _ _ _ hacc with hacc | ⟨p, hp, hbr⟩
      · exact Or.inl hacc
      · exact Or.inr ⟨r, List.mem_cons_self _ _, p, hp, hbr⟩
    · exact Or.inr ⟨r', List.mem_cons.mpr (Or.inr hr'), hrest⟩

/-- C6, counterexample to the claim as stated: in the diatomic system H–C
(species `[1, 6]`, single pair `(0, 1)`), the pair touches center `0` and
the requested sample is `(0, 0, 1, 6)`, yet no self-gradient row with
`neighbor = 0` is emitted — only the rows for the far end `1`. -/
theorem atom_species_gradients_counterexample :
    (⟨0, 1⟩ : IPair) ∈ (⟨[1, 6], [⟨0, 1⟩]⟩ : ISystem).pairsContaining 0 ∧
    gradientsFor [⟨[1, 6], [⟨0, 1⟩]⟩] [⟨0, 0, 1, 6⟩]
      = [(⟨0, 0, 1, 6, 1⟩, 0), (⟨0, 0, 1, 6, 1⟩, 1), (⟨0, 0, 1, 6, 1⟩, 2)] ∧
    (⟨0, 0, 1, 6, 0⟩, 0) ∉ gradientsFor [⟨[1, 6], [⟨0, 1⟩]⟩] [⟨0, 0, 1, 6⟩] := by
  refine ⟨by decide, by decide, by decide⟩

/-- C6, amended: for every requested sample row `(s, c, α_c, α_n)` the
builder emits the three rows `(s, c, species[c], α_n, k, d)`, `d ∈ {0,1,2}`,
for each pair containing `c` whose far end `k` has species `α_n` (the first
matching branch of the loop applies); a row with `k = c` is emitted only
when the system itself reports a self pair `(c, c)` — no self-gradient row
is added merely because some pair touches `c`. -/
theorem atom_species_gradients :
    (∀ (systems : List ISystem) (samples : List SampleRow) (r : SampleRow)
        (sys : ISystem) (p : IPair),
      systems.get? r.sys = some sys → r ∈ samples →
      p ∈ sys.pairsContaining r.center →
      p.first = r.center → sys.species.getD p.second 0 = r.specNeighbor →
      ∀ d : Nat, d = 0 ∨ d = 1 ∨ d = 2 →
        ((⟨r.sys, p.first, sys.species.getD p.first 0,
            sys.species.getD p.second 0, p.second⟩ : GradTuple), d)
          ∈ gradientsFor systems samples) ∧
    (∀ (systems : List ISystem) (samples : List SampleRow) (r : SampleRow)
        (sys : ISystem) (p : IPair),
      systems.get? r.sys = some sys → r ∈ samples →
      p ∈ sys.pairsContaining r.center →
      ¬(p.first = r.center ∧ sys.species.getD p.second 0 = r.specNeighbor) →
      p.second = r.center → sys.species.getD p.first 0 = r.specNeighbor →
      ∀ d : Nat, d = 0 ∨ d = 1 ∨ d = 2 →
        ((⟨r.sys, p.second, sys.species.getD p.second 0,
            sys.species.getD p.first 0, p.first⟩ : GradTuple), d)
          ∈ gradientsFor systems samples) ∧
    (∀ (systems : List ISystem) (samples : List SampleRow) (t : GradTuple) (d : Nat),
      (t, d) ∈ gradientsFor systems samples → t.neighbor = t.center →
      ∃ r ∈ samples,
        ∃ p ∈ (systems.getD r.sys default).pairsContaining r.center,
          p.first = p.second) := by
  refine ⟨?_, ?_, ?_⟩
  · intro systems samples r sys p hsys hr hp hc hs d hd
    have hget : systems.getD r.sys default = sys := by
      rw [List.getD_eq_getElem?_getD, ← List.get?_eq_getElem?, hsys]
      rfl
    exact mem_spatialRows.mpr
      ⟨gradientsForTuples_gen₁ systems samples [] hget hr hp hc hs, hd⟩
  · intro systems samples r sys p hsys hr hp hnot hc hs d hd
    have hget : systems.getD r.sys default = sys := by
      rw [List.getD_eq_getElem?_getD, ← List.get?_eq_getElem?, hsys]
      rfl
    exact mem_spatialRows.mpr
      ⟨gradientsForTuples_gen₂ systems samples [] hget hr hp hnot hc hs, hd⟩
  · intro systems samples t d hmem hself
    unfold gradientsFor at hmem
    have ht := (mem_spatialRows.mp hmem).1
    rcases gradientsForTuples_src systems samples ht with hacc | ⟨r, hr, p, hp, hbr⟩
    · cases hacc
    · refine ⟨r, hr, p, hp, ?_⟩
      rcases hbr with ⟨hc, _, rfl⟩ | ⟨hc, _, rfl⟩
      · simp only [GradTuple.mk.injEq] at hself ⊢
        exact hself.symm ▸ rfl
      · exact hself

theorem atom_species_gradients_witness :
    ((⟨0, 0, 1, 6, 1⟩ : GradTuple), 0) ∈ gradientsFor [⟨[1, 6], [⟨0, 1⟩]⟩] [⟨0, 0, 1, 6⟩] ∧
    ((⟨0, 0, 1, 6, 1⟩ : GradTuple), 1) ∈ gradientsFor [⟨[1, 6], [⟨0, 1⟩]⟩] [⟨0, 0, 1, 6⟩] ∧
    ((⟨0, 0, 1, 6, 1⟩ : GradTuple), 2) ∈ gradientsFor [⟨[1, 6], [⟨0, 1⟩]⟩] [⟨0, 0, 1, 6⟩] :=
  ⟨atom_species_gradients.1 [⟨[1, 6], [⟨0, 1⟩]⟩] [⟨0, 0, 1, 6⟩] ⟨0, 0, 1, 6⟩
      ⟨[1, 6], [⟨0, 1⟩]⟩ ⟨0, 1⟩ (by decide) (by decide) (by decide) (by decide)
      (by decide) 0 (by decide),
    atom_species_gradients.1 [⟨[1, 6], [⟨0, 1⟩]⟩] [⟨0, 0, 1, 6⟩] ⟨0, 0, 1, 6⟩
      ⟨[1, 6], [⟨0, 1⟩]⟩ ⟨0, 1⟩ (by decide) (by decide) (by decide) (by decide)
      (by decide) 1 (by decide),
    atom_species_gradients.1 [⟨[1, 6], [⟨0, 1⟩]⟩] [⟨0, 0, 1, 6⟩] ⟨0, 0, 1, 6⟩
      ⟨[1, 6], [⟨0, 1⟩]⟩ ⟨0, 1⟩ (by decide) (by decide) (by decide) (by decide)
      (by decide) 2 (by decide)⟩

/-! ## The C-API `System` implementation over `rascal_system_t`

From `src/rascaline-c-api/src/system.rs`: a manual virtual table whose
function pointers are `Option`s; every trait method resolves its pointer
with `expect("rascal_system_t.<name> is NULL")`, which panics when the
pointer is NULL. A function pointer together with `user_data` is embedded
as a closure. -/

/-- `rascal_pair_t`. -/
structure CPair where
  first : Nat
  second : Nat
  vector : Vec3
deriving DecidableEq

/-- A 3×3 matrix (the unit cell). -/
def Matrix3 : Type := Vec3 × Vec3 × Vec3

instance : DecidableEq Matrix3 := by
  unfold Matrix3
  infer_instance

/-- `Matrix3::zero()`. -/
def Matrix3.zero : Matrix3 := (⟨0, 0, 0⟩, ⟨0, 0, 0⟩, ⟨0, 0, 0⟩)

/-- `UnitCell`: infinite (no periodicity) or an explicit cell matrix. -/
inductive UnitCell where
  | infinite
  | cell (m : Matrix3)

/-- `rascal_system_t`: `user_data` plus one optional function pointer per
`System` operation. -/
structure RascalSystemT where
  size : Option (Unit → Nat)
  species : Option (Unit → List Nat)
  positions : Option (Unit → List Vec3)
  cell : Option (Unit → Matrix3)
  computeNeighbors : Option (ℚ → Unit)
  pairs : Option (Unit → List CPair)
  pairsContaining : Option (Nat → List CPair)

/-- The outcome of calling a `System` method on a `rascal_system_t`: the
plain return value, or a panic. The trait signatures offer no error
channel. -/
inductive PanicOr (α : Type) where
  | ok (a : α)
  | panicked (msg : String)
deriving DecidableEq

/-- `fn size(&self) -> usize`. -/
def RascalSystemT.sizeCall (s : RascalSystemT) : PanicOr Nat :=
  match s.size with
  | some f => .ok (f ())
  | none => .panicked "rascal_system_t.size is NULL"

/-- `fn species(&self) -> &[usize]` (the returned slice has `self.size()`
elements, so this also calls `size`). -/
def RascalSystemT.speciesCall (s : RascalSystemT) : PanicOr (List Nat) :=
  match s.species with
  | some f =>
    match s.sizeCall with
    | .ok n => .ok ((f ()).take n)
    | .panicked msg => .panicked msg
  | none => .panicked "rascal_system_t.species is NULL"

/-- `fn positions(&self) -> &[Vector3D]` (also reads `self.size()`). -/
def RascalSystemT.positionsCall (s : RascalSystemT) : PanicOr (List Vec3) :=
  match s.positions with
  | some f =>
    match s.sizeCall with
    | .ok n => .ok ((f ()).take n)
    | .panicked msg => .panicked msg
  | none => .panicked "rascal_system_t.positions is NULL"

/-- `fn cell(&self) -> UnitCell`: a zero matrix encodes the infinite cell. -/
def RascalSystemT.cellCall (s : RascalSystemT) : PanicOr UnitCell :=
  match s.cell with
  | some f =>
    let matrix := f ()
    if matrix = Matrix3.zero then .ok .infinite else .ok (.cell matrix)
  | none => .panicked "rascal_system_t.cell is NULL"

/-- `fn compute_neighbors(&mut self, cutoff: f64)`. -/
def RascalSystemT.computeNeighborsCall (s : RascalSystemT) (cutoff : ℚ) :
    PanicOr Unit :=
  match s.computeNeighbors with
  | some f => .ok (f cutoff)
  | none => .panicked "rascal_system_t.compute_neighbors is NULL"

/-- `fn pairs(&self) -> &[Pair]`. -/
def RascalSystemT.pairsCall (s : RascalSystemT) : PanicOr (List CPair) :=
  match s.pairs with
  | some f => .ok (f ())
  | none => .panicked "rascal_system_t.pairs is NULL"

/-- `fn pairs_containing(&self, center: usize) -> &[Pair]`. -/
def RascalSystemT.pairsContainingCall (s : RascalSystemT) (center : Nat) :
    PanicOr (List CPair) :=
  match s.pairsContaining with
  | some f => .ok (f center)
  | none => .panicked "rascal_system_t.pairs_containing is NULL"

/-- A `rascal_system_t` with every function pointer NULL. -/
def nullSystem : RascalSystemT :=
  ⟨none, none, none, none, none, none, none⟩

/-- C8, counterexample to the claim as stated: calling any of the seven
`System` operations on a `rascal_system_t` whose function pointer is NULL
panics (via `Option::expect`); no recoverable `NeighborList` error is
returned — the trait methods return bare values and have no error
channel at all. -/
theorem null_pointer_counterexample :
    nullSystem.sizeCall = .panicked "rascal_system_t.size is NULL" ∧
    nullSystem.speciesCall = .panicked "rascal_system_t.species is NULL" ∧
    nullSystem.positionsCall = .panicked "rascal_system_t.positions is NULL" ∧
    (∀ u : UnitCell, nullSystem.cellCall ≠ .ok u) ∧
    nullSystem.computeNeighborsCall 2 = .panicked "rascal_system_t.compute_neighbors is NULL" ∧
    nullSystem.pairsCall = .panicked "rascal_system_t.pairs is NULL" ∧
    nullSystem.pairsContainingCall 0 = .panicked "rascal_system_t.pairs_containing is NULL" ∧
    (∀ n : Nat, nullSystem.sizeCall ≠ .ok n) := by
  refine ⟨rfl, rfl, rfl, ?_, rfl, rfl, rfl, ?_⟩
  · intro u h
    cases h
  · intro n h
    cases h

/-- C8, amended: calling a `System` operation on a `rascal_system_t` whose
corresponding function pointer is NULL panics with the message
`rascal_system_t.<operation> is NULL` (the panic may be converted to a
generic status code at the C API boundary, but within the library it is a
panic, not a recoverable `NeighborList` error). -/
theorem null_pointer_panics (s : RascalSystemT) :
    (s.size = none → s.sizeCall = .panicked "rascal_system_t.size is NULL") ∧
    (s.species = none → s.speciesCall = .panicked "rascal_system_t.species is NULL") ∧
    (s.positions = none →
      s.positionsCall = .panicked "rascal_system_t.positions is NULL") ∧
    (s.cell = none → s.cellCall = .panicked "rascal_system_t.cell is NULL") ∧
    (s.computeNeighbors = none → ∀ cutoff : ℚ,
      s.computeNeighborsCall cutoff
        = .panicked "rascal_system_t.compute_neighbors is NULL") ∧
    (s.pairs = none → s.pairsCall = .panicked "rascal_system_t.pairs is NULL") ∧
    (s.pairsContaining = none → ∀ center : Nat,
      s.pairsContainingCall center
        = .panicked "rascal_system_t.pairs_containing is NULL") := by
  refine ⟨?_, ?_, ?_, ?_, ?_, ?_, ?_⟩
  · intro h
    unfold RascalSystemT.sizeCall
    rw [h]
  · intro h
    unfold RascalSystemT.speciesCall
    rw [h]
  · intro h
    unfold RascalSystemT.positionsCall
    rw [h]
  · intro h
    unfold RascalSystemT.cellCall
    rw [h]
  · intro h cutoff
    unfold RascalSystemT.computeNeighborsCall
    rw [h]
  · intro h
    unfold RascalSystemT.pairsCall
    rw [h]
  · intro h center
    unfold RascalSystemT.pairsContainingCall
    rw [h]

theorem null_pointer_panics_witness :
    nullSystem.sizeCall = .panicked "rascal_system_t.size is NULL" ∧
    nullSystem.pairsCall = .panicked "rascal_system_t.pairs is NULL" ∧
    nullSystem.computeNeighborsCall 2
      = .panicked "rascal_system_t.compute_neighbors is NULL" ∧
    nullSystem.pairsContainingCall 0
      = .panicked "rascal_system_t.pairs_containing is NULL" :=
  ⟨(null_pointer_panics nullSystem).1 rfl,
    (null_pointer_panics nullSystem).2.2.2.2.2.1 rfl,
    (null_pointer_panics nullSystem).2.2.2.2.1 rfl 2,
    (null_pointer_panics nullSystem).2.2.2.2.2.2 rfl 0⟩

/-! ## `Descriptor::densify` and `remove_from_indexes`

From `src/rascaline/src/descriptor/descriptor.rs`. `IndexValue` wraps an
`f64` and is embedded as `ℚ`; an `Indexes` is its names plus its rows.
Panics (`panic!` in `remove_from_indexes` when the variable is absent, the
gradient-mismatch `panic!`, and the two `expect`s) are embedded as `none`;
`densify` takes `&mut self` in Rust and assigns its fields only after every
fallible step, so the `Option`-returning embedding returns the updated
descriptor on success and `none` on panic, the caller's descriptor being
untouched in the latter case. `IndexesBuilder` is declared in a module not
present in the sources; its use in `remove_from_indexes` and `densify`
only appends the rows it is fed, which is embedded directly. -/

/-- `Indexes`: names and rows. -/
structure Indexes where
  names : List String
  rows : List (List ℚ)

/-- `Indexes::count`. -/
def Indexes.count (i : Indexes) : Nat := i.rows.length

/-- A dense 2-D array of `f64` (`Array2<f64>`). -/
structure Array2 where
  rows : Nat
  cols : Nat
  data : Nat → Nat → ℚ

/-- `Array2::zeros`. -/
def Array2.zeros (r c : Nat) : Array2 := ⟨r, c, fun _ _ => 0⟩

/-- `RemovedResult`: the indexes without the variable, the values taken by
the variable (an `IndexSet`, i.e. insertion-ordered and deduplicated), and
the mapping from `DensifiedIndex` (environment, feature_block) to the
original row position. -/
structure RemovedResult where
  indexes : Indexes
  newFeatures : List ℚ
  mapping : List ((Nat × Nat) × Nat)

/-- `BTreeMap::insert`: replace any existing entry at the key, otherwise
add one. -/
def mapInsert (m : List ((Nat × Nat) × Nat)) (k : Nat × Nat) (v : Nat) :
    List ((Nat × Nat) × Nat) :=
  (m.filter fun e => e.1 != k) ++ [(k, v)]

/-- The loop of `remove_from_indexes`: for each row, insert the variable's
value into `new_features`, the cleaned row into `new_indexes`, and record
the mapping; the `expect("missing feature that was just added")` is the
`position` lookup, `none` embedding its panic. -/
def removeFromIndexesAux (vi : Nat) :
    List (List ℚ) → Nat → List (List ℚ) → List ℚ → List ((Nat × Nat) × Nat) →
      Option (List (List ℚ) × List ℚ × List ((Nat × Nat) × Nat))
  | [], _, ni, nf, mp => some (ni, nf, mp)
  | index :: rest, old, ni, nf, mp =>
    let v := index.getD vi 0
    let nf' := insertIdx nf v
    let cleaned := index.take vi ++ index.drop (vi + 1)
    let ni' := insertIdx ni cleaned
    match position nf' v with
    | none => none
    | some fb =>
      removeFromIndexesAux vi rest (old + 1) ni' nf'
        (mapInsert mp (ni'.length - 1, fb) old)

/-- `remove_from_indexes`: `none` embeds the
`panic!("can not densify along '...' which is not present in the
environments: ...")` when the variable is not among the names. -/
def removeFromIndexes (indexes : Indexes) (var : String) :
    Option RemovedResult :=
  match position indexes.names var with
  | none => none
  | some vi =>
    match removeFromIndexesAux vi indexes.rows 0 [] [] [] with
    | none => none
    | some (ni, nf, mp) =>
      some { indexes := ⟨indexes.names.filter (fun n => n != var), ni⟩,
             newFeatures := nf, mapping := mp }

/-- Copy `count` source cells into row `env` of a 2-D array starting at
column `start` (`new_values.slice_mut(s![new.environment, start..stop])
.assign(&value)`). -/
def copyRow (f : Nat → Nat → ℚ) (env start : Nat) (src : Nat → ℚ) :
    Nat → Nat → Nat → ℚ
  | 0 => f
  | c + 1 => fun a b =>
      if a = env ∧ b = start + c then src c else copyRow f env start src c a b

/-- The value-copy loop of `densify`: one slice assignment per mapping
entry. -/
def assignMapping (srcData : Nat → Nat → ℚ) (ofs : Nat) :
    Array2 → List ((Nat × Nat) × Nat) → Array2
  | dst, [] => dst
  | dst, ((env, fb), old) :: rest =>
    assignMapping srcData ofs
      ⟨dst.rows, dst.cols, copyRow dst.data env (fb * ofs) (srcData old) ofs⟩
      rest

/-- `Descriptor`: values and optional gradients arrays plus their index
labels. -/
structure Descriptor where
  values : Array2
  gradients : Option Array2
  environments : Indexes
  features : Indexes
  gradientsIndexes : Option Indexes

/-- `Descriptor::densify(variable)`: `none` embeds a panic (unknown
variable, gradient/environment feature mismatch, or the
`expect("missing densified gradients")`). -/
def Descriptor.densify (d : Descriptor) (var : String) : Option Descriptor :=
  match removeFromIndexes d.environments var with
  | none => none
  | some newEnvironments =>
    let gradStep : Option (Option RemovedResult) :=
      match d.gradientsIndexes with
      | none => some none
      | some indexes =>
        match removeFromIndexes indexes var with
        | none => none
        | some gradients =>
          if gradients.newFeatures = newEnvironments.newFeatures then
            some (some gradients)
          else
            none
    match gradStep with
    | none => none
    | some newGradients =>
      let featureNames := var :: d.features.names
      let newFeatureRows :=
        (newEnvironments.newFeatures.map
          (fun nf => d.features.rows.map (fun feature => nf :: feature))).flatten
      let newFeatures : Indexes := ⟨featureNames, newFeatureRows⟩
      let oldFeatureSize := d.features.count
      let newValues :=
        assignMapping d.values.data oldFeatureSize
          (Array2.zeros newEnvironments.indexes.count newFeatures.count)
          newEnvironments.mapping
      match d.gradients with
      | some selfGradients =>
        match newGradients with
        | none => none
        | some ng =>
          let gradients :=
            assignMapping selfGradients.data oldFeatureSize
              (Array2.zeros ng.indexes.count newFeatures.count)
              ng.mapping
          some { values := newValues, gradients := some gradients,
                 environments := newEnvironments.indexes,
                 features := newFeatures,
                 gradientsIndexes := some ng.indexes }
      | none =>
        some { values := newValues, gradients := none,
               environments := newEnvironments.indexes,
               features := newFeatures,
               gradientsIndexes := d.gradientsIndexes }

theorem position_eq_none {α : Type} [DecidableEq α] :
    ∀ (l : List α) (r : α), r ∉ l → position l r = none := by
  intro l
  induction l with
  | nil => intro r _; rfl
  | cons x xs ih =>
    intro r h
    unfold position
    rw [if_neg (fun hx : x = r => h (List.mem_cons.mpr (Or.inl hx.symm))),
      ih r (fun hr => h (List.mem_cons_of_mem x hr))]
    rfl

/-- C10: `Descriptor::densify(variable)` panics — it does not return a
recoverable error — whenever `variable` is not one of the environment
index names: `remove_from_indexes` hits its `panic!` during the name
lookup, so `densify` aborts before any field of the descriptor is
modified (in the embedding: both return `none`, and the caller's
descriptor is handed back unchanged). -/
theorem densify_unknown_variable_panics (d : Descriptor) (var : String)
    (h : var ∉ d.environments.names) :
    removeFromIndexes d.environments var = none ∧
      d.densify var = none := by
  have hp : position d.environments.names var = none :=
    position_eq_none _ _ h
  constructor
  · unfold removeFromIndexes
    rw [hp]
  · unfold Descriptor.densify removeFromIndexes
    rw [hp]

/-- A concrete two-environment, one-feature descriptor. -/
def sampleDescriptor : Descriptor :=
  { values := Array2.zeros 2 1,
    gradients := none,
    environments := ⟨["structure", "center"], [[0, 0], [0, 1]]⟩,
    features := ⟨["n"], [[0]]⟩,
    gradientsIndexes := none }

theorem densify_unknown_variable_panics_witness :
    "species" ∉ sampleDescriptor.environments.names ∧
      (removeFromIndexes sampleDescriptor.environments "species" = none ∧
        sampleDescriptor.densify "species" = none) :=
  ⟨by decide,
    densify_unknown_variable_panics sampleDescriptor "species" (by decide)⟩

end Rascaline
